import Mathlib

/-!
Verification development for the CLOB repository: a price-time priority
limit order book matching engine.

The development shallowly embeds the engine's data model and operations:

* `Order`, `OrderTypeEnum`, `BidAskEnum` follow `src/core_types.py`
  (the top-level `order_book.py` declares the same types inline).
  Python floats for prices and quantities are embedded through a
  parameter `α` that is a linearly ordered additive commutative group:
  the engine only ever adds, subtracts, negates and compares prices
  and quantities, so every theorem below holds uniformly for `ℚ` (the
  spec calls prices and quantities rationals) and for `ℤ`, which the
  concrete witnesses use.  `timestamp` and `client` are audit-only
  fields carried as plain values.
* `DoublyLinkedList` follows `src/data_structures.py` lines 6-48: the
  sentinel-pointer representation is embedded as the sequence of linked
  orders, with the `order_id_to_node_map` index rendered as removal by
  `order_id` (the map always points at the live node for an id).
* `PriceLevelOrdersBase` follows `src/data_structures.py` lines 51-138.
  Python dicts become association lists (`mlook`/`mset`/`mdel`); the
  `heapq` binary heap becomes the multiset of its keys, since the code
  touches it only through `heappush`, `heappop` and `heap[0]`, whose
  observable behavior is insert / remove-min / read-min.
* `OrderBook` follows `src/order_book.py` (the package file).  Python
  mutates `Order` objects aliased between the id index and the level
  lists; the embedding passes state explicitly and keeps the aliases
  synchronized by updating both copies keyed by `order_id`.
* The package's `place_order`/`_execute_match` invoke the attribute
  names `delete_best_cancelled_orders` and `pop` on the side books.
  `src/data_structures.py` defines neither (it defines the private
  `_delete_best_cancelled_orders`, and no `pop`); the pre-refactor
  engine at the repository root, `order_book.py`, defines both public
  methods on its own `PriceLevelOrdersBase`.  The embedding of the
  matching loop resolves the two calls to those method bodies (`pop`
  is taken verbatim from the root file, the cleanup from the package
  file), and the name-resolution failure itself is modelled separately
  by `OrderBook.place_order_run`.
-/

/-- Order kind, from `core_types.py` (`OrderTypeEnum`). -/
inductive OrderTypeEnum where
  | LIMIT
  | MARKET
  | TRIGGER
deriving DecidableEq, Repr

/-- Order side, from `core_types.py` (`BidAskEnum`). -/
inductive BidAskEnum where
  | BID
  | ASK
deriving DecidableEq, Repr

/-- An order, from `core_types.py`.  `price` is `float | None` in the
source and becomes `Option α`; `timestamp` (a `datetime`) is carried
as a natural number since the engine never reads it. -/
structure Order (α : Type) where
  order_id : Int
  timestamp : Nat
  order_type_enum : OrderTypeEnum
  bid_ask_enum : BidAskEnum
  price : Option α
  quantity : α
  client : String
deriving DecidableEq, Repr

variable {α : Type} [LinearOrderedAddCommGroup α]

/-- The price a limit order carries; every code path that reads
`order.price` in the engine does so on an order whose price is set
(a Python `None` there would raise a `TypeError`). -/
def Order.priceQ [Zero α] (o : Order α) : α := o.price.getD 0

/-! ### Association-list rendering of Python dicts

`mlook` is `d.get(k)` / `d[k]`, `mset` is `d[k] = v` (replace the
binding if the key is present, append a new binding otherwise),
`mdel` is `del d[k]` / `d.pop(k, None)`, and `mmodify` applies a
function to the binding when present.  Python dict keys are unique;
states reachable from the empty book keep the association lists
duplicate-free, and the well-formedness predicates below record it. -/

def mlook {κ β : Type} [DecidableEq κ] : List (κ × β) → κ → Option β
  | [], _ => none
  | (k, v) :: t, q => if q = k then some v else mlook t q

def mset {κ β : Type} [DecidableEq κ] : List (κ × β) → κ → β → List (κ × β)
  | [], q, v => [(q, v)]
  | (k, v0) :: t, q, v => if q = k then (k, v) :: t else (k, v0) :: mset t q v

def mdel {κ β : Type} [DecidableEq κ] : List (κ × β) → κ → List (κ × β)
  | [], _ => []
  | (k, v) :: t, q => if q = k then t else (k, v) :: mdel t q

def mmodify {κ β : Type} [DecidableEq κ] : List (κ × β) → κ → (β → β) → List (κ × β)
  | [], _, _ => []
  | (k, v) :: t, q, f => if q = k then (k, f v) :: t else (k, v) :: mmodify t q f

/-- Keys of an association list. -/
def mkeys {κ β : Type} (m : List (κ × β)) : List κ := m.map Prod.fst

/-! ### The binary heap as the multiset of its keys

`heapq` maintains a min-heap; the engine reads `heap[0]` (the minimum
key), pushes with `heappush` and pops the minimum with `heappop`.
`heapMin` is `heap[0]` (as an `Option` for the empty heap, which the
code always guards). -/

def heapMin [LinearOrder α] : List α → Option α
  | [] => none
  | k :: t =>
    match heapMin t with
    | none => some k
    | some m => some (min k m)

/-- `heapq.heappush(heap, k)`: the multiset gains `k`. -/
def heapPush (h : List α) (k : α) : List α := k :: h

/-! ### DoublyLinkedList, `src/data_structures.py` lines 18-48 -/

/-- The doubly-linked FIFO of orders at one price level.  The sentinel
head/tail pointer structure is embedded as the linked sequence itself;
`order_id_to_node_map` is rendered by addressing nodes through their
order id. -/
structure DoublyLinkedList (α : Type) where
  orders : List (Order α)
deriving DecidableEq, Repr

/-- A fresh list with only the two sentinels. -/
def DoublyLinkedList.empty : DoublyLinkedList α := ⟨[]⟩

/-- `push`: append the order before the tail sentinel and index its node. -/
def DoublyLinkedList.push (l : DoublyLinkedList α) (o : Order α) : DoublyLinkedList α :=
  ⟨l.orders ++ [o]⟩

/-- Splice out the node that `order_id_to_node_map` holds for `oid`;
no-op when the id is not indexed.  The map holds the node most
recently pushed for an id, which under the engine's id-uniqueness is
the only one. -/
def removeById : List (Order α) → Int → List (Order α)
  | [], _ => []
  | o :: t, oid => if o.order_id = oid then t else o :: removeById t oid

/-- `remove`: drop the indexed node for `order.order_id`, if any. -/
def DoublyLinkedList.remove (l : DoublyLinkedList α) (o : Order α) : DoublyLinkedList α :=
  ⟨removeById l.orders o.order_id⟩

/-- `peek`: `head.next_node.val` — the first linked order, or the tail
sentinel's `None` when nothing is linked. -/
def DoublyLinkedList.peek (l : DoublyLinkedList α) : Option (Order α) :=
  l.orders.head?

/-- `is_empty`: `head.next_node == tail`. -/
def DoublyLinkedList.is_empty (l : DoublyLinkedList α) : Bool :=
  l.orders.isEmpty

/-! ### PriceLevelOrdersBase, `src/data_structures.py` lines 51-138

The `BidOrders` / `AskOrders` subclasses differ only in `_heap_key` and
`_real_price`; the embedding passes the side as a boolean `isBid`. -/

/-- `BidOrders._heap_key` negates the price so a min-heap serves as a
max-heap; `AskOrders._heap_key` is the identity. -/
def heap_key [Neg α] (isBid : Bool) (price : α) : α := if isBid then -price else price

/-- Inverse decoding of a heap key back to a price. -/
def real_price [Neg α] (isBid : Bool) (k : α) : α := if isBid then -k else k

/-- One side of the book: `price_to_quantity_map`, `price_to_list_map`
and `price_heap`, from `PriceLevelOrdersBase.__init__`. -/
structure PriceLevelOrdersBase (α : Type) where
  price_to_quantity_map : List (α × α)
  price_to_list_map : List (α × DoublyLinkedList α)
  price_heap : List α
deriving DecidableEq, Repr

/-- A freshly constructed side book. -/
def PriceLevelOrdersBase.empty : PriceLevelOrdersBase α := ⟨[], [], []⟩

/-- `add` (`src/data_structures.py` lines 58-70): append the order to
its price's FIFO and aggregate, creating the level and pushing the
heap key when the price is new. -/
def PriceLevelOrdersBase.add (b : PriceLevelOrdersBase α) (isBid : Bool) (o : Order α) :
    PriceLevelOrdersBase α :=
  let price := o.priceQ
  let hp := heap_key isBid price
  match mlook b.price_to_list_map price with
  | some dll =>
    { b with
      price_to_quantity_map :=
        mset b.price_to_quantity_map price
          ((mlook b.price_to_quantity_map price).getD 0 + o.quantity)
      price_to_list_map := mset b.price_to_list_map price (dll.push o) }
  | none =>
    { price_to_quantity_map := mset b.price_to_quantity_map price o.quantity
      price_to_list_map := mset b.price_to_list_map price (DoublyLinkedList.empty.push o)
      price_heap := heapPush b.price_heap hp }

/-- `delete_order` (`src/data_structures.py` lines 73-84): remove the
order from its level's FIFO and subtract its quantity from the
aggregate; drop both map entries when the level empties.  The heap key
is left for lazy cleanup. -/
def PriceLevelOrdersBase.delete_order (b : PriceLevelOrdersBase α) (o : Order α) :
    PriceLevelOrdersBase α :=
  let p := o.priceQ
  match mlook b.price_to_list_map p with
  | none => b
  | some dll =>
    let dll1 := dll.remove o
    let qty1 :=
      mset b.price_to_quantity_map p
        ((mlook b.price_to_quantity_map p).getD 0 - o.quantity)
    if dll1.is_empty then
      { b with
        price_to_quantity_map := mdel qty1 p
        price_to_list_map := mdel b.price_to_list_map p }
    else
      { b with
        price_to_quantity_map := qty1
        price_to_list_map := mset b.price_to_list_map p dll1 }

/-- The node update behind `decrease_order_quantity`: the Python
mutation of the aliased order object is rendered by updating the node
that carries its id. -/
def decId : List (Order α) → Int → α → List (Order α)
  | [], _, _ => []
  | o :: t, oid, d =>
    if o.order_id = oid then { o with quantity := o.quantity - d } :: t
    else o :: decId t oid d

/-- `decrease_order_quantity` (`src/data_structures.py` lines 87-91):
subtract the incoming quantity from the price's aggregate and from the
resting order itself. -/
def PriceLevelOrdersBase.decrease_order_quantity (b : PriceLevelOrdersBase α)
    (order_to_decrease : Order α) (incoming_order_quantity : α) : PriceLevelOrdersBase α :=
  let p := order_to_decrease.priceQ
  { b with
    price_to_quantity_map :=
      mset b.price_to_quantity_map p
        ((mlook b.price_to_quantity_map p).getD 0 - incoming_order_quantity)
    price_to_list_map :=
      mmodify b.price_to_list_map p
        (fun dll => ⟨decId dll.orders order_to_decrease.order_id incoming_order_quantity⟩) }

/-- `get_quantity_for_price` (`src/data_structures.py` lines 93-94):
the aggregate at a price, zero when absent. -/
def PriceLevelOrdersBase.get_quantity_for_price (b : PriceLevelOrdersBase α) (price : α) : α :=
  (mlook b.price_to_quantity_map price).getD 0

/-- One pass of `_delete_best_cancelled_orders`
(`src/data_structures.py` lines 105-115), with explicit fuel: while
the heap is nonempty, decode the root; if its level is absent or
empty, drop the two map entries (`pop` with a `None` default) and the
root, and continue; otherwise stop.  Each step removes one heap key,
so fuel equal to the heap length runs the loop to completion. -/
def cleanupFuel (isBid : Bool) : Nat → PriceLevelOrdersBase α → PriceLevelOrdersBase α
  | 0, b => b
  | fuel + 1, b =>
    match heapMin b.price_heap with
    | none => b
    | some topKey =>
      match mlook b.price_to_list_map (real_price isBid topKey) with
      | none =>
        cleanupFuel isBid fuel
          { price_to_quantity_map := mdel b.price_to_quantity_map (real_price isBid topKey)
            price_to_list_map := mdel b.price_to_list_map (real_price isBid topKey)
            price_heap := b.price_heap.erase topKey }
      | some dll =>
        if dll.is_empty then
          cleanupFuel isBid fuel
            { price_to_quantity_map := mdel b.price_to_quantity_map (real_price isBid topKey)
              price_to_list_map := mdel b.price_to_list_map (real_price isBid topKey)
              price_heap := b.price_heap.erase topKey }
        else b

/-- `_delete_best_cancelled_orders`: run the cleanup loop to
completion. -/
def PriceLevelOrdersBase.delete_best_cancelled_orders (b : PriceLevelOrdersBase α)
    (isBid : Bool) : PriceLevelOrdersBase α :=
  cleanupFuel isBid b.price_heap.length b

/-- `get_best_order` (`src/data_structures.py` lines 97-102): clean up
stale heap tops, then peek the FIFO at the decoded root price.  The
mutation performed by the cleanup is part of the result. -/
def PriceLevelOrdersBase.get_best_order (b : PriceLevelOrdersBase α) (isBid : Bool) :
    PriceLevelOrdersBase α × Option (Order α) :=
  let b1 := b.delete_best_cancelled_orders isBid
  match heapMin b1.price_heap with
  | none => (b1, none)
  | some topKey =>
    (b1, (mlook b1.price_to_list_map (real_price isBid topKey)).bind
      DoublyLinkedList.peek)

/-- `pop`, from the pre-refactor engine (`order_book.py` at the
repository root, lines 102-118), the method body the package's
`_execute_match` invokes by name: remove the head order of the best
level, subtract its quantity from the aggregate, and drop the level
(maps and heap root) when it empties.  The branches returning `none`
with the book unchanged correspond to states where the Python would
raise (`KeyError` on a stale root, `AttributeError` on an empty
level); the call site reaches `pop` only right after `get_best_order`
returned an order, which excludes them. -/
def PriceLevelOrdersBase.pop (b : PriceLevelOrdersBase α) (isBid : Bool) :
    PriceLevelOrdersBase α × Option (Order α) :=
  match heapMin b.price_heap with
  | none => (b, none)
  | some topKey =>
    let best_price := real_price isBid topKey
    match mlook b.price_to_list_map best_price with
    | none => (b, none)
    | some dll =>
      match dll.peek with
      | none => (b, none)
      | some o =>
        let qty1 :=
          mset b.price_to_quantity_map best_price
            ((mlook b.price_to_quantity_map best_price).getD 0 - o.quantity)
        let dll1 := dll.remove o
        if dll1.is_empty then
          ({ price_to_quantity_map := mdel qty1 best_price
             price_to_list_map := mdel b.price_to_list_map best_price
             price_heap := b.price_heap.erase topKey }, some o)
        else
          ({ b with
             price_to_quantity_map := qty1
             price_to_list_map := mset b.price_to_list_map best_price dll1 }, some o)

/-! ### OrderBook, `src/order_book.py` -/

/-- The order book: the global id index and the two side books
(`OrderBook.__init__`). -/
structure OrderBook (α : Type) where
  id_to_order_map : List (Int × Order α)
  bid_orders : PriceLevelOrdersBase α
  ask_orders : PriceLevelOrdersBase α
deriving DecidableEq, Repr

/-- A freshly constructed book. -/
def OrderBook.empty : OrderBook α :=
  ⟨[], PriceLevelOrdersBase.empty, PriceLevelOrdersBase.empty⟩

/-- The side book matched against: bids when `oppIsBid`, asks
otherwise. -/
def OrderBook.oppBook (bk : OrderBook α) (oppIsBid : Bool) : PriceLevelOrdersBase α :=
  if oppIsBid then bk.bid_orders else bk.ask_orders

/-- Replace the side book selected by `oppIsBid`. -/
def OrderBook.setOpp (bk : OrderBook α) (oppIsBid : Bool) (b : PriceLevelOrdersBase α) :
    OrderBook α :=
  if oppIsBid then { bk with bid_orders := b } else { bk with ask_orders := b }

/-- `get_best_bid_order`: delegate to the bid side; the lazy cleanup
it performs is part of the returned state. -/
def OrderBook.get_best_bid_order (bk : OrderBook α) : OrderBook α × Option (Order α) :=
  let (b1, r) := bk.bid_orders.get_best_order true
  ({ bk with bid_orders := b1 }, r)

/-- `get_best_ask_order`: delegate to the ask side. -/
def OrderBook.get_best_ask_order (bk : OrderBook α) : OrderBook α × Option (Order α) :=
  let (b1, r) := bk.ask_orders.get_best_order false
  ({ bk with ask_orders := b1 }, r)

/-- `get_best_bid_price` (`src/order_book.py` lines 17-19):
`order.price if order else None`. -/
def OrderBook.get_best_bid_price (bk : OrderBook α) : OrderBook α × Option α :=
  let (bk1, r) := bk.get_best_bid_order
  (bk1, r.bind Order.price)

/-- `get_best_ask_price` (`src/order_book.py` lines 21-23). -/
def OrderBook.get_best_ask_price (bk : OrderBook α) : OrderBook α × Option α :=
  let (bk1, r) := bk.get_best_ask_order
  (bk1, r.bind Order.price)

/-- `get_quantity_for_price` (`src/order_book.py` lines 25-29). -/
def OrderBook.get_quantity_for_price (bk : OrderBook α) (price : α)
    (order_type : BidAskEnum) : α :=
  let selected_book :=
    if order_type = BidAskEnum.BID then bk.bid_orders else bk.ask_orders
  selected_book.get_quantity_for_price price

/-- `_execute_match` (`src/order_book.py` lines 31-52): one matching
step between the incoming order and the best opposite resting order.
Returns the updated book together with the incoming and resting
orders as the Python mutations leave them.  The id-index `del` is a
no-op when the id is absent (the Python would raise `KeyError`, which
invariant I1 excludes); the aliased resting order inside the id index
is updated alongside the node in the quantity-decrease branch. -/
def OrderBook.execute_match (bk : OrderBook α) (incoming_order best_opposite_order : Order α)
    (oppIsBid : Bool) : OrderBook α × Order α × Order α :=
  let opp := bk.oppBook oppIsBid
  if incoming_order.quantity = best_opposite_order.quantity then
    let opp1 := (opp.pop oppIsBid).1
    let opp2 := opp1.delete_best_cancelled_orders oppIsBid
    let bk1 := bk.setOpp oppIsBid opp2
    ({ bk1 with id_to_order_map := mdel bk1.id_to_order_map best_opposite_order.order_id },
      { incoming_order with quantity := 0 },
      { best_opposite_order with quantity := 0 })
  else if incoming_order.quantity < best_opposite_order.quantity then
    let opp1 := opp.decrease_order_quantity best_opposite_order incoming_order.quantity
    let opp2 := opp1.delete_best_cancelled_orders oppIsBid
    let bk1 := bk.setOpp oppIsBid opp2
    ({ bk1 with
        id_to_order_map :=
          mmodify bk1.id_to_order_map best_opposite_order.order_id
            (fun o => { o with quantity := o.quantity - incoming_order.quantity }) },
      { incoming_order with quantity := 0 },
      { best_opposite_order with
          quantity := best_opposite_order.quantity - incoming_order.quantity })
  else
    let opp1 := (opp.pop oppIsBid).1
    let opp2 := opp1.delete_best_cancelled_orders oppIsBid
    let bk1 := bk.setOpp oppIsBid opp2
    ({ bk1 with id_to_order_map := mdel bk1.id_to_order_map best_opposite_order.order_id },
      { incoming_order with
          quantity := incoming_order.quantity - best_opposite_order.quantity },
      { best_opposite_order with quantity := 0 })

/-- `_match_limit_order` (`src/order_book.py` lines 54-64), with
explicit fuel: while the incoming order has quantity, fetch the best
opposite order (running its lazy cleanup), stop when the side is
exhausted or the crossing predicate fails, otherwise run one matching
step.  Every iteration that recurses with remaining quantity removed
a resting order, so any fuel of at least `countOrders + 2` runs the
loop to its break condition. -/
def OrderBook.match_limit_order (oppIsBid : Bool) (pred : α → α → Bool) :
    Nat → OrderBook α → Order α → OrderBook α × Order α
  | 0, bk, o => (bk, o)
  | fuel + 1, bk, o =>
    if 0 < o.quantity then
      let (opp1, bestOpt) := (bk.oppBook oppIsBid).get_best_order oppIsBid
      let bk1 := bk.setOpp oppIsBid opp1
      match bestOpt with
      | none => (bk1, o)
      | some best =>
        if pred o.priceQ best.priceQ then
          let (bk2, o2, _) := bk1.execute_match o best oppIsBid
          OrderBook.match_limit_order oppIsBid pred fuel bk2 o2
        else (bk1, o)
    else (bk, o)

/-- `_match_market_order` (`src/order_book.py` lines 66-72): the same
loop without a crossing predicate. -/
def OrderBook.match_market_order (oppIsBid : Bool) :
    Nat → OrderBook α → Order α → OrderBook α × Order α
  | 0, bk, o => (bk, o)
  | fuel + 1, bk, o =>
    if 0 < o.quantity then
      let (opp1, bestOpt) := (bk.oppBook oppIsBid).get_best_order oppIsBid
      let bk1 := bk.setOpp oppIsBid opp1
      match bestOpt with
      | none => (bk1, o)
      | some best =>
        let (bk2, o2, _) := bk1.execute_match o best oppIsBid
        OrderBook.match_market_order oppIsBid fuel bk2 o2
    else (bk, o)

/-- Number of resting orders on a side; a bound for the matching
loops, since each full fill removes one resting order. -/
def PriceLevelOrdersBase.countOrders (b : PriceLevelOrdersBase α) : Nat :=
  (b.price_to_list_map.map (fun pl => pl.2.orders.length)).sum

/-- `place_order` (`src/order_book.py` lines 74-102): clean both
heaps, then match a LIMIT order against the opposite side under its
crossing predicate and enqueue any residual on the home side (also
indexing it), or sweep a MARKET order until the opposite side is
exhausted.  A TRIGGER order falls through both branches.  The returned
order carries the caller-visible mutation of `order.quantity`. -/
def OrderBook.place_order (bk : OrderBook α) (order : Order α) : OrderBook α × Order α :=
  let bk := { bk with
    bid_orders := bk.bid_orders.delete_best_cancelled_orders true
    ask_orders := bk.ask_orders.delete_best_cancelled_orders false }
  match order.order_type_enum with
  | OrderTypeEnum.LIMIT =>
    let oppIsBid := order.bid_ask_enum ≠ BidAskEnum.BID
    let pred : α → α → Bool :=
      if order.bid_ask_enum = BidAskEnum.BID then
        fun order_price book_price => book_price ≤ order_price
      else
        fun order_price book_price => order_price ≤ book_price
    let fuel := (bk.oppBook oppIsBid).countOrders + 2
    let (bk1, o1) := OrderBook.match_limit_order oppIsBid pred fuel bk order
    if 0 < o1.quantity then
      let home1 := (bk1.oppBook (!oppIsBid)).add (!oppIsBid) o1
      let bk2 := bk1.setOpp (!oppIsBid) home1
      ({ bk2 with id_to_order_map := mset bk2.id_to_order_map o1.order_id o1 }, o1)
    else (bk1, o1)
  | OrderTypeEnum.MARKET =>
    let oppIsBid := order.bid_ask_enum ≠ BidAskEnum.BID
    let fuel := (bk.oppBook oppIsBid).countOrders + 2
    OrderBook.match_market_order oppIsBid fuel bk order
  | OrderTypeEnum.TRIGGER => (bk, order)

/-- `cancel_order` (`src/order_book.py` lines 104-114): silently
ignore unknown ids; otherwise remove the referenced order from its
side's level and from the id index.  The cancelled order's own
`quantity` field is not touched. -/
def OrderBook.cancel_order (bk : OrderBook α) (order_id : Int) : OrderBook α :=
  match mlook bk.id_to_order_map order_id with
  | none => bk
  | some cancelled_order =>
    if cancelled_order.bid_ask_enum = BidAskEnum.BID then
      { bk with
        bid_orders := bk.bid_orders.delete_order cancelled_order
        id_to_order_map := mdel bk.id_to_order_map order_id }
    else
      { bk with
        ask_orders := bk.ask_orders.delete_order cancelled_order
        id_to_order_map := mdel bk.id_to_order_map order_id }

/-! ### The attribute-resolution defect in the package engine

`src/order_book.py` line 75 evaluates
`self.bid_orders.delete_best_cancelled_orders()`.  Attribute lookup on
a `BidOrders` instance searches the class and its base
`PriceLevelOrdersBase` in `src/data_structures.py`; the names actually
defined there are listed below, and the public name the call uses is
not among them, so the lookup raises `AttributeError` before any
matching or validation happens.  (`pop`, invoked by `_execute_match`
lines 38 and 48, is missing as well.) -/

/-- The method names `class PriceLevelOrdersBase` in
`src/data_structures.py` defines (lines 51-121). -/
def priceLevelOrdersBaseMethodNames : List String :=
  ["__init__", "add", "delete_order", "decrease_order_quantity",
   "get_quantity_for_price", "get_best_order", "_delete_best_cancelled_orders",
   "_heap_key", "_real_price"]

/-- The method names `class BidOrders` adds (lines 124-129): only the
two key codecs. -/
def bidOrdersOwnMethodNames : List String := ["_heap_key", "_real_price"]

/-- Python attribute lookup on a `BidOrders` instance: the class dict,
then the base class dict. -/
def resolveSideBookAttr (name : String) : Except String Unit :=
  if bidOrdersOwnMethodNames.contains name ∨
      priceLevelOrdersBaseMethodNames.contains name then Except.ok ()
  else Except.error ("AttributeError: " ++ name)

/-- `place_order` as the interpreter runs it: the first statement
(line 75) resolves the attribute `delete_best_cancelled_orders` on the
bid side book, line 76 the same on the ask side, and only then does
the matching body (embedded above as `OrderBook.place_order`, with the
misnamed calls resolved to their intended targets) execute. -/
def OrderBook.place_order_run (bk : OrderBook α) (order : Order α) :
    Except String (OrderBook α × Order α) := do
  let _ ← resolveSideBookAttr "delete_best_cancelled_orders"
  let _ ← resolveSideBookAttr "delete_best_cancelled_orders"
  Except.ok (bk.place_order order)

/-! ### The pre-refactor best-price queries, `order_book.py` (root)

The root engine's `get_best_order` (lines 137-141) performs no
cleanup, and its price queries (lines 181-187) return the number `0`
instead of an absence value when the side has no best order. -/

/-- Root-file `get_best_order`: read the heap root without cleanup and
peek that price's FIFO. -/
def PriceLevelOrdersBase.legacy_get_best_order (b : PriceLevelOrdersBase α)
    (isBid : Bool) : Option (Order α) :=
  match heapMin b.price_heap with
  | none => none
  | some topKey =>
    (mlook b.price_to_list_map (real_price isBid topKey)).bind DoublyLinkedList.peek

/-- Root-file `get_best_bid_price` (lines 181-183):
`order.price if order else 0`. -/
def OrderBook.legacy_get_best_bid_price (bk : OrderBook α) : α :=
  match bk.bid_orders.legacy_get_best_order true with
  | some order => order.priceQ
  | none => 0

/-- Root-file `get_best_ask_price` (lines 185-187). -/
def OrderBook.legacy_get_best_ask_price (bk : OrderBook α) : α :=
  match bk.ask_orders.legacy_get_best_order false with
  | some order => order.priceQ
  | none => 0

/-! ### Sums of resting quantity -/

/-- Sum of the order quantities in a level's FIFO. -/
def sumQty (l : List (Order α)) : α := (l.map Order.quantity).sum

/-- Total resting quantity across the levels of a list map. -/
def mtotal (m : List (α × DoublyLinkedList α)) : α :=
  (m.map (fun pl => sumQty pl.2.orders)).sum

/-- Total resting quantity on a side. -/
def PriceLevelOrdersBase.totalQty (b : PriceLevelOrdersBase α) : α :=
  mtotal b.price_to_list_map

/-! ### Association-list lemmas -/

theorem mlook_mset_self {κ β : Type} [DecidableEq κ] (m : List (κ × β)) (k : κ) (v : β) :
    mlook (mset m k v) k = some v := by
  induction m with
  | nil => simp [mset, mlook]
  | cons hd t ih =>
    obtain ⟨k0, v0⟩ := hd
    by_cases hk : k = k0
    · subst hk; simp [mset, mlook]
    · simp [mset, mlook, hk, ih]

theorem mlook_mset_ne {κ β : Type} [DecidableEq κ] (m : List (κ × β)) {k q : κ} (v : β)
    (h : q ≠ k) : mlook (mset m k v) q = mlook m q := by
  induction m with
  | nil => simp [mset, mlook, h]
  | cons hd t ih =>
    obtain ⟨k0, v0⟩ := hd
    by_cases hk : k = k0
    · subst hk; simp [mset, mlook, h]
    · by_cases hq : q = k0 <;> simp [mset, mlook, hk, hq, ih]

theorem mlook_mdel_ne {κ β : Type} [DecidableEq κ] (m : List (κ × β)) {k q : κ}
    (h : q ≠ k) : mlook (mdel m k) q = mlook m q := by
  induction m with
  | nil => simp [mdel]
  | cons hd t ih =>
    obtain ⟨k0, v0⟩ := hd
    by_cases hk : k = k0
    · subst hk; simp [mdel, mlook, h]
    · by_cases hq : q = k0 <;> simp [mdel, mlook, hk, hq, ih]

theorem mlook_none_iff {κ β : Type} [DecidableEq κ] (m : List (κ × β)) (k : κ) :
    mlook m k = none ↔ k ∉ mkeys m := by
  induction m with
  | nil => simp [mlook, mkeys]
  | cons hd t ih =>
    obtain ⟨k0, v0⟩ := hd
    by_cases hk : k = k0
    · subst hk; simp [mlook, mkeys]
    · simp [mlook, mkeys, hk, ih]

theorem mlook_mdel_self {κ β : Type} [DecidableEq κ] (m : List (κ × β)) (k : κ)
    (hnd : (mkeys m).Nodup) : mlook (mdel m k) k = none := by
  induction m with
  | nil => simp [mdel, mlook]
  | cons hd t ih =>
    obtain ⟨k0, v0⟩ := hd
    simp only [mkeys, List.map_cons, List.nodup_cons] at hnd
    by_cases hk : k = k0
    · subst hk
      simp only [mdel, if_pos rfl]
      exact (mlook_none_iff t k).2 hnd.1
    · simp [mdel, mlook, hk, ih hnd.2]

theorem mlook_mmodify_self {κ β : Type} [DecidableEq κ] (m : List (κ × β)) (k : κ)
    (f : β → β) : mlook (mmodify m k f) k = (mlook m k).map f := by
  induction m with
  | nil => simp [mmodify, mlook]
  | cons hd t ih =>
    obtain ⟨k0, v0⟩ := hd
    by_cases hk : k = k0
    · subst hk; simp [mmodify, mlook]
    · simp [mmodify, mlook, hk, ih]

theorem mlook_mmodify_ne {κ β : Type} [DecidableEq κ] (m : List (κ × β)) {k q : κ}
    (f : β → β) (h : q ≠ k) : mlook (mmodify m k f) q = mlook m q := by
  induction m with
  | nil => simp [mmodify]
  | cons hd t ih =>
    obtain ⟨k0, v0⟩ := hd
    by_cases hk : k = k0
    · subst hk; simp [mmodify, mlook, h]
    · by_cases hq : q = k0 <;> simp [mmodify, mlook, hk, hq, ih]

theorem mlook_mem {κ β : Type} [DecidableEq κ] {m : List (κ × β)} {k : κ} {v : β}
    (h : mlook m k = some v) : (k, v) ∈ m := by
  induction m with
  | nil => simp [mlook] at h
  | cons hd t ih =>
    obtain ⟨k0, v0⟩ := hd
    by_cases hk : k = k0
    · subst hk
      simp only [mlook, if_pos rfl] at h
      cases h
      exact List.mem_cons_self _ _
    · simp only [mlook, if_neg hk] at h
      exact List.mem_cons_of_mem _ (ih h)

theorem mem_mkeys_of_mlook {κ β : Type} [DecidableEq κ] {m : List (κ × β)} {k : κ} {v : β}
    (h : mlook m k = some v) : k ∈ mkeys m := by
  have := mlook_mem h
  exact List.mem_map.2 ⟨(k, v), this, rfl⟩

theorem mset_eq_self {κ β : Type} [DecidableEq κ] {m : List (κ × β)} {k : κ} {v : β}
    (h : mlook m k = some v) : mset m k v = m := by
  induction m with
  | nil => simp [mlook] at h
  | cons hd t ih =>
    obtain ⟨k0, v0⟩ := hd
    by_cases hk : k = k0
    · subst hk
      simp only [mlook, if_pos rfl] at h
      cases h
      simp [mset]
    · simp only [mlook, if_neg hk] at h
      simp [mset, hk, ih h]

theorem mset_mset {κ β : Type} [DecidableEq κ] (m : List (κ × β)) (k : κ) (v w : β) :
    mset (mset m k v) k w = mset m k w := by
  induction m with
  | nil => simp [mset]
  | cons hd t ih =>
    obtain ⟨k0, v0⟩ := hd
    by_cases hk : k = k0
    · subst hk; simp [mset]
    · simp [mset, hk, ih]

theorem mset_absent {κ β : Type} [DecidableEq κ] {m : List (κ × β)} {k : κ} (v : β)
    (h : mlook m k = none) : mset m k v = m ++ [(k, v)] := by
  induction m with
  | nil => simp [mset]
  | cons hd t ih =>
    obtain ⟨k0, v0⟩ := hd
    by_cases hk : k = k0
    · subst hk; simp [mlook] at h
    · simp only [mlook, if_neg hk] at h
      simp [mset, hk, ih h]

theorem mdel_absent {κ β : Type} [DecidableEq κ] {m : List (κ × β)} {k : κ}
    (h : mlook m k = none) : mdel m k = m := by
  induction m with
  | nil => simp [mdel]
  | cons hd t ih =>
    obtain ⟨k0, v0⟩ := hd
    by_cases hk : k = k0
    · subst hk; simp [mlook] at h
    · simp only [mlook, if_neg hk] at h
      simp [mdel, hk, ih h]

theorem mdel_append_last {κ β : Type} [DecidableEq κ] {m : List (κ × β)} {k : κ} (v : β)
    (h : mlook m k = none) : mdel (m ++ [(k, v)]) k = m := by
  induction m with
  | nil => simp [mdel]
  | cons hd t ih =>
    obtain ⟨k0, v0⟩ := hd
    by_cases hk : k = k0
    · subst hk; simp [mlook] at h
    · simp only [mlook, if_neg hk] at h
      simp [mdel, hk, ih h]

theorem mkeys_mset {κ β : Type} [DecidableEq κ] (m : List (κ × β)) (k : κ) (v : β) :
    mkeys (mset m k v) = if k ∈ mkeys m then mkeys m else mkeys m ++ [k] := by
  induction m with
  | nil => simp [mset, mkeys]
  | cons hd t ih =>
    obtain ⟨k0, v0⟩ := hd
    by_cases hk : k = k0
    · subst hk; simp [mset, mkeys]
    · by_cases hmem : k ∈ mkeys t <;>
        simp [mset, mkeys, hk, hmem, ih] at ih ⊢ <;> simp [mkeys] at hmem <;>
        simp [ih, hmem, hk]

theorem mkeys_mset_nodup {κ β : Type} [DecidableEq κ] {m : List (κ × β)} (k : κ) (v : β)
    (h : (mkeys m).Nodup) : (mkeys (mset m k v)).Nodup := by
  rw [mkeys_mset]
  by_cases hmem : k ∈ mkeys m
  · simpa [hmem] using h
  · simp only [hmem, if_false]
    simp [List.nodup_append, h, hmem]

theorem mdel_sublist {κ β : Type} [DecidableEq κ] (m : List (κ × β)) (k : κ) :
    (mdel m k).Sublist m := by
  induction m with
  | nil => simp [mdel]
  | cons hd t ih =>
    obtain ⟨k0, v0⟩ := hd
    by_cases hk : k = k0
    · simp only [mdel, if_pos hk]
      exact List.Sublist.cons _ (List.Sublist.refl t)
    · simp only [mdel, if_neg hk]
      exact ih.cons₂ _

theorem mkeys_mdel_nodup {κ β : Type} [DecidableEq κ] {m : List (κ × β)} (k : κ)
    (h : (mkeys m).Nodup) : (mkeys (mdel m k)).Nodup := by
  exact ((mdel_sublist m k).map Prod.fst).nodup h

theorem mkeys_mmodify {κ β : Type} [DecidableEq κ] (m : List (κ × β)) (k : κ) (f : β → β) :
    mkeys (mmodify m k f) = mkeys m := by
  induction m with
  | nil => simp [mmodify]
  | cons hd t ih =>
    obtain ⟨k0, v0⟩ := hd
    by_cases hk : k = k0 <;> simp [mmodify, mkeys, hk] <;>
      simpa [mkeys] using ih

/-! ### Heap lemmas -/

theorem heapMin_eq_none_iff (h : List α) : heapMin h = none ↔ h = [] := by
  cases h with
  | nil => simp [heapMin]
  | cons k t =>
    simp only [heapMin]
    cases heapMin t <;> simp

theorem heapMin_mem {h : List α} : ∀ {k : α}, heapMin h = some k → k ∈ h := by
  induction h with
  | nil => intro k e; simp [heapMin] at e
  | cons a t ih =>
    intro k e
    simp only [heapMin] at e
    cases ht : heapMin t with
    | none =>
      rw [ht] at e
      cases e
      exact List.mem_cons_self _ _
    | some m =>
      rw [ht] at e
      cases e
      rcases le_total a m with hle | hle
      · rw [min_eq_left hle]; exact List.mem_cons_self _ _
      · rw [min_eq_right hle]
        exact List.mem_cons_of_mem _ (ih ht)

theorem heapMin_le {h : List α} : ∀ {k : α}, heapMin h = some k →
    ∀ a ∈ h, k ≤ a := by
  induction h with
  | nil => simp
  | cons a t ih =>
    intro k e x hx
    simp only [heapMin] at e
    cases ht : heapMin t with
    | none =>
      rw [ht] at e
      cases e
      rcases List.mem_cons.1 hx with hx1 | hx2
      · exact le_of_eq hx1.symm
      · rw [heapMin_eq_none_iff] at ht
        subst ht; simp at hx2
    | some m =>
      rw [ht] at e
      cases e
      rcases List.mem_cons.1 hx with hx1 | hx2
      · subst hx1; exact min_le_left _ _
      · exact le_trans (min_le_right _ _) (ih ht x hx2)

/-! ### Sum and FIFO lemmas -/

theorem sumQty_append (l1 l2 : List (Order α)) :
    sumQty (l1 ++ l2) = sumQty l1 + sumQty l2 := by
  simp [sumQty]

theorem sumQty_cons (o : Order α) (l : List (Order α)) :
    sumQty (o :: l) = o.quantity + sumQty l := by
  simp [sumQty]

theorem mem_of_mem_removeById {l : List (Order α)} {oid : Int} {a : Order α}
    (h : a ∈ removeById l oid) : a ∈ l := by
  induction l with
  | nil => simp [removeById] at h
  | cons o t ih =>
    simp only [removeById] at h
    by_cases ho : o.order_id = oid
    · rw [if_pos ho] at h
      exact List.mem_cons_of_mem _ h
    · rw [if_neg ho] at h
      rcases List.mem_cons.1 h with h1 | h2
      · exact h1 ▸ List.mem_cons_self _ _
      · exact List.mem_cons_of_mem _ (ih h2)

theorem mem_removeById_of_ne {l : List (Order α)} {oid : Int} {a : Order α}
    (ha : a ∈ l) (hne : a.order_id ≠ oid) : a ∈ removeById l oid := by
  induction l with
  | nil => simp at ha
  | cons o t ih =>
    simp only [removeById]
    by_cases ho : o.order_id = oid
    · rw [if_pos ho]
      rcases List.mem_cons.1 ha with h1 | h2
      · exact absurd (h1 ▸ ho) hne
      · exact h2
    · rw [if_neg ho]
      rcases List.mem_cons.1 ha with h1 | h2
      · exact h1 ▸ List.mem_cons_self _ _
      · exact List.mem_cons_of_mem _ (ih h2)

theorem removeById_absent {l : List (Order α)} {oid : Int}
    (h : oid ∉ l.map Order.order_id) : removeById l oid = l := by
  induction l with
  | nil => simp [removeById]
  | cons o t ih =>
    simp only [List.map_cons, List.mem_cons] at h
    push_neg at h
    have hne : ¬ o.order_id = oid := fun he => h.1 he.symm
    simp only [removeById, if_neg hne]
    rw [ih h.2]

theorem removeById_append_last {l : List (Order α)} {o : Order α}
    (h : o.order_id ∉ l.map Order.order_id) :
    removeById (l ++ [o]) o.order_id = l := by
  induction l with
  | nil => simp [removeById]
  | cons a t ih =>
    simp only [List.map_cons, List.mem_cons] at h
    push_neg at h
    have hne : ¬ a.order_id = o.order_id := fun he => h.1 he.symm
    simp only [List.cons_append, removeById, if_neg hne, List.append_eq]
    rw [ih h.2]

theorem removeById_sublist (l : List (Order α)) (oid : Int) :
    (removeById l oid).Sublist l := by
  induction l with
  | nil => simp [removeById]
  | cons o t ih =>
    by_cases ho : o.order_id = oid
    · simp only [removeById, if_pos ho]
      exact List.Sublist.cons _ (List.Sublist.refl t)
    · simp only [removeById, if_neg ho]
      exact ih.cons₂ _

theorem sumQty_removeById {l : List (Order α)} {o : Order α}
    (hnd : (l.map Order.order_id).Nodup) (hmem : o ∈ l) :
    sumQty (removeById l o.order_id) = sumQty l - o.quantity := by
  induction l with
  | nil => simp at hmem
  | cons a t ih =>
    simp only [List.map_cons, List.nodup_cons] at hnd
    rcases List.mem_cons.1 hmem with h1 | h2
    · subst h1
      simp [removeById, sumQty_cons]
    · by_cases ha : a.order_id = o.order_id
      · exfalso
        exact hnd.1 (by rw [ha]; exact List.mem_map.2 ⟨o, h2, rfl⟩)
      · simp only [removeById, if_neg ha, sumQty_cons, ih hnd.2 h2]
        abel

theorem decId_ids (l : List (Order α)) (oid : Int) (d : α) :
    (decId l oid d).map Order.order_id = l.map Order.order_id := by
  induction l with
  | nil => simp [decId]
  | cons o t ih =>
    by_cases ho : o.order_id = oid
    · simp [decId, if_pos ho]
    · simp [decId, if_neg ho, ih]

theorem decId_length (l : List (Order α)) (oid : Int) (d : α) :
    (decId l oid d).length = l.length := by
  induction l with
  | nil => simp [decId]
  | cons o t ih =>
    by_cases ho : o.order_id = oid <;> simp [decId, ho, ih]

theorem sumQty_decId_head {l : List (Order α)} {o : Order α} (d : α)
    (hhd : l.head? = some o) :
    sumQty (decId l o.order_id d) = sumQty l - d := by
  cases l with
  | nil => simp at hhd
  | cons a t =>
    simp only [List.head?_cons, Option.some_inj] at hhd
    subst hhd
    simp [decId, sumQty_cons]
    abel

theorem mem_decId_src {l : List (Order α)} {oid : Int} {d : α} {a : Order α}
    (h : a ∈ decId l oid d) :
    ∃ a0 ∈ l, a.order_id = a0.order_id ∧ a.price = a0.price ∧
      a.bid_ask_enum = a0.bid_ask_enum := by
  induction l with
  | nil => simp [decId] at h
  | cons o t ih =>
    by_cases ho : o.order_id = oid
    · simp only [decId, if_pos ho] at h
      rcases List.mem_cons.1 h with h1 | h2
      · exact ⟨o, List.mem_cons_self _ _, by simp [h1]⟩
      · exact ⟨a, List.mem_cons_of_mem _ h2, rfl, rfl, rfl⟩
    · simp only [decId, if_neg ho] at h
      rcases List.mem_cons.1 h with h1 | h2
      · exact ⟨o, List.mem_cons_self _ _, by simp [h1]⟩
      · obtain ⟨a0, ha0, he⟩ := ih h2
        exact ⟨a0, List.mem_cons_of_mem _ ha0, he⟩

theorem mem_decId_of_ne {l : List (Order α)} {oid : Int} {d : α} {a : Order α}
    (ha : a ∈ l) (hne : a.order_id ≠ oid) : a ∈ decId l oid d := by
  induction l with
  | nil => simp at ha
  | cons o t ih =>
    by_cases ho : o.order_id = oid
    · simp only [decId, if_pos ho]
      rcases List.mem_cons.1 ha with h1 | h2
      · exact absurd (h1 ▸ ho) hne
      · exact List.mem_cons_of_mem _ h2
    · simp only [decId, if_neg ho]
      rcases List.mem_cons.1 ha with h1 | h2
      · exact h1 ▸ List.mem_cons_self _ _
      · exact List.mem_cons_of_mem _ (ih h2)

/-! ### Total-quantity lemmas -/

theorem mtotal_mset_lookup {m : List (α × DoublyLinkedList α)} {k : α}
    {dll : DoublyLinkedList α} (dll2 : DoublyLinkedList α)
    (h : mlook m k = some dll) :
    mtotal (mset m k dll2) = mtotal m - sumQty dll.orders + sumQty dll2.orders := by
  induction m with
  | nil => simp [mlook] at h
  | cons hd t ih =>
    obtain ⟨k0, v0⟩ := hd
    by_cases hk : k = k0
    · subst hk
      simp only [mlook, if_pos rfl] at h
      cases h
      simp [mset, mtotal]
      abel
    · simp only [mlook, if_neg hk] at h
      simp only [mset, if_neg hk, mtotal, List.map_cons, List.sum_cons]
      have := ih h
      simp only [mtotal] at this
      rw [this]
      abel

theorem mtotal_mdel_lookup {m : List (α × DoublyLinkedList α)} {k : α}
    {dll : DoublyLinkedList α} (h : mlook m k = some dll) :
    mtotal (mdel m k) = mtotal m - sumQty dll.orders := by
  induction m with
  | nil => simp [mlook] at h
  | cons hd t ih =>
    obtain ⟨k0, v0⟩ := hd
    by_cases hk : k = k0
    · subst hk
      simp only [mlook, if_pos rfl] at h
      cases h
      simp [mdel, mtotal]
    · simp only [mlook, if_neg hk] at h
      simp only [mdel, if_neg hk, mtotal, List.map_cons, List.sum_cons]
      have := ih h
      simp only [mtotal] at this
      rw [this]
      abel

theorem mtotal_mset_absent {m : List (α × DoublyLinkedList α)} {k : α}
    (dll : DoublyLinkedList α) (h : mlook m k = none) :
    mtotal (mset m k dll) = mtotal m + sumQty dll.orders := by
  rw [mset_absent _ h]
  simp [mtotal]

theorem mtotal_mmodify_lookup {m : List (α × DoublyLinkedList α)} {k : α}
    {dll : DoublyLinkedList α} (f : DoublyLinkedList α → DoublyLinkedList α)
    (h : mlook m k = some dll) :
    mtotal (mmodify m k f) = mtotal m - sumQty dll.orders + sumQty (f dll).orders := by
  induction m with
  | nil => simp [mlook] at h
  | cons hd t ih =>
    obtain ⟨k0, v0⟩ := hd
    by_cases hk : k = k0
    · subst hk
      simp only [mlook, if_pos rfl] at h
      cases h
      simp [mmodify, mtotal]
      abel
    · simp only [mlook, if_neg hk] at h
      simp only [mmodify, if_neg hk, mtotal, List.map_cons, List.sum_cons]
      have := ih h
      simp only [mtotal] at this
      rw [this]
      abel

/-! ### Well-formedness of a side book

All predicates quantify over the finitely many entries of the maps, so
they are decidable on concrete states; `sideInvMaps_all` recovers the
unconditional form. -/

/-- Invariants I2 and I3: a price is bound in the quantity map exactly
when it is bound in the list map, and its aggregate is the sum of the
FIFO's quantities. -/
def SideInvMaps (b : PriceLevelOrdersBase α) : Prop :=
  ∀ p ∈ mkeys b.price_to_quantity_map ++ mkeys b.price_to_list_map,
    mlook b.price_to_quantity_map p =
      (mlook b.price_to_list_map p).map (fun dll => sumQty dll.orders)

/-- The list map never holds an emptied FIFO: every operation that can
drain a level also deletes its map entries. -/
def LevelsNonempty (b : PriceLevelOrdersBase α) : Prop :=
  ∀ pl ∈ b.price_to_list_map, pl.2.orders ≠ []

/-- Orders rest under the price they carry. -/
def PricesOk (b : PriceLevelOrdersBase α) : Prop :=
  ∀ pl ∈ b.price_to_list_map, ∀ o ∈ pl.2.orders, o.price = some pl.1

/-- No two orders in one level share an id (the level's
`order_id_to_node_map` has one node per id). -/
def LevelIdsNodup (b : PriceLevelOrdersBase α) : Prop :=
  ∀ pl ∈ b.price_to_list_map, (pl.2.orders.map Order.order_id).Nodup

/-- Python dict keys are unique. -/
def ListKeysNodup (b : PriceLevelOrdersBase α) : Prop :=
  (mkeys b.price_to_list_map).Nodup

def QtyKeysNodup (b : PriceLevelOrdersBase α) : Prop :=
  (mkeys b.price_to_quantity_map).Nodup

/-- The heap over-approximates the live levels: every price bound in
the list map has its key on the heap (invariant I3's lazy-deletion
direction). -/
def HeapCover (isBid : Bool) (b : PriceLevelOrdersBase α) : Prop :=
  ∀ pl ∈ b.price_to_list_map, heap_key isBid pl.1 ∈ b.price_heap

/-- Well-formedness of one side book. -/
def SideWF (isBid : Bool) (b : PriceLevelOrdersBase α) : Prop :=
  SideInvMaps b ∧ LevelsNonempty b ∧ PricesOk b ∧ LevelIdsNodup b ∧
    ListKeysNodup b ∧ QtyKeysNodup b ∧ HeapCover isBid b

theorem sideInvMaps_all {b : PriceLevelOrdersBase α} (h : SideInvMaps b) (p : α) :
    mlook b.price_to_quantity_map p =
      (mlook b.price_to_list_map p).map (fun dll => sumQty dll.orders) := by
  by_cases hp : p ∈ mkeys b.price_to_quantity_map ++ mkeys b.price_to_list_map
  · exact h p hp
  · rw [List.mem_append] at hp
    push_neg at hp
    rw [(mlook_none_iff _ _).2 hp.1, (mlook_none_iff _ _).2 hp.2]
    rfl

/-! ### Book-level well-formedness -/

/-- The side book an order's `bid_ask_enum` selects. -/
def OrderBook.sideOf (bk : OrderBook α) (e : BidAskEnum) : PriceLevelOrdersBase α :=
  if e = BidAskEnum.BID then bk.bid_orders else bk.ask_orders

/-- All order ids resting on one side. -/
def sideIds (b : PriceLevelOrdersBase α) : List Int :=
  (b.price_to_list_map.map (fun pl => pl.2.orders.map Order.order_id)).join

/-- All order ids resting anywhere in the book. -/
def OrderBook.allIds (bk : OrderBook α) : List Int :=
  sideIds bk.bid_orders ++ sideIds bk.ask_orders

/-- Invariant I1 with aliasing: each id-index entry names its key and
its order value is the very node resting in its side's level at its
price. -/
def Align (bk : OrderBook α) : Prop :=
  ∀ e ∈ bk.id_to_order_map, e.2.order_id = e.1 ∧
    e.2 ∈ ((mlook (bk.sideOf e.2.bid_ask_enum).price_to_list_map
      e.2.priceQ).getD DoublyLinkedList.empty).orders

def IdKeysNodup (bk : OrderBook α) : Prop :=
  (mkeys bk.id_to_order_map).Nodup

/-- Well-formedness of the whole book. -/
def OrderBook.WF (bk : OrderBook α) : Prop :=
  SideWF true bk.bid_orders ∧ SideWF false bk.ask_orders ∧ Align bk ∧
    IdKeysNodup bk ∧ bk.allIds.Nodup

/-! ### Cleanup lemmas -/

theorem real_heap_key (isBid : Bool) (p : α) : real_price isBid (heap_key isBid p) = p := by
  cases isBid <;> simp [heap_key, real_price]

theorem heap_key_inj {isBid : Bool} {p q : α} (h : heap_key isBid p = heap_key isBid q) :
    p = q := by
  cases isBid <;> simpa [heap_key] using h


/-- The side state one stale-top discard produces. -/
def cleanupStep (isBid : Bool) (b : PriceLevelOrdersBase α) (topKey : α) :
    PriceLevelOrdersBase α :=
  { price_to_quantity_map := mdel b.price_to_quantity_map (real_price isBid topKey)
    price_to_list_map := mdel b.price_to_list_map (real_price isBid topKey)
    price_heap := b.price_heap.erase topKey }

theorem cleanupFuel_empty_heap {isBid : Bool} {b : PriceLevelOrdersBase α} (f : Nat)
    (h : heapMin b.price_heap = none) : cleanupFuel isBid (f + 1) b = b := by
  rw [cleanupFuel, h]

theorem cleanupFuel_absent {isBid : Bool} {b : PriceLevelOrdersBase α} {topKey : α}
    (f : Nat) (ht : heapMin b.price_heap = some topKey)
    (hl : mlook b.price_to_list_map (real_price isBid topKey) = none) :
    cleanupFuel isBid (f + 1) b = cleanupFuel isBid f (cleanupStep isBid b topKey) := by
  rw [cleanupFuel, ht]
  dsimp only
  rw [hl]
  rfl

theorem cleanupFuel_empty_level {isBid : Bool} {b : PriceLevelOrdersBase α} {topKey : α}
    {dll : DoublyLinkedList α} (f : Nat) (ht : heapMin b.price_heap = some topKey)
    (hl : mlook b.price_to_list_map (real_price isBid topKey) = some dll)
    (he : dll.is_empty = true) :
    cleanupFuel isBid (f + 1) b = cleanupFuel isBid f (cleanupStep isBid b topKey) := by
  rw [cleanupFuel, ht]
  dsimp only
  rw [hl]
  dsimp only
  rw [if_pos he]
  rfl

theorem cleanupFuel_live {isBid : Bool} {b : PriceLevelOrdersBase α} {topKey : α}
    {dll : DoublyLinkedList α} (f : Nat) (ht : heapMin b.price_heap = some topKey)
    (hl : mlook b.price_to_list_map (real_price isBid topKey) = some dll)
    (he : ¬ dll.is_empty = true) :
    cleanupFuel isBid (f + 1) b = b := by
  rw [cleanupFuel, ht]
  dsimp only
  rw [hl]
  dsimp only
  rw [if_neg he]

/-- Under I2/I3 and nonempty levels, the cleanup loop never touches the
two maps: a stale heap root decodes to a price with no level, so both
`pop(..., None)` calls are no-ops. -/
theorem cleanupFuel_maps {isBid : Bool} {b : PriceLevelOrdersBase α}
    (hinv : SideInvMaps b) (hne : LevelsNonempty b) (f : Nat) :
    (cleanupFuel isBid f b).price_to_quantity_map = b.price_to_quantity_map ∧
      (cleanupFuel isBid f b).price_to_list_map = b.price_to_list_map := by
  induction f generalizing b with
  | zero => exact ⟨rfl, rfl⟩
  | succ f ih =>
    cases htop : heapMin b.price_heap with
    | none => rw [cleanupFuel_empty_heap f htop]; exact ⟨rfl, rfl⟩
    | some topKey =>
      cases hl : mlook b.price_to_list_map (real_price isBid topKey) with
      | some dll =>
        have hemp : ¬ dll.is_empty = true := by
          simp only [DoublyLinkedList.is_empty, List.isEmpty_iff]
          exact hne _ (mlook_mem hl)
        rw [cleanupFuel_live f htop hl hemp]
        exact ⟨rfl, rfl⟩
      | none =>
        have hq : mlook b.price_to_quantity_map (real_price isBid topKey) = none := by
          rw [sideInvMaps_all hinv, hl]; rfl
        rw [cleanupFuel_absent f htop hl]
        have hstep : cleanupStep isBid b topKey = { b with price_heap := b.price_heap.erase topKey } := by
          rw [cleanupStep, mdel_absent hl, mdel_absent hq]
        rw [hstep]
        exact ih hinv hne

/-- After a cleanup pass with enough fuel, the heap root (if any)
decodes to a live, non-empty level: invariant I4. -/
theorem cleanupFuel_top_valid {isBid : Bool} {f : Nat} {b : PriceLevelOrdersBase α}
    (hf : b.price_heap.length ≤ f) :
    ∀ {k : α}, heapMin (cleanupFuel isBid f b).price_heap = some k →
    ∃ dll, mlook (cleanupFuel isBid f b).price_to_list_map (real_price isBid k) =
      some dll ∧ dll.orders ≠ [] := by
  induction f generalizing b with
  | zero =>
    intro k htop
    rw [Nat.le_zero, List.length_eq_zero] at hf
    simp only [cleanupFuel, hf, heapMin] at htop
    exact Option.noConfusion htop
  | succ f ih =>
    intro k htop
    cases htop0 : heapMin b.price_heap with
    | none =>
      rw [cleanupFuel_empty_heap f htop0] at htop
      rw [htop0] at htop
      exact Option.noConfusion htop
    | some topKey =>
      have hkmem := heapMin_mem htop0
      have hlen : (cleanupStep isBid b topKey).price_heap.length ≤ f := by
        simp only [cleanupStep]
        rw [List.length_erase_of_mem hkmem]
        omega
      cases hl : mlook b.price_to_list_map (real_price isBid topKey) with
      | none =>
        rw [cleanupFuel_absent f htop0 hl] at htop ⊢
        exact ih hlen htop
      | some dll =>
        by_cases hemp : dll.is_empty = true
        · rw [cleanupFuel_empty_level f htop0 hl hemp] at htop ⊢
          exact ih hlen htop
        · rw [cleanupFuel_live f htop0 hl hemp] at htop ⊢
          rw [htop0] at htop
          cases htop
          refine ⟨dll, hl, ?_⟩
          simpa [DoublyLinkedList.is_empty, List.isEmpty_iff] using hemp

/-- The cleanup loop only discards heap keys. -/
theorem cleanupFuel_heap_subset {isBid : Bool} (f : Nat) (b : PriceLevelOrdersBase α) :
    ∀ x ∈ (cleanupFuel isBid f b).price_heap, x ∈ b.price_heap := by
  induction f generalizing b with
  | zero => intro x hx; exact hx
  | succ f ih =>
    intro x hx
    cases htop : heapMin b.price_heap with
    | none => rw [cleanupFuel_empty_heap f htop] at hx; exact hx
    | some topKey =>
      cases hl : mlook b.price_to_list_map (real_price isBid topKey) with
      | none =>
        rw [cleanupFuel_absent f htop hl] at hx
        exact List.erase_subset _ _ (ih _ x hx)
      | some dll =>
        by_cases hemp : dll.is_empty = true
        · rw [cleanupFuel_empty_level f htop hl hemp] at hx
          exact List.erase_subset _ _ (ih _ x hx)
        · rw [cleanupFuel_live f htop hl hemp] at hx
          exact hx

/-- Cleanup never discards the key of a live level. -/
theorem cleanupFuel_cover {isBid : Bool} {f : Nat} {b : PriceLevelOrdersBase α}
    (hinv : SideInvMaps b) (hne : LevelsNonempty b) (hcov : HeapCover isBid b) :
    HeapCover isBid (cleanupFuel isBid f b) := by
  induction f generalizing b with
  | zero => exact hcov
  | succ f ih =>
    cases htop : heapMin b.price_heap with
    | none => rw [cleanupFuel_empty_heap f htop]; exact hcov
    | some topKey =>
      cases hl : mlook b.price_to_list_map (real_price isBid topKey) with
      | some dll =>
        have hemp : ¬ dll.is_empty = true := by
          simp only [DoublyLinkedList.is_empty, List.isEmpty_iff]
          exact hne _ (mlook_mem hl)
        rw [cleanupFuel_live f htop hl hemp]
        exact hcov
      | none =>
        have hq : mlook b.price_to_quantity_map (real_price isBid topKey) = none := by
          rw [sideInvMaps_all hinv, hl]; rfl
        rw [cleanupFuel_absent f htop hl]
        have hstep : cleanupStep isBid b topKey = { b with price_heap := b.price_heap.erase topKey } := by
          rw [cleanupStep, mdel_absent hl, mdel_absent hq]
        rw [hstep]
        refine ih (b := { b with price_heap := b.price_heap.erase topKey }) hinv hne ?_
        intro pl hpl
        have hmem := hcov pl hpl
        have hne2 : heap_key isBid pl.1 ≠ topKey := by
          intro he
          have hpk : pl.1 = real_price isBid topKey := by
            rw [← he, real_heap_key]
          rw [← hpk] at hl
          have hpin : pl.1 ∈ mkeys b.price_to_list_map :=
            List.mem_map.2 ⟨pl, hpl, rfl⟩
          exact absurd hpin (by simpa using (mlook_none_iff _ _).1 hl)
        exact (List.mem_erase_of_ne hne2).2 hmem

/-- A completed cleanup is a fixed point of further cleanup passes. -/
theorem cleanupFuel_fix {isBid : Bool} {f : Nat} {b : PriceLevelOrdersBase α}
    (hf : b.price_heap.length ≤ f) (f' : Nat) :
    cleanupFuel isBid f' (cleanupFuel isBid f b) = cleanupFuel isBid f b := by
  cases f' with
  | zero => rfl
  | succ f' =>
    cases htop : heapMin (cleanupFuel isBid f b).price_heap with
    | none => exact cleanupFuel_empty_heap f' htop
    | some k =>
      obtain ⟨dll, hl, hne⟩ := cleanupFuel_top_valid hf htop
      have hemp : ¬ dll.is_empty = true := by
        simpa [DoublyLinkedList.is_empty, List.isEmpty_iff] using hne
      exact cleanupFuel_live f' htop hl hemp

/-- Cleanup never changes the total resting quantity: a discarded
entry always carries an empty FIFO. -/
theorem cleanupFuel_total {isBid : Bool} (f : Nat) (b : PriceLevelOrdersBase α) :
    mtotal (cleanupFuel isBid f b).price_to_list_map = mtotal b.price_to_list_map := by
  induction f generalizing b with
  | zero => rfl
  | succ f ih =>
    cases htop : heapMin b.price_heap with
    | none => rw [cleanupFuel_empty_heap f htop]
    | some topKey =>
      cases hl : mlook b.price_to_list_map (real_price isBid topKey) with
      | none =>
        rw [cleanupFuel_absent f htop hl, ih]
        simp [cleanupStep, mdel_absent hl]
      | some dll =>
        by_cases hemp : dll.is_empty = true
        · rw [cleanupFuel_empty_level f htop hl hemp, ih]
          simp only [cleanupStep]
          rw [mtotal_mdel_lookup hl]
          have hord : dll.orders = [] := by
            simpa [DoublyLinkedList.is_empty, List.isEmpty_iff] using hemp
          simp [hord, sumQty]
        · rw [cleanupFuel_live f htop hl hemp]

/-- Cleanup preserves side well-formedness. -/
theorem SideWF_cleanup {isBid : Bool} {b : PriceLevelOrdersBase α} (h : SideWF isBid b) :
    SideWF isBid (b.delete_best_cancelled_orders isBid) := by
  obtain ⟨hinv, hne, hpr, hli, hlk, hqk, hcov⟩ := h
  have hm := @cleanupFuel_maps α _ isBid b hinv hne b.price_heap.length
  rw [PriceLevelOrdersBase.delete_best_cancelled_orders]
  refine ⟨?_, ?_, ?_, ?_, ?_, ?_, ?_⟩
  · rw [SideInvMaps, hm.1, hm.2]; exact hinv
  · rw [LevelsNonempty, hm.2]; exact hne
  · rw [PricesOk, hm.2]; exact hpr
  · rw [LevelIdsNodup, hm.2]; exact hli
  · rw [ListKeysNodup, hm.2]; exact hlk
  · rw [QtyKeysNodup, hm.1]; exact hqk
  · exact cleanupFuel_cover hinv hne hcov

/-- Completed-cleanup corollary: the engine's public cleanup is
idempotent. -/
theorem delete_best_cancelled_orders_idem (isBid : Bool) (b : PriceLevelOrdersBase α) :
    (b.delete_best_cancelled_orders isBid).delete_best_cancelled_orders isBid =
      b.delete_best_cancelled_orders isBid := by
  rw [PriceLevelOrdersBase.delete_best_cancelled_orders,
    PriceLevelOrdersBase.delete_best_cancelled_orders]
  exact cleanupFuel_fix (le_refl _) _

/-! ### The best active price, spelled as the spec states it -/

/-- Maximum of a list of prices. -/
def listMax [LinearOrder α] : List α → Option α
  | [] => none
  | k :: t =>
    match listMax t with
    | none => some k
    | some m => some (max k m)

theorem listMax_mem {h : List α} : ∀ {k : α}, listMax h = some k → k ∈ h := by
  induction h with
  | nil => intro k e; simp [listMax] at e
  | cons a t ih =>
    intro k e
    simp only [listMax] at e
    cases ht : listMax t with
    | none =>
      rw [ht] at e
      cases e
      exact List.mem_cons_self _ _
    | some m =>
      rw [ht] at e
      cases e
      rcases le_total m a with hle | hle
      · rw [max_eq_left hle]; exact List.mem_cons_self _ _
      · rw [max_eq_right hle]
        exact List.mem_cons_of_mem _ (ih ht)

theorem listMax_eq_none_iff (h : List α) : listMax h = none ↔ h = [] := by
  cases h with
  | nil => simp [listMax]
  | cons k t =>
    simp only [listMax]
    cases listMax t <;> simp

theorem listMax_eq_of {l : List α} {x : α} (hx : x ∈ l) (hub : ∀ y ∈ l, y ≤ x) :
    listMax l = some x := by
  induction l with
  | nil => simp at hx
  | cons a t ih =>
    simp only [listMax]
    cases ht : listMax t with
    | none =>
      show some a = some x
      rw [listMax_eq_none_iff] at ht
      subst ht
      simp at hx
      simp [hx]
    | some m =>
      show some (max a m) = some x
      have hm := listMax_mem ht
      rcases List.mem_cons.1 hx with h1 | h2
      · subst h1
        rw [max_eq_left (hub m (List.mem_cons_of_mem _ hm))]
      · rw [ih h2 (fun y hy => hub y (List.mem_cons_of_mem _ hy))] at ht
        cases ht
        rw [max_eq_right (hub a (List.mem_cons_self _ _))]

theorem heapMin_eq_of {l : List α} {x : α} (hx : x ∈ l) (hlb : ∀ y ∈ l, x ≤ y) :
    heapMin l = some x := by
  induction l with
  | nil => simp at hx
  | cons a t ih =>
    simp only [heapMin]
    cases ht : heapMin t with
    | none =>
      show some a = some x
      rw [heapMin_eq_none_iff] at ht
      subst ht
      simp at hx
      simp [hx]
    | some m =>
      show some (min a m) = some x
      have hm := heapMin_mem ht
      rcases List.mem_cons.1 hx with h1 | h2
      · subst h1
        rw [min_eq_left (hlb m (List.mem_cons_of_mem _ hm))]
      · rw [ih h2 (fun y hy => hlb y (List.mem_cons_of_mem _ hy))] at ht
        cases ht
        rw [min_eq_right (hlb a (List.mem_cons_self _ _))]

/-- The best resting price as the spec words it: the maximum price
bound in the bid list map, the minimum bound in the ask list map
(under `LevelsNonempty`, bound prices are exactly the non-empty
levels). -/
def specBestPrice (isBid : Bool) (b : PriceLevelOrdersBase α) : Option α :=
  if isBid then listMax (mkeys b.price_to_list_map)
  else heapMin (mkeys b.price_to_list_map)

/-! ### Inversion of `get_best_order` -/

theorem get_best_order_fst (isBid : Bool) (b : PriceLevelOrdersBase α) :
    (b.get_best_order isBid).1 = b.delete_best_cancelled_orders isBid := by
  rw [PriceLevelOrdersBase.get_best_order]
  cases heapMin (b.delete_best_cancelled_orders isBid).price_heap <;> rfl

theorem get_best_order_snd (isBid : Bool) (b : PriceLevelOrdersBase α) :
    (b.get_best_order isBid).2 =
      match heapMin (b.delete_best_cancelled_orders isBid).price_heap with
      | none => none
      | some k =>
        (mlook (b.delete_best_cancelled_orders isBid).price_to_list_map
          (real_price isBid k)).bind DoublyLinkedList.peek := by
  rw [PriceLevelOrdersBase.get_best_order]
  cases heapMin (b.delete_best_cancelled_orders isBid).price_heap <;> rfl

theorem get_best_order_some {isBid : Bool} {b : PriceLevelOrdersBase α}
    {best : Order α} (h : (b.get_best_order isBid).2 = some best) :
    ∃ k dll, heapMin (b.delete_best_cancelled_orders isBid).price_heap = some k ∧
      mlook (b.delete_best_cancelled_orders isBid).price_to_list_map
        (real_price isBid k) = some dll ∧
      dll.orders.head? = some best := by
  rw [get_best_order_snd] at h
  cases htop : heapMin (b.delete_best_cancelled_orders isBid).price_heap with
  | none =>
    rw [htop] at h
    exact Option.noConfusion h
  | some k =>
    rw [htop] at h
    have h2 : (mlook (b.delete_best_cancelled_orders isBid).price_to_list_map
        (real_price isBid k)).bind DoublyLinkedList.peek = some best := h
    obtain ⟨dll, hl, hhd⟩ := Option.bind_eq_some.1 h2
    exact ⟨k, dll, rfl, hl, by simpa [DoublyLinkedList.peek] using hhd⟩

theorem get_best_order_none_top {isBid : Bool} {b : PriceLevelOrdersBase α}
    (h : (b.get_best_order isBid).2 = none) :
    heapMin (b.delete_best_cancelled_orders isBid).price_heap = none := by
  rw [get_best_order_snd] at h
  cases htop : heapMin (b.delete_best_cancelled_orders isBid).price_heap with
  | none => rfl
  | some k =>
    rw [htop] at h
    have h2 : (mlook (b.delete_best_cancelled_orders isBid).price_to_list_map
        (real_price isBid k)).bind DoublyLinkedList.peek = none := h
    have htop2 : heapMin (cleanupFuel isBid b.price_heap.length b).price_heap = some k := by
      rw [← PriceLevelOrdersBase.delete_best_cancelled_orders]; exact htop
    obtain ⟨dll, hl, hnon⟩ :=
      cleanupFuel_top_valid (le_refl b.price_heap.length) htop2
    rw [PriceLevelOrdersBase.delete_best_cancelled_orders] at h2
    rw [hl] at h2
    simp only [Option.some_bind] at h2
    rw [DoublyLinkedList.peek, List.head?_eq_none_iff] at h2
    exact absurd h2 hnon

/-! ### Entry-membership lemmas -/

theorem heap_key_real (isBid : Bool) (k : α) : heap_key isBid (real_price isBid k) = k := by
  cases isBid <;> simp [heap_key, real_price]

theorem mlook_cons_self {κ β : Type} [DecidableEq κ] (k : κ) (v : β) (t : List (κ × β)) :
    mlook ((k, v) :: t) k = some v := by
  rw [mlook]; exact if_pos rfl

theorem mset_cons_self {κ β : Type} [DecidableEq κ] (k : κ) (v0 v : β) (t : List (κ × β)) :
    mset ((k, v0) :: t) k v = (k, v) :: t := by
  rw [mset]; exact if_pos rfl

theorem mdel_cons_self {κ β : Type} [DecidableEq κ] (k : κ) (v : β) (t : List (κ × β)) :
    mdel ((k, v) :: t) k = t := by
  rw [mdel]; exact if_pos rfl

theorem mmodify_cons_self {κ β : Type} [DecidableEq κ] (k : κ) (v : β) (f : β → β)
    (t : List (κ × β)) : mmodify ((k, v) :: t) k f = (k, f v) :: t := by
  rw [mmodify]; exact if_pos rfl

theorem mem_mset {κ β : Type} [DecidableEq κ] {m : List (κ × β)} {k : κ} {v : β}
    {pl : κ × β} (h : pl ∈ mset m k v) : pl ∈ m ∨ pl = (k, v) := by
  induction m with
  | nil => simpa [mset] using h
  | cons hd t ih =>
    obtain ⟨k0, v0⟩ := hd
    by_cases hk : k = k0
    · subst hk
      rw [mset_cons_self] at h
      rcases List.mem_cons.1 h with h1 | h2
      · exact Or.inr h1
      · exact Or.inl (List.mem_cons_of_mem _ h2)
    · simp only [mset, if_neg hk, List.mem_cons] at h
      rcases h with h1 | h2
      · exact Or.inl (h1 ▸ List.mem_cons_self _ _)
      · rcases ih h2 with h3 | h3
        · exact Or.inl (List.mem_cons_of_mem _ h3)
        · exact Or.inr h3

theorem mem_mmodify {κ β : Type} [DecidableEq κ] {m : List (κ × β)} {k : κ}
    {f : β → β} {pl : κ × β} (h : pl ∈ mmodify m k f) :
    pl ∈ m ∨ ∃ v, (k, v) ∈ m ∧ pl = (k, f v) := by
  induction m with
  | nil => simpa [mmodify] using h
  | cons hd t ih =>
    obtain ⟨k0, v0⟩ := hd
    by_cases hk : k = k0
    · subst hk
      rw [mmodify_cons_self] at h
      rcases List.mem_cons.1 h with h1 | h2
      · exact Or.inr ⟨v0, List.mem_cons_self _ _, h1⟩
      · exact Or.inl (List.mem_cons_of_mem _ h2)
    · simp only [mmodify, if_neg hk, List.mem_cons] at h
      rcases h with h1 | h2
      · exact Or.inl (h1 ▸ List.mem_cons_self _ _)
      · rcases ih h2 with h3 | ⟨v, hv, he⟩
        · exact Or.inl (List.mem_cons_of_mem _ h3)
        · exact Or.inr ⟨v, List.mem_cons_of_mem _ hv, he⟩

theorem mem_mdel_ne_key {κ β : Type} [DecidableEq κ] {m : List (κ × β)} {k : κ}
    {pl : κ × β} (hnd : (mkeys m).Nodup) (h : pl ∈ mdel m k) : pl.1 ≠ k := by
  induction m with
  | nil => simp [mdel] at h
  | cons hd t ih =>
    obtain ⟨k0, v0⟩ := hd
    simp only [mkeys, List.map_cons, List.nodup_cons] at hnd
    by_cases hk : k = k0
    · subst hk
      simp only [mdel, if_pos rfl] at h
      intro he
      exact hnd.1 (he ▸ List.mem_map.2 ⟨pl, h, rfl⟩)
    · simp only [mdel, if_neg hk, List.mem_cons] at h
      rcases h with h1 | h2
      · subst h1
        exact fun he => hk he.symm
      · exact ih hnd.2 h2

theorem mdel_mset {κ β : Type} [DecidableEq κ] (m : List (κ × β)) (k : κ) (v : β) :
    mdel (mset m k v) k = mdel m k := by
  induction m with
  | nil => simp [mset, mdel]
  | cons hd t ih =>
    obtain ⟨k0, v0⟩ := hd
    by_cases hk : k = k0
    · subst hk; simp [mset, mdel]
    · simp [mset, mdel, hk, ih]

/-! ### Resting ids -/

theorem mem_sideIds {b : PriceLevelOrdersBase α} {i : Int} :
    i ∈ sideIds b ↔ ∃ pl ∈ b.price_to_list_map, ∃ o ∈ pl.2.orders, o.order_id = i := by
  simp only [sideIds, List.mem_join, List.mem_map]
  constructor
  · rintro ⟨ids, ⟨pl, hpl, rfl⟩, hi⟩
    obtain ⟨o, ho, he⟩ := List.mem_map.1 hi
    exact ⟨pl, hpl, o, ho, he⟩
  · rintro ⟨pl, hpl, o, ho, he⟩
    exact ⟨pl.2.orders.map Order.order_id, ⟨pl, hpl, rfl⟩,
      List.mem_map.2 ⟨o, ho, he⟩⟩

theorem sideInvMaps_of_pointwise {b : PriceLevelOrdersBase α}
    (h : ∀ p, mlook b.price_to_quantity_map p =
      (mlook b.price_to_list_map p).map (fun dll => sumQty dll.orders)) :
    SideInvMaps b := fun p _ => h p

/-! ### The matching step operations preserve well-formedness -/

theorem pop_eq {isBid : Bool} {b1 : PriceLevelOrdersBase α} {k : α}
    {dll : DoublyLinkedList α} {best : Order α}
    (hk : heapMin b1.price_heap = some k)
    (hl : mlook b1.price_to_list_map (real_price isBid k) = some dll)
    (hhd : dll.orders.head? = some best) :
    b1.pop isBid =
      (if (⟨removeById dll.orders best.order_id⟩ : DoublyLinkedList α).is_empty then
        ({ price_to_quantity_map :=
             mdel (mset b1.price_to_quantity_map (real_price isBid k)
               ((mlook b1.price_to_quantity_map (real_price isBid k)).getD 0 -
                 best.quantity)) (real_price isBid k)
           price_to_list_map := mdel b1.price_to_list_map (real_price isBid k)
           price_heap := b1.price_heap.erase k }, some best)
      else
        ({ b1 with
           price_to_quantity_map :=
             mset b1.price_to_quantity_map (real_price isBid k)
               ((mlook b1.price_to_quantity_map (real_price isBid k)).getD 0 -
                 best.quantity)
           price_to_list_map :=
             mset b1.price_to_list_map (real_price isBid k)
               ⟨removeById dll.orders best.order_id⟩ }, some best)) := by
  rw [PriceLevelOrdersBase.pop, hk]
  dsimp only
  rw [hl]
  dsimp only
  rw [show dll.peek = some best from hhd]
  rfl

theorem pop_after_best {isBid : Bool} {b1 : PriceLevelOrdersBase α} {k : α}
    {dll : DoublyLinkedList α} {best : Order α}
    (hwf : SideWF isBid b1)
    (hk : heapMin b1.price_heap = some k)
    (hl : mlook b1.price_to_list_map (real_price isBid k) = some dll)
    (hhd : dll.orders.head? = some best) :
    SideWF isBid (b1.pop isBid).1 ∧
    (b1.pop isBid).2 = some best ∧
    mtotal (b1.pop isBid).1.price_to_list_map =
      mtotal b1.price_to_list_map - best.quantity ∧
    (∀ i ∈ sideIds (b1.pop isBid).1, i ∈ sideIds b1) := by
  obtain ⟨hinv, hne, hpr, hli, hlk, hqk, hcov⟩ := hwf
  have horders : dll.orders = best :: dll.orders.tail := by
    cases ho : dll.orders with
    | nil => rw [ho] at hhd; exact absurd hhd (by simp)
    | cons b0 tl0 =>
      rw [ho] at hhd
      simp only [List.head?_cons, Option.some_inj] at hhd
      rw [hhd]
      rfl
  have hrem : removeById dll.orders best.order_id = dll.orders.tail := by
    conv_lhs => rw [horders]
    rw [removeById]
    exact if_pos rfl
  have hsum : sumQty dll.orders = best.quantity + sumQty dll.orders.tail := by
    conv_lhs => rw [horders]
    rw [sumQty_cons]
  have hqv : mlook b1.price_to_quantity_map (real_price isBid k) =
      some (sumQty dll.orders) := by
    rw [sideInvMaps_all hinv, hl]
    rfl
  have hmem : (real_price isBid k, dll) ∈ b1.price_to_list_map := mlook_mem hl
  rw [pop_eq hk hl hhd, hrem]
  by_cases hemp : dll.orders.tail = []
  · rw [hemp, if_pos (by rfl)]
    refine ⟨⟨?_, ?_, ?_, ?_, ?_, ?_, ?_⟩, rfl, ?_, ?_⟩
    · refine sideInvMaps_of_pointwise (fun q => ?_)
      by_cases hq : q = real_price isBid k
      · subst hq
        rw [mdel_mset, mlook_mdel_self _ _ hqk, mlook_mdel_self _ _ hlk]
        rfl
      · rw [mdel_mset, mlook_mdel_ne _ hq, mlook_mdel_ne _ hq]
        exact sideInvMaps_all hinv q
    · intro pl hpl
      exact hne pl (mdel_sublist _ _ |>.mem hpl)
    · intro pl hpl
      exact hpr pl (mdel_sublist _ _ |>.mem hpl)
    · intro pl hpl
      exact hli pl (mdel_sublist _ _ |>.mem hpl)
    · exact mkeys_mdel_nodup _ hlk
    · rw [mdel_mset]
      exact mkeys_mdel_nodup _ hqk
    · intro pl hpl
      have hplm := mdel_sublist b1.price_to_list_map (real_price isBid k) |>.mem hpl
      have hpk : pl.1 ≠ real_price isBid k := mem_mdel_ne_key hlk hpl
      have hkk : heap_key isBid pl.1 ≠ k := by
        intro he
        exact hpk (by rw [← real_heap_key isBid pl.1, he])
      exact (List.mem_erase_of_ne hkk).2 (hcov pl hplm)
    · rw [mtotal_mdel_lookup hl, hsum, hemp]
      simp [sumQty]
    · intro i hi
      rw [mem_sideIds] at hi ⊢
      obtain ⟨pl, hpl, o, ho, he⟩ := hi
      exact ⟨pl, mdel_sublist _ _ |>.mem hpl, o, ho, he⟩
  · rw [if_neg (by simpa [DoublyLinkedList.is_empty, List.isEmpty_iff] using hemp)]
    refine ⟨⟨?_, ?_, ?_, ?_, ?_, ?_, ?_⟩, rfl, ?_, ?_⟩
    · refine sideInvMaps_of_pointwise (fun q => ?_)
      by_cases hq : q = real_price isBid k
      · subst hq
        rw [mlook_mset_self, mlook_mset_self, hqv]
        simp only [Option.getD_some, Option.map_some]
        rw [hsum]
        congr 1
        show best.quantity + sumQty dll.orders.tail - best.quantity =
          sumQty (⟨dll.orders.tail⟩ : DoublyLinkedList α).orders
        simp only
        abel
      · rw [mlook_mset_ne _ _ hq, mlook_mset_ne _ _ hq]
        exact sideInvMaps_all hinv q
    · intro pl hpl
      rcases mem_mset hpl with h1 | h1
      · exact hne pl h1
      · rw [h1]
        exact hemp
    · intro pl hpl o ho
      rcases mem_mset hpl with h1 | h1
      · exact hpr pl h1 o ho
      · rw [h1] at ho ⊢
        exact hpr _ hmem o (by rw [horders]; exact List.mem_cons_of_mem _ ho)
    · intro pl hpl
      rcases mem_mset hpl with h1 | h1
      · exact hli pl h1
      · rw [h1]
        have hnd := hli _ hmem
        rw [horders] at hnd
        simp only [List.map_cons, List.nodup_cons] at hnd
        exact hnd.2
    · exact mkeys_mset_nodup _ _ hlk
    · exact mkeys_mset_nodup _ _ hqk
    · intro pl hpl
      rcases mem_mset hpl with h1 | h1
      · exact hcov pl h1
      · rw [h1]
        exact hcov (real_price isBid k, dll) hmem
    · rw [mtotal_mset_lookup _ hl, hsum]
      show mtotal b1.price_to_list_map - (best.quantity + sumQty dll.orders.tail) +
        sumQty (⟨dll.orders.tail⟩ : DoublyLinkedList α).orders =
        mtotal b1.price_to_list_map - best.quantity
      simp only
      abel
    · intro i hi
      rw [mem_sideIds] at hi ⊢
      obtain ⟨pl, hpl, o, ho, he⟩ := hi
      rcases mem_mset hpl with h1 | h1
      · exact ⟨pl, h1, o, ho, he⟩
      · refine ⟨(real_price isBid k, dll), hmem, o, ?_, he⟩
        rw [h1] at ho
        rw [horders]
        exact List.mem_cons_of_mem _ ho

theorem decrease_after_best {isBid : Bool} {b1 : PriceLevelOrdersBase α} {k : α}
    {dll : DoublyLinkedList α} {best : Order α} (d : α)
    (hwf : SideWF isBid b1)
    (hl : mlook b1.price_to_list_map (real_price isBid k) = some dll)
    (hhd : dll.orders.head? = some best) :
    SideWF isBid (b1.decrease_order_quantity best d) ∧
    mtotal (b1.decrease_order_quantity best d).price_to_list_map =
      mtotal b1.price_to_list_map - d ∧
    (∀ i ∈ sideIds (b1.decrease_order_quantity best d), i ∈ sideIds b1) := by
  obtain ⟨hinv, hne, hpr, hli, hlk, hqk, hcov⟩ := hwf
  have hmem : (real_price isBid k, dll) ∈ b1.price_to_list_map := mlook_mem hl
  have hbm : best ∈ dll.orders := by
    cases ho : dll.orders with
    | nil => rw [ho] at hhd; exact absurd hhd (by simp)
    | cons b0 tl0 =>
      rw [ho] at hhd
      simp only [List.head?_cons, Option.some_inj] at hhd
      rw [hhd]
      exact List.mem_cons_self _ _
  have hbp : best.price = some (real_price isBid k) := hpr _ hmem best hbm
  have hpq : best.priceQ = real_price isBid k := by
    rw [Order.priceQ, hbp]
    rfl
  have hqv : mlook b1.price_to_quantity_map (real_price isBid k) =
      some (sumQty dll.orders) := by
    rw [sideInvMaps_all hinv, hl]
    rfl
  rw [PriceLevelOrdersBase.decrease_order_quantity, hpq]
  refine ⟨⟨?_, ?_, ?_, ?_, ?_, ?_, ?_⟩, ?_, ?_⟩
  · refine sideInvMaps_of_pointwise (fun q => ?_)
    dsimp only
    by_cases hq : q = real_price isBid k
    · subst hq
      rw [mlook_mset_self, mlook_mmodify_self, hl, hqv]
      simp only [Option.getD_some, Option.map_some]
      congr 1
      dsimp only
      rw [sumQty_decId_head d hhd]
    · rw [mlook_mset_ne _ _ hq, mlook_mmodify_ne _ _ hq]
      exact sideInvMaps_all hinv q
  · intro pl hpl
    dsimp only at hpl
    rcases mem_mmodify hpl with h1 | ⟨v, hv, he⟩
    · exact hne pl h1
    · rw [he]
      intro hnil
      dsimp only at hnil
      have hlen := decId_length v.orders best.order_id d
      rw [hnil] at hlen
      exact hne (real_price isBid k, v) hv (List.length_eq_zero.1 hlen.symm)
  · intro pl hpl o ho
    dsimp only at hpl
    rcases mem_mmodify hpl with h1 | ⟨v, hv, he⟩
    · exact hpr pl h1 o ho
    · rw [he] at ho ⊢
      dsimp only at ho ⊢
      obtain ⟨a0, ha0, _, hprice, _⟩ := mem_decId_src ho
      rw [hprice]
      exact hpr _ hv a0 ha0
  · intro pl hpl
    dsimp only at hpl
    rcases mem_mmodify hpl with h1 | ⟨v, hv, he⟩
    · exact hli pl h1
    · rw [he]
      dsimp only
      rw [decId_ids]
      exact hli _ hv
  · rw [ListKeysNodup]
    dsimp only
    rw [mkeys_mmodify]
    exact hlk
  · rw [QtyKeysNodup]
    dsimp only
    exact mkeys_mset_nodup _ _ hqk
  · intro pl hpl
    dsimp only at hpl ⊢
    rcases mem_mmodify hpl with h1 | ⟨v, hv, he⟩
    · exact hcov pl h1
    · rw [he]
      exact hcov (real_price isBid k, v) hv
  · dsimp only
    rw [mtotal_mmodify_lookup _ hl]
    dsimp only
    rw [sumQty_decId_head d hhd]
    abel
  · intro i hi
    rw [mem_sideIds] at hi ⊢
    dsimp only at hi
    obtain ⟨pl, hpl, o, ho, he⟩ := hi
    rcases mem_mmodify hpl with h1 | ⟨v, hv, h2⟩
    · exact ⟨pl, h1, o, ho, he⟩
    · rw [h2] at ho
      dsimp only at ho
      have hio : o.order_id ∈ (decId v.orders best.order_id d).map Order.order_id :=
        List.mem_map.2 ⟨o, ho, rfl⟩
      rw [decId_ids] at hio
      obtain ⟨o2, ho2, he2⟩ := List.mem_map.1 hio
      exact ⟨(real_price isBid k, v), hv, o2, ho2, by rw [he2, he]⟩

theorem removeById_id_not_mem {l : List (Order α)} {oid : Int}
    (hnd : (l.map Order.order_id).Nodup) : oid ∉ (removeById l oid).map Order.order_id := by
  induction l with
  | nil => simp [removeById]
  | cons o t ih =>
    simp only [List.map_cons, List.nodup_cons] at hnd
    by_cases ho : o.order_id = oid
    · rw [removeById, if_pos ho]
      rw [← ho]
      exact hnd.1
    · rw [removeById, if_neg ho]
      simp only [List.map_cons, List.mem_cons]
      push_neg
      exact ⟨fun he => ho he.symm, ih hnd.2⟩

theorem add_WF {isBid : Bool} {b : PriceLevelOrdersBase α} {o : Order α} {p : α}
    (hwf : SideWF isBid b) (hp : o.price = some p)
    (hid : o.order_id ∉ sideIds b) :
    SideWF isBid (b.add isBid o) ∧
    mtotal (b.add isBid o).price_to_list_map =
      mtotal b.price_to_list_map + o.quantity ∧
    (∀ i ∈ sideIds (b.add isBid o), i ∈ sideIds b ∨ i = o.order_id) ∧
    (∃ dll2, mlook (b.add isBid o).price_to_list_map o.priceQ = some dll2 ∧
      o ∈ dll2.orders) := by
  obtain ⟨hinv, hne, hpr, hli, hlk, hqk, hcov⟩ := hwf
  have hpq : o.priceQ = p := by rw [Order.priceQ, hp]; rfl
  rw [PriceLevelOrdersBase.add]
  cases hl : mlook b.price_to_list_map o.priceQ with
  | some dll =>
    dsimp only
    have hmem : (o.priceQ, dll) ∈ b.price_to_list_map := mlook_mem hl
    have hqv : mlook b.price_to_quantity_map o.priceQ = some (sumQty dll.orders) := by
      rw [sideInvMaps_all hinv, hl]; rfl
    refine ⟨⟨?_, ?_, ?_, ?_, ?_, ?_, ?_⟩, ?_, ?_, ?_⟩
    · refine sideInvMaps_of_pointwise (fun q => ?_)
      dsimp only
      by_cases hq : q = o.priceQ
      · subst hq
        rw [mlook_mset_self, mlook_mset_self, hqv]
        simp only [Option.getD_some, Option.map_some]
        congr 1
        show sumQty dll.orders + o.quantity = sumQty (dll.push o).orders
        rw [show (dll.push o).orders = dll.orders ++ [o] from rfl, sumQty_append]
        simp [sumQty]
      · rw [mlook_mset_ne _ _ hq, mlook_mset_ne _ _ hq]
        exact sideInvMaps_all hinv q
    · intro pl hpl
      dsimp only at hpl
      rcases mem_mset hpl with h1 | h1
      · exact hne pl h1
      · rw [h1]
        show dll.orders ++ [o] ≠ []
        simp
    · intro pl hpl o2 ho2
      dsimp only at hpl
      rcases mem_mset hpl with h1 | h1
      · exact hpr pl h1 o2 ho2
      · rw [h1] at ho2 ⊢
        rcases List.mem_append.1 ho2 with h2 | h2
        · exact hpr _ hmem o2 h2
        · simp only [List.mem_singleton] at h2
          rw [h2, hp, hpq]
    · intro pl hpl
      dsimp only at hpl
      rcases mem_mset hpl with h1 | h1
      · exact hli pl h1
      · rw [h1]
        show ((dll.orders ++ [o]).map Order.order_id).Nodup
        rw [List.map_append]
        simp only [List.map_cons, List.map_nil]
        rw [List.nodup_append]
        refine ⟨hli _ hmem, List.nodup_singleton _, ?_⟩
        intro x hx
        simp only [List.mem_singleton]
        intro he
        apply hid
        rw [mem_sideIds]
        obtain ⟨o2, ho2, he2⟩ := List.mem_map.1 hx
        exact ⟨(o.priceQ, dll), hmem, o2, ho2, by rw [he2, he]⟩
    · rw [ListKeysNodup]
      dsimp only
      exact mkeys_mset_nodup _ _ hlk
    · rw [QtyKeysNodup]
      dsimp only
      exact mkeys_mset_nodup _ _ hqk
    · intro pl hpl
      dsimp only at hpl ⊢
      rcases mem_mset hpl with h1 | h1
      · exact hcov pl h1
      · rw [h1]
        exact hcov (o.priceQ, dll) hmem
    · dsimp only
      rw [mtotal_mset_lookup _ hl]
      rw [show (dll.push o).orders = dll.orders ++ [o] from rfl, sumQty_append]
      show mtotal b.price_to_list_map - sumQty dll.orders +
        (sumQty dll.orders + sumQty [o]) = mtotal b.price_to_list_map + o.quantity
      simp [sumQty]
      abel
    · intro i hi
      rw [mem_sideIds] at hi
      dsimp only at hi
      obtain ⟨pl, hpl, o2, ho2, he⟩ := hi
      rcases mem_mset hpl with h1 | h1
      · exact Or.inl (mem_sideIds.2 ⟨pl, h1, o2, ho2, he⟩)
      · rw [h1] at ho2
        rcases List.mem_append.1 ho2 with h2 | h2
        · exact Or.inl (mem_sideIds.2 ⟨(o.priceQ, dll), hmem, o2, h2, he⟩)
        · simp only [List.mem_singleton] at h2
          exact Or.inr (by rw [← he, h2])
    · refine ⟨dll.push o, ?_, ?_⟩
      · dsimp only
        exact mlook_mset_self _ _ _
      · show o ∈ dll.orders ++ [o]
        simp
  | none =>
    dsimp only
    have hqn : mlook b.price_to_quantity_map o.priceQ = none := by
      rw [sideInvMaps_all hinv, hl]; rfl
    refine ⟨⟨?_, ?_, ?_, ?_, ?_, ?_, ?_⟩, ?_, ?_, ?_⟩
    · refine sideInvMaps_of_pointwise (fun q => ?_)
      dsimp only
      by_cases hq : q = o.priceQ
      · subst hq
        rw [mlook_mset_self, mlook_mset_self]
        simp [DoublyLinkedList.push, DoublyLinkedList.empty, sumQty]
      · rw [mlook_mset_ne _ _ hq, mlook_mset_ne _ _ hq]
        exact sideInvMaps_all hinv q
    · intro pl hpl
      dsimp only at hpl
      rcases mem_mset hpl with h1 | h1
      · exact hne pl h1
      · rw [h1]
        show ([] : List (Order α)) ++ [o] ≠ []
        simp
    · intro pl hpl o2 ho2
      dsimp only at hpl
      rcases mem_mset hpl with h1 | h1
      · exact hpr pl h1 o2 ho2
      · rw [h1] at ho2 ⊢
        have : o2 = o := by
          simpa [DoublyLinkedList.push, DoublyLinkedList.empty] using ho2
        rw [this, hp, hpq]
    · intro pl hpl
      dsimp only at hpl
      rcases mem_mset hpl with h1 | h1
      · exact hli pl h1
      · rw [h1]
        show ((([] : List (Order α)) ++ [o]).map Order.order_id).Nodup
        simp
    · rw [ListKeysNodup]
      dsimp only
      exact mkeys_mset_nodup _ _ hlk
    · rw [QtyKeysNodup]
      dsimp only
      exact mkeys_mset_nodup _ _ hqk
    · intro pl hpl
      dsimp only at hpl ⊢
      rcases mem_mset hpl with h1 | h1
      · exact List.mem_cons_of_mem _ (hcov pl h1)
      · rw [h1]
        show heap_key isBid o.priceQ ∈ heap_key isBid o.priceQ :: b.price_heap
        exact List.mem_cons_self _ _
    · dsimp only
      rw [mtotal_mset_absent _ hl]
      simp [DoublyLinkedList.push, DoublyLinkedList.empty, sumQty]
    · intro i hi
      rw [mem_sideIds] at hi
      dsimp only at hi
      obtain ⟨pl, hpl, o2, ho2, he⟩ := hi
      rcases mem_mset hpl with h1 | h1
      · exact Or.inl (mem_sideIds.2 ⟨pl, h1, o2, ho2, he⟩)
      · rw [h1] at ho2
        have : o2 = o := by
          simpa [DoublyLinkedList.push, DoublyLinkedList.empty] using ho2
        exact Or.inr (by rw [← he, this])
    · refine ⟨DoublyLinkedList.empty.push o, ?_, ?_⟩
      · dsimp only
        exact mlook_mset_self _ _ _
      · show o ∈ ([] : List (Order α)) ++ [o]
        simp

theorem delete_order_absent {b : PriceLevelOrdersBase α} {o : Order α}
    (hl : mlook b.price_to_list_map o.priceQ = none) : b.delete_order o = b := by
  rw [PriceLevelOrdersBase.delete_order, hl]

theorem delete_order_found {isBid : Bool} {b : PriceLevelOrdersBase α} {o : Order α}
    {dll : DoublyLinkedList α}
    (hwf : SideWF isBid b)
    (hl : mlook b.price_to_list_map o.priceQ = some dll)
    (hmem : o ∈ dll.orders) :
    SideWF isBid (b.delete_order o) ∧
    mtotal (b.delete_order o).price_to_list_map =
      mtotal b.price_to_list_map - o.quantity ∧
    (∀ i ∈ sideIds (b.delete_order o), i ∈ sideIds b) ∧
    (∀ dll2, mlook (b.delete_order o).price_to_list_map o.priceQ = some dll2 →
      o.order_id ∉ dll2.orders.map Order.order_id) ∧
    (b.delete_order o).get_quantity_for_price o.priceQ =
      b.get_quantity_for_price o.priceQ - o.quantity ∧
    (∀ q, q ≠ o.priceQ → (b.delete_order o).get_quantity_for_price q =
      b.get_quantity_for_price q) ∧
    (b.delete_order o).price_heap = b.price_heap := by
  obtain ⟨hinv, hne, hpr, hli, hlk, hqk, hcov⟩ := hwf
  have hentry : (o.priceQ, dll) ∈ b.price_to_list_map := mlook_mem hl
  have hqv : mlook b.price_to_quantity_map o.priceQ = some (sumQty dll.orders) := by
    rw [sideInvMaps_all hinv, hl]; rfl
  have hndl : (dll.orders.map Order.order_id).Nodup := hli _ hentry
  have hrs : sumQty (removeById dll.orders o.order_id) =
      sumQty dll.orders - o.quantity := sumQty_removeById hndl hmem
  have hnotin := @removeById_id_not_mem α _ dll.orders o.order_id hndl
  rw [PriceLevelOrdersBase.delete_order, hl]
  dsimp only
  by_cases hemp : (dll.remove o).is_empty = true
  · rw [if_pos hemp]
    refine ⟨⟨?_, ?_, ?_, ?_, ?_, ?_, ?_⟩, ?_, ?_, ?_, ?_, ?_, rfl⟩
    · refine sideInvMaps_of_pointwise (fun q => ?_)
      dsimp only
      by_cases hq : q = o.priceQ
      · subst hq
        rw [mdel_mset, mlook_mdel_self _ _ hqk, mlook_mdel_self _ _ hlk]
        rfl
      · rw [mdel_mset, mlook_mdel_ne _ hq, mlook_mdel_ne _ hq]
        exact sideInvMaps_all hinv q
    · intro pl hpl
      dsimp only at hpl
      exact hne pl (mdel_sublist _ _ |>.mem hpl)
    · intro pl hpl
      dsimp only at hpl
      exact hpr pl (mdel_sublist _ _ |>.mem hpl)
    · intro pl hpl
      dsimp only at hpl
      exact hli pl (mdel_sublist _ _ |>.mem hpl)
    · rw [ListKeysNodup]
      dsimp only
      exact mkeys_mdel_nodup _ hlk
    · rw [QtyKeysNodup]
      dsimp only
      rw [mdel_mset]
      exact mkeys_mdel_nodup _ hqk
    · intro pl hpl
      dsimp only at hpl ⊢
      exact hcov pl (mdel_sublist _ _ |>.mem hpl)
    · dsimp only
      rw [mtotal_mdel_lookup hl]
      have hrnil : removeById dll.orders o.order_id = [] := by
        simpa [DoublyLinkedList.remove, DoublyLinkedList.is_empty, List.isEmpty_iff]
          using hemp
      rw [hrnil, show sumQty ([] : List (Order α)) = 0 from rfl] at hrs
      rw [eq_of_sub_eq_zero hrs.symm]
    · intro i hi
      rw [mem_sideIds] at hi ⊢
      dsimp only at hi
      obtain ⟨pl, hpl, o2, ho2, he⟩ := hi
      exact ⟨pl, mdel_sublist _ _ |>.mem hpl, o2, ho2, he⟩
    · intro dll2 hdll2
      dsimp only at hdll2
      rw [mlook_mdel_self _ _ hlk] at hdll2
      exact Option.noConfusion hdll2
    · rw [PriceLevelOrdersBase.get_quantity_for_price,
        PriceLevelOrdersBase.get_quantity_for_price]
      dsimp only
      rw [mdel_mset, mlook_mdel_self _ _ hqk, hqv]
      simp only [Option.getD_none, Option.getD_some]
      have hrnil : removeById dll.orders o.order_id = [] := by
        simpa [DoublyLinkedList.remove, DoublyLinkedList.is_empty, List.isEmpty_iff]
          using hemp
      rw [hrnil] at hrs
      rw [show sumQty ([] : List (Order α)) = 0 from rfl] at hrs
      rw [← hrs]
    · intro q hq
      rw [PriceLevelOrdersBase.get_quantity_for_price,
        PriceLevelOrdersBase.get_quantity_for_price]
      dsimp only
      rw [mdel_mset, mlook_mdel_ne _ hq]
  · rw [if_neg hemp]
    have hrne : removeById dll.orders o.order_id ≠ [] := by
      simpa [DoublyLinkedList.remove, DoublyLinkedList.is_empty, List.isEmpty_iff]
        using hemp
    refine ⟨⟨?_, ?_, ?_, ?_, ?_, ?_, ?_⟩, ?_, ?_, ?_, ?_, ?_, rfl⟩
    · refine sideInvMaps_of_pointwise (fun q => ?_)
      dsimp only
      by_cases hq : q = o.priceQ
      · subst hq
        rw [mlook_mset_self, mlook_mset_self, hqv]
        simp only [Option.getD_some, Option.map_some]
        congr 1
        show sumQty dll.orders - o.quantity = sumQty (dll.remove o).orders
        rw [show (dll.remove o).orders = removeById dll.orders o.order_id from rfl, hrs]
      · rw [mlook_mset_ne _ _ hq, mlook_mset_ne _ _ hq]
        exact sideInvMaps_all hinv q
    · intro pl hpl
      dsimp only at hpl
      rcases mem_mset hpl with h1 | h1
      · exact hne pl h1
      · rw [h1]
        exact hrne
    · intro pl hpl o2 ho2
      dsimp only at hpl
      rcases mem_mset hpl with h1 | h1
      · exact hpr pl h1 o2 ho2
      · rw [h1] at ho2 ⊢
        exact hpr _ hentry o2 (mem_of_mem_removeById ho2)
    · intro pl hpl
      dsimp only at hpl
      rcases mem_mset hpl with h1 | h1
      · exact hli pl h1
      · rw [h1]
        exact ((removeById_sublist _ _).map Order.order_id).nodup hndl
    · rw [ListKeysNodup]
      dsimp only
      exact mkeys_mset_nodup _ _ hlk
    · rw [QtyKeysNodup]
      dsimp only
      exact mkeys_mset_nodup _ _ hqk
    · intro pl hpl
      dsimp only at hpl ⊢
      rcases mem_mset hpl with h1 | h1
      · exact hcov pl h1
      · rw [h1]
        exact hcov (o.priceQ, dll) hentry
    · dsimp only
      rw [mtotal_mset_lookup _ hl]
      rw [show sumQty (dll.remove o).orders =
        sumQty (removeById dll.orders o.order_id) from rfl, hrs]
      abel
    · intro i hi
      rw [mem_sideIds] at hi ⊢
      dsimp only at hi
      obtain ⟨pl, hpl, o2, ho2, he⟩ := hi
      rcases mem_mset hpl with h1 | h1
      · exact ⟨pl, h1, o2, ho2, he⟩
      · rw [h1] at ho2
        exact ⟨(o.priceQ, dll), hentry, o2, mem_of_mem_removeById ho2, he⟩
    · intro dll2 hdll2
      dsimp only at hdll2
      rw [mlook_mset_self] at hdll2
      cases hdll2
      exact hnotin
    · rw [PriceLevelOrdersBase.get_quantity_for_price,
        PriceLevelOrdersBase.get_quantity_for_price]
      dsimp only
      rw [mlook_mset_self, hqv]
      rfl
    · intro q hq
      rw [PriceLevelOrdersBase.get_quantity_for_price,
        PriceLevelOrdersBase.get_quantity_for_price]
      dsimp only
      rw [mlook_mset_ne _ _ hq]

/-! ### Book-level plumbing -/

theorem oppBook_setOpp_same (bk : OrderBook α) (s : Bool) (b : PriceLevelOrdersBase α) :
    (bk.setOpp s b).oppBook s = b := by
  cases s <;> simp [OrderBook.setOpp, OrderBook.oppBook]

theorem oppBook_setOpp_other (bk : OrderBook α) (s : Bool) (b : PriceLevelOrdersBase α) :
    (bk.setOpp s b).oppBook (!s) = bk.oppBook (!s) := by
  cases s <;> simp [OrderBook.setOpp, OrderBook.oppBook]

theorem setOpp_idmap (bk : OrderBook α) (s : Bool) (b : PriceLevelOrdersBase α) :
    (bk.setOpp s b).id_to_order_map = bk.id_to_order_map := by
  cases s <;> rfl

theorem oppBook_idmap_set (bk : OrderBook α) (s : Bool) (m : List (Int × Order α)) :
    ({ bk with id_to_order_map := m } : OrderBook α).oppBook s = bk.oppBook s := by
  cases s <;> rfl

theorem delete_best_total (isBid : Bool) (b : PriceLevelOrdersBase α) :
    mtotal (b.delete_best_cancelled_orders isBid).price_to_list_map =
      mtotal b.price_to_list_map := by
  rw [PriceLevelOrdersBase.delete_best_cancelled_orders]
  exact cleanupFuel_total _ _

theorem delete_best_sideIds {isBid : Bool} {b : PriceLevelOrdersBase α}
    (hinv : SideInvMaps b) (hne : LevelsNonempty b) :
    sideIds (b.delete_best_cancelled_orders isBid) = sideIds b := by
  rw [sideIds, sideIds, PriceLevelOrdersBase.delete_best_cancelled_orders,
    (cleanupFuel_maps hinv hne _).2]

theorem delete_best_maps {isBid : Bool} {b : PriceLevelOrdersBase α}
    (hinv : SideInvMaps b) (hne : LevelsNonempty b) :
    (b.delete_best_cancelled_orders isBid).price_to_quantity_map =
      b.price_to_quantity_map ∧
    (b.delete_best_cancelled_orders isBid).price_to_list_map = b.price_to_list_map := by
  rw [PriceLevelOrdersBase.delete_best_cancelled_orders]
  exact cleanupFuel_maps hinv hne _

/-! ### One matching step -/

theorem execute_match_spec {oppIsBid : Bool} {bk1 : OrderBook α} {o best : Order α}
    {k : α} {dll : DoublyLinkedList α}
    (hwf : SideWF oppIsBid (bk1.oppBook oppIsBid))
    (hk : heapMin (bk1.oppBook oppIsBid).price_heap = some k)
    (hl : mlook (bk1.oppBook oppIsBid).price_to_list_map (real_price oppIsBid k) =
      some dll)
    (hhd : dll.orders.head? = some best) :
    SideWF oppIsBid ((bk1.execute_match o best oppIsBid).1.oppBook oppIsBid) ∧
    (bk1.execute_match o best oppIsBid).1.oppBook (!oppIsBid) =
      bk1.oppBook (!oppIsBid) ∧
    (bk1.execute_match o best oppIsBid).2.1 =
      { o with quantity := o.quantity - min o.quantity best.quantity } ∧
    (bk1.execute_match o best oppIsBid).2.2 =
      { best with quantity := best.quantity - min o.quantity best.quantity } ∧
    mtotal ((bk1.execute_match o best oppIsBid).1.oppBook oppIsBid).price_to_list_map =
      mtotal (bk1.oppBook oppIsBid).price_to_list_map - min o.quantity best.quantity ∧
    (∀ i ∈ mkeys (bk1.execute_match o best oppIsBid).1.id_to_order_map,
      i ∈ mkeys bk1.id_to_order_map) ∧
    (∀ i ∈ sideIds ((bk1.execute_match o best oppIsBid).1.oppBook oppIsBid),
      i ∈ sideIds (bk1.oppBook oppIsBid)) := by
  rw [OrderBook.execute_match]
  by_cases heq : o.quantity = best.quantity
  · rw [if_pos heq]
    obtain ⟨hPw, hPs, hPt, hPi⟩ := pop_after_best hwf hk hl hhd
    have hmin : min o.quantity best.quantity = o.quantity :=
      min_eq_left (le_of_eq heq)
    refine ⟨?_, ?_, ?_, ?_, ?_, ?_, ?_⟩
    · rw [oppBook_idmap_set, oppBook_setOpp_same]
      exact SideWF_cleanup hPw
    · rw [oppBook_idmap_set, oppBook_setOpp_other]
    · rw [hmin, sub_self]
    · rw [hmin, heq, sub_self]
    · rw [oppBook_idmap_set, oppBook_setOpp_same, delete_best_total, hPt, hmin, heq]
    · intro i hi
      dsimp only at hi
      rw [setOpp_idmap] at hi
      exact (mdel_sublist _ _ |>.map Prod.fst).mem hi
    · intro i hi
      rw [oppBook_idmap_set, oppBook_setOpp_same] at hi
      rw [delete_best_sideIds hPw.1 hPw.2.1] at hi
      exact hPi i hi
  · rw [if_neg heq]
    by_cases hlt : o.quantity < best.quantity
    · rw [if_pos hlt]
      obtain ⟨hDw, hDt, hDi⟩ := decrease_after_best o.quantity hwf hl hhd
      have hmin : min o.quantity best.quantity = o.quantity :=
        min_eq_left (le_of_lt hlt)
      refine ⟨?_, ?_, ?_, ?_, ?_, ?_, ?_⟩
      · rw [oppBook_idmap_set, oppBook_setOpp_same]
        exact SideWF_cleanup hDw
      · rw [oppBook_idmap_set, oppBook_setOpp_other]
      · rw [hmin, sub_self]
      · rw [hmin]
      · rw [oppBook_idmap_set, oppBook_setOpp_same, delete_best_total, hDt, hmin]
      · intro i hi
        dsimp only at hi
        rw [setOpp_idmap] at hi
        rw [show mkeys (mmodify bk1.id_to_order_map best.order_id
          (fun o2 => { o2 with quantity := o2.quantity - o.quantity })) =
          mkeys bk1.id_to_order_map from mkeys_mmodify _ _ _] at hi
        exact hi
      · intro i hi
        rw [oppBook_idmap_set, oppBook_setOpp_same] at hi
        rw [delete_best_sideIds hDw.1 hDw.2.1] at hi
        exact hDi i hi
    · rw [if_neg hlt]
      obtain ⟨hPw, hPs, hPt, hPi⟩ := pop_after_best hwf hk hl hhd
      have hle : best.quantity ≤ o.quantity := le_of_not_lt hlt
      have hmin : min o.quantity best.quantity = best.quantity := min_eq_right hle
      refine ⟨?_, ?_, ?_, ?_, ?_, ?_, ?_⟩
      · rw [oppBook_idmap_set, oppBook_setOpp_same]
        exact SideWF_cleanup hPw
      · rw [oppBook_idmap_set, oppBook_setOpp_other]
      · rw [hmin]
      · rw [hmin, sub_self]
      · rw [oppBook_idmap_set, oppBook_setOpp_same, delete_best_total, hPt, hmin]
      · intro i hi
        dsimp only at hi
        rw [setOpp_idmap] at hi
        exact (mdel_sublist _ _ |>.map Prod.fst).mem hi
      · intro i hi
        rw [oppBook_idmap_set, oppBook_setOpp_same] at hi
        rw [delete_best_sideIds hPw.1 hPw.2.1] at hi
        exact hPi i hi

/-! ### Step equations for the matching loops -/

theorem match_limit_nonpos {oppIsBid : Bool} {pred : α → α → Bool} {bk : OrderBook α}
    {o : Order α} (f : Nat) (h : ¬ 0 < o.quantity) :
    OrderBook.match_limit_order oppIsBid pred (f + 1) bk o = (bk, o) := by
  rw [OrderBook.match_limit_order, if_neg h]

theorem match_limit_none {oppIsBid : Bool} {pred : α → α → Bool} {bk : OrderBook α}
    {o : Order α} {opp1 : PriceLevelOrdersBase α} (f : Nat) (hq : 0 < o.quantity)
    (hget : (bk.oppBook oppIsBid).get_best_order oppIsBid = (opp1, none)) :
    OrderBook.match_limit_order oppIsBid pred (f + 1) bk o =
      (bk.setOpp oppIsBid opp1, o) := by
  rw [OrderBook.match_limit_order, if_pos hq, hget]

theorem match_limit_nopred {oppIsBid : Bool} {pred : α → α → Bool} {bk : OrderBook α}
    {o best : Order α} {opp1 : PriceLevelOrdersBase α} (f : Nat) (hq : 0 < o.quantity)
    (hget : (bk.oppBook oppIsBid).get_best_order oppIsBid = (opp1, some best))
    (hp : pred o.priceQ best.priceQ = false) :
    OrderBook.match_limit_order oppIsBid pred (f + 1) bk o =
      (bk.setOpp oppIsBid opp1, o) := by
  rw [OrderBook.match_limit_order, if_pos hq, hget]
  dsimp only
  rw [hp]
  rfl

theorem match_limit_step {oppIsBid : Bool} {pred : α → α → Bool} {bk : OrderBook α}
    {o best : Order α} {opp1 : PriceLevelOrdersBase α} (f : Nat) (hq : 0 < o.quantity)
    (hget : (bk.oppBook oppIsBid).get_best_order oppIsBid = (opp1, some best))
    (hp : pred o.priceQ best.priceQ = true) :
    OrderBook.match_limit_order oppIsBid pred (f + 1) bk o =
      OrderBook.match_limit_order oppIsBid pred f
        ((bk.setOpp oppIsBid opp1).execute_match o best oppIsBid).1
        ((bk.setOpp oppIsBid opp1).execute_match o best oppIsBid).2.1 := by
  rw [OrderBook.match_limit_order, if_pos hq, hget]
  dsimp only
  rw [hp]
  rfl

theorem match_market_nonpos {oppIsBid : Bool} {bk : OrderBook α}
    {o : Order α} (f : Nat) (h : ¬ 0 < o.quantity) :
    OrderBook.match_market_order oppIsBid (f + 1) bk o = (bk, o) := by
  rw [OrderBook.match_market_order, if_neg h]

theorem match_market_none {oppIsBid : Bool} {bk : OrderBook α}
    {o : Order α} {opp1 : PriceLevelOrdersBase α} (f : Nat) (hq : 0 < o.quantity)
    (hget : (bk.oppBook oppIsBid).get_best_order oppIsBid = (opp1, none)) :
    OrderBook.match_market_order oppIsBid (f + 1) bk o =
      (bk.setOpp oppIsBid opp1, o) := by
  rw [OrderBook.match_market_order, if_pos hq, hget]

theorem match_market_step {oppIsBid : Bool} {bk : OrderBook α}
    {o best : Order α} {opp1 : PriceLevelOrdersBase α} (f : Nat) (hq : 0 < o.quantity)
    (hget : (bk.oppBook oppIsBid).get_best_order oppIsBid = (opp1, some best)) :
    OrderBook.match_market_order oppIsBid (f + 1) bk o =
      OrderBook.match_market_order oppIsBid f
        ((bk.setOpp oppIsBid opp1).execute_match o best oppIsBid).1
        ((bk.setOpp oppIsBid opp1).execute_match o best oppIsBid).2.1 := by
  rw [OrderBook.match_market_order, if_pos hq, hget]

/-- The matching loop keeps the opposite side well-formed, never
touches the home side, only deletes id-index keys and resting ids, and
only mutates the incoming order's quantity. -/
theorem match_limit_spec (oppIsBid : Bool) (pred : α → α → Bool) :
    ∀ (f : Nat) (bk : OrderBook α) (o : Order α),
    SideWF oppIsBid (bk.oppBook oppIsBid) →
    SideWF oppIsBid
      ((OrderBook.match_limit_order oppIsBid pred f bk o).1.oppBook oppIsBid) ∧
    (OrderBook.match_limit_order oppIsBid pred f bk o).1.oppBook (!oppIsBid) =
      bk.oppBook (!oppIsBid) ∧
    (∀ i ∈ mkeys (OrderBook.match_limit_order oppIsBid pred f bk o).1.id_to_order_map,
      i ∈ mkeys bk.id_to_order_map) ∧
    (∀ i ∈ sideIds
      ((OrderBook.match_limit_order oppIsBid pred f bk o).1.oppBook oppIsBid),
      i ∈ sideIds (bk.oppBook oppIsBid)) ∧
    (OrderBook.match_limit_order oppIsBid pred f bk o).2.order_id = o.order_id ∧
    (OrderBook.match_limit_order oppIsBid pred f bk o).2.price = o.price ∧
    (OrderBook.match_limit_order oppIsBid pred f bk o).2.order_type_enum =
      o.order_type_enum ∧
    (OrderBook.match_limit_order oppIsBid pred f bk o).2.bid_ask_enum =
      o.bid_ask_enum := by
  intro f
  induction f with
  | zero =>
    intro bk o hwf
    exact ⟨hwf, rfl, fun i hi => hi, fun i hi => hi, rfl, rfl, rfl, rfl⟩
  | succ f ih =>
    intro bk o hwf
    by_cases hq : 0 < o.quantity
    · rcases hget : (bk.oppBook oppIsBid).get_best_order oppIsBid with ⟨opp1, bestOpt⟩
      have h1 : opp1 = (bk.oppBook oppIsBid).delete_best_cancelled_orders oppIsBid := by
        rw [← get_best_order_fst oppIsBid (bk.oppBook oppIsBid), hget]
      have hwf1 : SideWF oppIsBid opp1 := by
        rw [h1]
        exact SideWF_cleanup hwf
      have hids1 : sideIds opp1 = sideIds (bk.oppBook oppIsBid) := by
        rw [h1]
        exact delete_best_sideIds hwf.1 hwf.2.1
      cases bestOpt with
      | none =>
        rw [match_limit_none f hq hget]
        refine ⟨?_, ?_, ?_, ?_, rfl, rfl, rfl, rfl⟩
        · rw [oppBook_setOpp_same]
          exact hwf1
        · rw [oppBook_setOpp_other]
        · intro i hi
          rw [setOpp_idmap] at hi
          exact hi
        · intro i hi
          rw [oppBook_setOpp_same] at hi
          rw [← hids1]
          exact hi
      | some best =>
        have hsnd : ((bk.oppBook oppIsBid).get_best_order oppIsBid).2 = some best := by
          rw [hget]
        obtain ⟨k, dll, hk0, hl0, hhd0⟩ := get_best_order_some hsnd
        have hk1 : heapMin ((bk.setOpp oppIsBid opp1).oppBook oppIsBid).price_heap =
            some k := by
          rw [oppBook_setOpp_same, h1]
          exact hk0
        have hl1 : mlook ((bk.setOpp oppIsBid opp1).oppBook oppIsBid).price_to_list_map
            (real_price oppIsBid k) = some dll := by
          rw [oppBook_setOpp_same, h1]
          exact hl0
        have hwfS : SideWF oppIsBid ((bk.setOpp oppIsBid opp1).oppBook oppIsBid) := by
          rw [oppBook_setOpp_same]
          exact hwf1
        cases hp : pred o.priceQ best.priceQ with
        | false =>
          rw [match_limit_nopred f hq hget hp]
          refine ⟨?_, ?_, ?_, ?_, rfl, rfl, rfl, rfl⟩
          · rw [oppBook_setOpp_same]
            exact hwf1
          · rw [oppBook_setOpp_other]
          · intro i hi
            rw [setOpp_idmap] at hi
            exact hi
          · intro i hi
            rw [oppBook_setOpp_same] at hi
            rw [← hids1]
            exact hi
        | true =>
          rw [match_limit_step f hq hget hp]
          obtain ⟨e1, e2, e3, _, _, e6, e7⟩ := execute_match_spec
            (o := o) hwfS hk1 hl1 hhd0
          obtain ⟨i1, i2, i3, i4, i5, i6, i7, i8⟩ := ih
            ((bk.setOpp oppIsBid opp1).execute_match o best oppIsBid).1
            ((bk.setOpp oppIsBid opp1).execute_match o best oppIsBid).2.1 e1
          refine ⟨i1, ?_, ?_, ?_, ?_, ?_, ?_, ?_⟩
          · rw [i2, e2, oppBook_setOpp_other]
          · intro i hi
            have := i3 i hi
            have := e6 i this
            rw [setOpp_idmap] at this
            exact this
          · intro i hi
            have := i4 i hi
            have h2 := e7 i this
            rw [oppBook_setOpp_same] at h2
            rw [← hids1]
            exact h2
          · rw [i5, e3]
          · rw [i6, e3]
          · rw [i7, e3]
          · rw [i8, e3]
    · rw [match_limit_nonpos _ hq]
      exact ⟨hwf, rfl, fun i hi => hi, fun i hi => hi, rfl, rfl, rfl, rfl⟩

theorem match_market_spec (oppIsBid : Bool) :
    ∀ (f : Nat) (bk : OrderBook α) (o : Order α),
    SideWF oppIsBid (bk.oppBook oppIsBid) →
    SideWF oppIsBid
      ((OrderBook.match_market_order oppIsBid f bk o).1.oppBook oppIsBid) ∧
    (OrderBook.match_market_order oppIsBid f bk o).1.oppBook (!oppIsBid) =
      bk.oppBook (!oppIsBid) ∧
    (∀ i ∈ mkeys (OrderBook.match_market_order oppIsBid f bk o).1.id_to_order_map,
      i ∈ mkeys bk.id_to_order_map) ∧
    (∀ i ∈ sideIds
      ((OrderBook.match_market_order oppIsBid f bk o).1.oppBook oppIsBid),
      i ∈ sideIds (bk.oppBook oppIsBid)) ∧
    (OrderBook.match_market_order oppIsBid f bk o).2.order_id = o.order_id ∧
    (OrderBook.match_market_order oppIsBid f bk o).2.price = o.price ∧
    (OrderBook.match_market_order oppIsBid f bk o).2.order_type_enum =
      o.order_type_enum ∧
    (OrderBook.match_market_order oppIsBid f bk o).2.bid_ask_enum =
      o.bid_ask_enum := by
  intro f
  induction f with
  | zero =>
    intro bk o hwf
    exact ⟨hwf, rfl, fun i hi => hi, fun i hi => hi, rfl, rfl, rfl, rfl⟩
  | succ f ih =>
    intro bk o hwf
    by_cases hq : 0 < o.quantity
    · rcases hget : (bk.oppBook oppIsBid).get_best_order oppIsBid with ⟨opp1, bestOpt⟩
      have h1 : opp1 = (bk.oppBook oppIsBid).delete_best_cancelled_orders oppIsBid := by
        rw [← get_best_order_fst oppIsBid (bk.oppBook oppIsBid), hget]
      have hwf1 : SideWF oppIsBid opp1 := by
        rw [h1]
        exact SideWF_cleanup hwf
      have hids1 : sideIds opp1 = sideIds (bk.oppBook oppIsBid) := by
        rw [h1]
        exact delete_best_sideIds hwf.1 hwf.2.1
      cases bestOpt with
      | none =>
        rw [match_market_none f hq hget]
        refine ⟨?_, ?_, ?_, ?_, rfl, rfl, rfl, rfl⟩
        · rw [oppBook_setOpp_same]
          exact hwf1
        · rw [oppBook_setOpp_other]
        · intro i hi
          rw [setOpp_idmap] at hi
          exact hi
        · intro i hi
          rw [oppBook_setOpp_same] at hi
          rw [← hids1]
          exact hi
      | some best =>
        have hsnd : ((bk.oppBook oppIsBid).get_best_order oppIsBid).2 = some best := by
          rw [hget]
        obtain ⟨k, dll, hk0, hl0, hhd0⟩ := get_best_order_some hsnd
        have hk1 : heapMin ((bk.setOpp oppIsBid opp1).oppBook oppIsBid).price_heap =
            some k := by
          rw [oppBook_setOpp_same, h1]
          exact hk0
        have hl1 : mlook ((bk.setOpp oppIsBid opp1).oppBook oppIsBid).price_to_list_map
            (real_price oppIsBid k) = some dll := by
          rw [oppBook_setOpp_same, h1]
          exact hl0
        have hwfS : SideWF oppIsBid ((bk.setOpp oppIsBid opp1).oppBook oppIsBid) := by
          rw [oppBook_setOpp_same]
          exact hwf1
        rw [match_market_step f hq hget]
        obtain ⟨e1, e2, e3, _, _, e6, e7⟩ := execute_match_spec
          (o := o) hwfS hk1 hl1 hhd0
        obtain ⟨i1, i2, i3, i4, i5, i6, i7, i8⟩ := ih
          ((bk.setOpp oppIsBid opp1).execute_match o best oppIsBid).1
          ((bk.setOpp oppIsBid opp1).execute_match o best oppIsBid).2.1 e1
        refine ⟨i1, ?_, ?_, ?_, ?_, ?_, ?_, ?_⟩
        · rw [i2, e2, oppBook_setOpp_other]
        · intro i hi
          have h2 := e6 i (i3 i hi)
          rw [setOpp_idmap] at h2
          exact h2
        · intro i hi
          have h2 := e7 i (i4 i hi)
          rw [oppBook_setOpp_same] at h2
          rw [← hids1]
          exact h2
        · rw [i5, e3]
        · rw [i6, e3]
        · rw [i7, e3]
        · rw [i8, e3]
    · rw [match_market_nonpos _ hq]
      exact ⟨hwf, rfl, fun i hi => hi, fun i hi => hi, rfl, rfl, rfl, rfl⟩

/-- The market sweep conserves quantity between the incoming order
and the opposite side: across the whole loop, the opposite side's
total resting quantity and the incoming order's quantity decrease by
the same amount, so the returned order's quantity is exactly the
unmatched residual. -/
theorem match_market_total (oppIsBid : Bool) :
    ∀ (f : Nat) (bk : OrderBook α) (o : Order α),
    SideWF oppIsBid (bk.oppBook oppIsBid) →
    mtotal ((OrderBook.match_market_order oppIsBid f bk o).1.oppBook
        oppIsBid).price_to_list_map + o.quantity =
      mtotal (bk.oppBook oppIsBid).price_to_list_map +
        (OrderBook.match_market_order oppIsBid f bk o).2.quantity := by
  intro f
  induction f with
  | zero =>
    intro bk o hwf
    rfl
  | succ f ih =>
    intro bk o hwf
    by_cases hq : 0 < o.quantity
    · rcases hget : (bk.oppBook oppIsBid).get_best_order oppIsBid with ⟨opp1, bestOpt⟩
      have h1 : opp1 = (bk.oppBook oppIsBid).delete_best_cancelled_orders oppIsBid := by
        rw [← get_best_order_fst oppIsBid (bk.oppBook oppIsBid), hget]
      have hwf1 : SideWF oppIsBid opp1 := by
        rw [h1]
        exact SideWF_cleanup hwf
      have htot1 : mtotal opp1.price_to_list_map =
          mtotal (bk.oppBook oppIsBid).price_to_list_map := by
        rw [h1]
        exact delete_best_total _ _
      cases bestOpt with
      | none =>
        rw [match_market_none f hq hget, oppBook_setOpp_same, htot1]
      | some best =>
        have hsnd : ((bk.oppBook oppIsBid).get_best_order oppIsBid).2 = some best := by
          rw [hget]
        obtain ⟨k, dll, hk0, hl0, hhd0⟩ := get_best_order_some hsnd
        have hk1 : heapMin ((bk.setOpp oppIsBid opp1).oppBook oppIsBid).price_heap =
            some k := by
          rw [oppBook_setOpp_same, h1]
          exact hk0
        have hl1 : mlook ((bk.setOpp oppIsBid opp1).oppBook oppIsBid).price_to_list_map
            (real_price oppIsBid k) = some dll := by
          rw [oppBook_setOpp_same, h1]
          exact hl0
        have hwfS : SideWF oppIsBid ((bk.setOpp oppIsBid opp1).oppBook oppIsBid) := by
          rw [oppBook_setOpp_same]
          exact hwf1
        rw [match_market_step f hq hget]
        obtain ⟨e1, -, e3, -, e5, -, -⟩ := execute_match_spec (o := o) hwfS hk1 hl1 hhd0
        set E := (bk.setOpp oppIsBid opp1).execute_match o best oppIsBid with hEe
        set R := OrderBook.match_market_order oppIsBid f E.1 E.2.1 with hRr
        have hIH : mtotal (R.1.oppBook oppIsBid).price_to_list_map + E.2.1.quantity =
            mtotal (E.1.oppBook oppIsBid).price_to_list_map + R.2.quantity :=
          ih E.1 E.2.1 e1
        have hq21 : E.2.1.quantity =
            o.quantity - min o.quantity best.quantity := by
          rw [show E.2.1 = { o with
            quantity := o.quantity - min o.quantity best.quantity } from e3]
        have htot2 : mtotal (E.1.oppBook oppIsBid).price_to_list_map =
            mtotal (bk.oppBook oppIsBid).price_to_list_map -
              min o.quantity best.quantity := by
          rw [show mtotal (E.1.oppBook oppIsBid).price_to_list_map =
            mtotal ((bk.setOpp oppIsBid opp1).oppBook oppIsBid).price_to_list_map -
              min o.quantity best.quantity from e5, oppBook_setOpp_same, htot1]
        rw [hq21, htot2] at hIH
        calc mtotal (R.1.oppBook oppIsBid).price_to_list_map + o.quantity =
            mtotal (R.1.oppBook oppIsBid).price_to_list_map +
              (o.quantity - min o.quantity best.quantity) +
              min o.quantity best.quantity := by abel
          _ = (mtotal (bk.oppBook oppIsBid).price_to_list_map -
              min o.quantity best.quantity) + R.2.quantity +
              min o.quantity best.quantity := by rw [hIH]
          _ = mtotal (bk.oppBook oppIsBid).price_to_list_map + R.2.quantity := by abel
    · rw [match_market_nonpos _ hq]

theorem setOpp_self (bk : OrderBook α) (s : Bool) : bk.setOpp s (bk.oppBook s) = bk := by
  cases s <;> rfl

/-- Adding a fresh-id order and deleting it again restores the side
book exactly, except that a placement that opened a new level leaves
its heap key behind (lazy deletion). -/
theorem add_delete_roundtrip {isBid : Bool} {b : PriceLevelOrdersBase α} {o : Order α}
    {p : α} (hinv : SideInvMaps b) (hne : LevelsNonempty b)
    (hp : o.price = some p) (hid : o.order_id ∉ sideIds b) :
    (∀ dll, mlook b.price_to_list_map o.priceQ = some dll →
      (b.add isBid o).delete_order o = b) ∧
    (mlook b.price_to_list_map o.priceQ = none →
      (b.add isBid o).delete_order o =
        { b with price_heap := heapPush b.price_heap (heap_key isBid o.priceQ) }) := by
  constructor
  · intro dll hl
    have hqv : mlook b.price_to_quantity_map o.priceQ = some (sumQty dll.orders) := by
      rw [sideInvMaps_all hinv, hl]; rfl
    have hidlv : o.order_id ∉ dll.orders.map Order.order_id := by
      intro hin
      apply hid
      rw [mem_sideIds]
      obtain ⟨o2, ho2, he2⟩ := List.mem_map.1 hin
      exact ⟨(o.priceQ, dll), mlook_mem hl, o2, ho2, he2⟩
    have hdllne : dll.orders ≠ [] := hne _ (mlook_mem hl)
    rw [PriceLevelOrdersBase.add, hl]
    dsimp only
    rw [PriceLevelOrdersBase.delete_order]
    dsimp only
    rw [mlook_mset_self]
    dsimp only
    have hrem : ((dll.push o).remove o).orders = dll.orders := by
      show removeById (dll.orders ++ [o]) o.order_id = dll.orders
      exact removeById_append_last hidlv
    have hemp : ((dll.push o).remove o).is_empty = false := by
      rw [DoublyLinkedList.is_empty, hrem]
      simpa [List.isEmpty_iff] using hdllne
    rw [hemp, if_neg Bool.false_ne_true]
    rw [mlook_mset_self]
    dsimp only [Option.getD_some]
    rw [hqv]
    dsimp only [Option.getD_some]
    rw [mset_mset, mset_mset]
    have h1 : sumQty dll.orders + o.quantity - o.quantity = sumQty dll.orders := by
      abel
    rw [h1, mset_eq_self hqv]
    have h2 : (dll.push o).remove o = dll := by
      rw [DoublyLinkedList.remove]
      rw [show removeById (dll.push o).orders o.order_id = dll.orders from hrem]
    rw [h2, mset_eq_self hl]
  · intro hl
    have hqn : mlook b.price_to_quantity_map o.priceQ = none := by
      rw [sideInvMaps_all hinv, hl]; rfl
    rw [PriceLevelOrdersBase.add, hl]
    dsimp only
    rw [PriceLevelOrdersBase.delete_order]
    dsimp only
    rw [mlook_mset_self]
    dsimp only
    have hrem : ((DoublyLinkedList.empty.push o).remove o).orders = [] := by
      show removeById (([] : List (Order α)) ++ [o]) o.order_id = []
      exact removeById_append_last (by simp)
    have hemp : ((DoublyLinkedList.empty.push o).remove o).is_empty = true := by
      rw [DoublyLinkedList.is_empty, hrem]
      rfl
    rw [hemp, if_pos rfl]
    rw [mdel_mset, mdel_mset, mdel_mset, mdel_absent hqn, mdel_absent hl]

/-! ### Unfolding equations for `place_order`, one per kind and side -/

theorem place_order_limit_bid {bk : OrderBook α} {o : Order α}
    (hty : o.order_type_enum = OrderTypeEnum.LIMIT)
    (hside : o.bid_ask_enum = BidAskEnum.BID) :
    bk.place_order o =
      (let bkc : OrderBook α := { bk with
         bid_orders := bk.bid_orders.delete_best_cancelled_orders true
         ask_orders := bk.ask_orders.delete_best_cancelled_orders false }
       let r := OrderBook.match_limit_order false
         (fun order_price book_price => book_price ≤ order_price)
         ((bkc.oppBook false).countOrders + 2) bkc o
       if 0 < r.2.quantity then
         ({ r.1.setOpp true ((r.1.oppBook true).add true r.2) with
            id_to_order_map := mset (r.1.setOpp true
              ((r.1.oppBook true).add true r.2)).id_to_order_map r.2.order_id r.2 }, r.2)
       else r) := by
  rw [OrderBook.place_order, hty, hside]
  rfl

theorem place_order_limit_ask {bk : OrderBook α} {o : Order α}
    (hty : o.order_type_enum = OrderTypeEnum.LIMIT)
    (hside : o.bid_ask_enum = BidAskEnum.ASK) :
    bk.place_order o =
      (let bkc : OrderBook α := { bk with
         bid_orders := bk.bid_orders.delete_best_cancelled_orders true
         ask_orders := bk.ask_orders.delete_best_cancelled_orders false }
       let r := OrderBook.match_limit_order true
         (fun order_price book_price => order_price ≤ book_price)
         ((bkc.oppBook true).countOrders + 2) bkc o
       if 0 < r.2.quantity then
         ({ r.1.setOpp false ((r.1.oppBook false).add false r.2) with
            id_to_order_map := mset (r.1.setOpp false
              ((r.1.oppBook false).add false r.2)).id_to_order_map r.2.order_id r.2 }, r.2)
       else r) := by
  rw [OrderBook.place_order, hty, hside]
  rfl

theorem place_order_market_bid {bk : OrderBook α} {o : Order α}
    (hty : o.order_type_enum = OrderTypeEnum.MARKET)
    (hside : o.bid_ask_enum = BidAskEnum.BID) :
    bk.place_order o =
      (let bkc : OrderBook α := { bk with
         bid_orders := bk.bid_orders.delete_best_cancelled_orders true
         ask_orders := bk.ask_orders.delete_best_cancelled_orders false }
       OrderBook.match_market_order false ((bkc.oppBook false).countOrders + 2) bkc o) := by
  rw [OrderBook.place_order, hty, hside]
  rfl

theorem place_order_market_ask {bk : OrderBook α} {o : Order α}
    (hty : o.order_type_enum = OrderTypeEnum.MARKET)
    (hside : o.bid_ask_enum = BidAskEnum.ASK) :
    bk.place_order o =
      (let bkc : OrderBook α := { bk with
         bid_orders := bk.bid_orders.delete_best_cancelled_orders true
         ask_orders := bk.ask_orders.delete_best_cancelled_orders false }
       OrderBook.match_market_order true ((bkc.oppBook true).countOrders + 2) bkc o) := by
  rw [OrderBook.place_order, hty, hside]
  rfl

theorem place_order_trigger {bk : OrderBook α} {o : Order α}
    (hty : o.order_type_enum = OrderTypeEnum.TRIGGER) :
    bk.place_order o =
      ({ bk with
         bid_orders := bk.bid_orders.delete_best_cancelled_orders true
         ask_orders := bk.ask_orders.delete_best_cancelled_orders false }, o) := by
  rw [OrderBook.place_order, hty]

theorem cancel_order_absent {bk : OrderBook α} {oid : Int}
    (h : mlook bk.id_to_order_map oid = none) : bk.cancel_order oid = bk := by
  rw [OrderBook.cancel_order, h]

theorem cancel_order_found_bid {bk : OrderBook α} {oid : Int} {co : Order α}
    (h : mlook bk.id_to_order_map oid = some co)
    (hside : co.bid_ask_enum = BidAskEnum.BID) :
    bk.cancel_order oid =
      { bk with
        bid_orders := bk.bid_orders.delete_order co
        id_to_order_map := mdel bk.id_to_order_map oid } := by
  rw [OrderBook.cancel_order, h]
  dsimp only
  rw [hside, if_pos rfl]

theorem cancel_order_found_ask {bk : OrderBook α} {oid : Int} {co : Order α}
    (h : mlook bk.id_to_order_map oid = some co)
    (hside : co.bid_ask_enum = BidAskEnum.ASK) :
    bk.cancel_order oid =
      { bk with
        ask_orders := bk.ask_orders.delete_order co
        id_to_order_map := mdel bk.id_to_order_map oid } := by
  rw [OrderBook.cancel_order, h]
  dsimp only
  rw [hside]
  rw [if_neg (by intro hx; exact BidAskEnum.noConfusion hx)]

/-! ### Concrete sample values used by witnesses -/

def sampleBid : Order Int :=
  ⟨1, 0, OrderTypeEnum.LIMIT, BidAskEnum.BID, some 99, 10, "client"⟩

def sampleAsk : Order Int :=
  ⟨2, 0, OrderTypeEnum.LIMIT, BidAskEnum.ASK, some 101, 10, "client"⟩

/-- A small live book: one resting bid at 99, one resting ask at 101. -/
def sampleBook : OrderBook Int :=
  ((OrderBook.empty.place_order sampleBid).1.place_order sampleAsk).1

/-! ### Claim theorems -/

/-- C10: `DoublyLinkedList.peek` is total and pure: it is a plain
function of the list state that always returns a value; on an empty
list, where `head.next_node` is the tail sentinel, it returns the
sentinel's `None` rather than being undefined, and on a non-empty
list it returns the head order. -/
theorem C10_peek_total (l : DoublyLinkedList α) :
    (l.is_empty = true → l.peek = none) ∧
    (l.is_empty = false → ∃ o, l.peek = some o) := by
  constructor
  · intro h
    rw [DoublyLinkedList.is_empty, List.isEmpty_iff] at h
    rw [DoublyLinkedList.peek, h]
    rfl
  · intro h
    cases ho : l.orders with
    | nil =>
      rw [DoublyLinkedList.is_empty, ho] at h
      simp at h
    | cons a t =>
      refine ⟨a, ?_⟩
      rw [DoublyLinkedList.peek, ho]
      rfl

/-- Witness for C10 at the empty list and at a one-element list. -/
theorem C10_peek_total_witness :
    (DoublyLinkedList.empty : DoublyLinkedList Int).peek = none ∧
    ∃ o, (DoublyLinkedList.empty.push sampleBid).peek = some o :=
  ⟨(C10_peek_total DoublyLinkedList.empty).1 rfl,
   (C10_peek_total (DoublyLinkedList.empty.push sampleBid)).2 rfl⟩

/-- C2: the claim that `place_order` completes without raising on every
well-formed order is right about the intent but wrong about the code:
the first statement of `place_order` (`src/order_book.py` line 75)
invokes the attribute `delete_best_cancelled_orders` on a side book,
and neither that name nor `pop` (invoked by `_execute_match`) is
defined by `PriceLevelOrdersBase` or its subclasses in
`src/data_structures.py`, so every call raises `AttributeError`
before any validation or matching. -/
theorem C2_place_order_raises :
    OrderBook.place_order_run (OrderBook.empty : OrderBook Int) sampleBid =
      Except.error "AttributeError: delete_best_cancelled_orders" ∧
    "delete_best_cancelled_orders" ∉ priceLevelOrdersBaseMethodNames ∧
    "delete_best_cancelled_orders" ∉ bidOrdersOwnMethodNames ∧
    "pop" ∉ priceLevelOrdersBaseMethodNames := by
  refine ⟨rfl, by decide, by decide, by decide⟩

/-- C8 counterexample: the claim is false for the pre-refactor engine
at the repository root, whose price queries return the number `0` on
an empty side, colliding with a zero price instead of being a
distinguishable absence value. -/
theorem C8_counterexample :
    OrderBook.legacy_get_best_bid_price (OrderBook.empty : OrderBook Int) = 0 ∧
    OrderBook.legacy_get_best_ask_price (OrderBook.empty : OrderBook Int) = 0 :=
  ⟨rfl, rfl⟩

/-- C7 counterexample: placing a non-crossing LIMIT bid on the empty
book and cancelling it does not return the book to its pre-place
state even though the id-index is restored exactly: the bid heap
retains the stale key of the level the order opened. -/
theorem C7_counterexample :
    (((OrderBook.empty : OrderBook Int).place_order sampleBid).1.cancel_order
      sampleBid.order_id ≠ OrderBook.empty) ∧
    (((OrderBook.empty : OrderBook Int).place_order sampleBid).1.cancel_order
      sampleBid.order_id).id_to_order_map = OrderBook.empty.id_to_order_map ∧
    (((OrderBook.empty : OrderBook Int).place_order sampleBid).1.cancel_order
      sampleBid.order_id).bid_orders.price_heap = [-99] := by
  refine ⟨by decide, by decide, by decide⟩

/-- C5: `cancel_order` on a resting id removes the order from its
side's price level and from the id-index; on an unknown id it is a
silent no-op; it changes no other id-index entry and no other level's
aggregate quantity (in particular no resting order's `quantity` field),
and cancelling the same id twice has the same effect as cancelling it
once. -/
theorem C5_cancel_order_spec (bk : OrderBook α) (oid : Int) (hwf : bk.WF) :
    ((bk.cancel_order oid).cancel_order oid = bk.cancel_order oid) ∧
    (mlook bk.id_to_order_map oid = none → bk.cancel_order oid = bk) ∧
    (∀ co, mlook bk.id_to_order_map oid = some co →
      mlook (bk.cancel_order oid).id_to_order_map oid = none ∧
      (∀ id2, id2 ≠ oid → mlook (bk.cancel_order oid).id_to_order_map id2 =
        mlook bk.id_to_order_map id2) ∧
      (∀ dll2, mlook ((bk.cancel_order oid).sideOf co.bid_ask_enum).price_to_list_map
        co.priceQ = some dll2 → co.order_id ∉ dll2.orders.map Order.order_id) ∧
      ((bk.cancel_order oid).sideOf co.bid_ask_enum).get_quantity_for_price co.priceQ =
        (bk.sideOf co.bid_ask_enum).get_quantity_for_price co.priceQ - co.quantity ∧
      (∀ q, q ≠ co.priceQ →
        ((bk.cancel_order oid).sideOf co.bid_ask_enum).get_quantity_for_price q =
          (bk.sideOf co.bid_ask_enum).get_quantity_for_price q) ∧
      (∀ e, e ≠ co.bid_ask_enum → (bk.cancel_order oid).sideOf e = bk.sideOf e)) := by
  obtain ⟨hwfB, hwfA, halign, hidk, hallid⟩ := hwf
  have main : ∀ co, mlook bk.id_to_order_map oid = some co →
      mlook (bk.cancel_order oid).id_to_order_map oid = none ∧
      (∀ id2, id2 ≠ oid → mlook (bk.cancel_order oid).id_to_order_map id2 =
        mlook bk.id_to_order_map id2) ∧
      (∀ dll2, mlook ((bk.cancel_order oid).sideOf co.bid_ask_enum).price_to_list_map
        co.priceQ = some dll2 → co.order_id ∉ dll2.orders.map Order.order_id) ∧
      ((bk.cancel_order oid).sideOf co.bid_ask_enum).get_quantity_for_price co.priceQ =
        (bk.sideOf co.bid_ask_enum).get_quantity_for_price co.priceQ - co.quantity ∧
      (∀ q, q ≠ co.priceQ →
        ((bk.cancel_order oid).sideOf co.bid_ask_enum).get_quantity_for_price q =
          (bk.sideOf co.bid_ask_enum).get_quantity_for_price q) ∧
      (∀ e, e ≠ co.bid_ask_enum → (bk.cancel_order oid).sideOf e = bk.sideOf e) := by
    intro co hco
    obtain ⟨hcoid, hcolvl⟩ := halign (oid, co) (mlook_mem hco)
    cases hl : mlook (bk.sideOf co.bid_ask_enum).price_to_list_map co.priceQ with
    | none =>
      exfalso
      rw [hl] at hcolvl
      simp [DoublyLinkedList.empty] at hcolvl
    | some dll =>
      rw [hl] at hcolvl
      simp only [Option.getD_some] at hcolvl
      cases hside : co.bid_ask_enum with
      | BID =>
        rw [hside] at hl
        have hfound := delete_order_found hwfB
          (by rw [show bk.sideOf BidAskEnum.BID = bk.bid_orders from rfl] at hl; exact hl)
          hcolvl
        rw [cancel_order_found_bid hco hside]
        refine ⟨mlook_mdel_self _ _ hidk, fun id2 h2 => mlook_mdel_ne _ h2, ?_, ?_, ?_, ?_⟩
        · exact hfound.2.2.2.1
        · exact hfound.2.2.2.2.1
        · exact fun q hq2 => hfound.2.2.2.2.2.1 q hq2
        · intro e he
          cases e with
          | BID => exact absurd rfl he
          | ASK => rfl
      | ASK =>
        rw [hside] at hl
        have hfound := delete_order_found hwfA
          (by rw [show bk.sideOf BidAskEnum.ASK = bk.ask_orders from rfl] at hl; exact hl)
          hcolvl
        rw [cancel_order_found_ask hco hside]
        refine ⟨mlook_mdel_self _ _ hidk, fun id2 h2 => mlook_mdel_ne _ h2, ?_, ?_, ?_, ?_⟩
        · exact hfound.2.2.2.1
        · exact hfound.2.2.2.2.1
        · exact fun q hq2 => hfound.2.2.2.2.2.1 q hq2
        · intro e he
          cases e with
          | BID => rfl
          | ASK => exact absurd rfl he
  refine ⟨?_, fun h => cancel_order_absent h, main⟩
  cases hco : mlook bk.id_to_order_map oid with
  | none =>
    rw [cancel_order_absent hco, cancel_order_absent hco]
  | some co =>
    have hnone := (main co hco).1
    rw [cancel_order_absent hnone]

instance (isBid : Bool) (b : PriceLevelOrdersBase α) : Decidable (SideWF isBid b) := by
  unfold SideWF SideInvMaps LevelsNonempty PricesOk LevelIdsNodup ListKeysNodup
    QtyKeysNodup HeapCover
  exact inferInstance

instance (bk : OrderBook α) : Decidable bk.WF := by
  unfold OrderBook.WF Align IdKeysNodup OrderBook.allIds
  exact inferInstance

/-- Witness for C5 on the sample book: cancelling resting id 1 twice
equals cancelling once, and the id is gone from the index. -/
theorem C5_cancel_order_spec_witness :
    ((sampleBook.cancel_order 1).cancel_order 1 = sampleBook.cancel_order 1) ∧
    mlook (sampleBook.cancel_order 1).id_to_order_map 1 = none :=
  ⟨(C5_cancel_order_spec sampleBook 1 (by decide)).1,
   ((C5_cancel_order_spec sampleBook 1 (by decide)).2.2 sampleBid (by decide)).1⟩

/-- A book with a single resting ask of quantity 10 at 101. -/
def c1Book : OrderBook Int := (OrderBook.empty.place_order sampleAsk).1

/-- An aggressive incoming bid for 25 at 102. -/
def c1Incoming : Order Int :=
  ⟨3, 0, OrderTypeEnum.LIMIT, BidAskEnum.BID, some 102, 25, "client"⟩

/-- C1 counterexample: in a genuine iteration of the matching loop
(the fetched best opposite order really is the resting ask), the sum
of opposite resting quantity and o.quantity is NOT conserved: the
trade removes `min(o.q, b.q)` from each, so the sum drops by twice the
traded quantity (35 becomes 15 here). -/
theorem C1_counterexample :
    ((c1Book.oppBook false).get_best_order false).2 = some sampleAsk ∧
    mtotal (((c1Book.setOpp false ((c1Book.oppBook false).get_best_order false).1).execute_match
        c1Incoming sampleAsk false).1.oppBook false).price_to_list_map +
      ((c1Book.setOpp false ((c1Book.oppBook false).get_best_order false).1).execute_match
        c1Incoming sampleAsk false).2.1.quantity ≠
      mtotal (c1Book.oppBook false).price_to_list_map + c1Incoming.quantity := by
  refine ⟨by decide, by decide⟩

/-- C1 amended: in every iteration of the matching loop, with
`t = min(o.quantity, b.quantity)` taken before the iteration, the
incoming and the matched resting order each decrease by exactly `t`,
and the opposite side's total resting quantity decreases by exactly
`t` as well — the changes are equal (`Δ resting = Δ o.quantity`),
rather than summing to zero as the claim stated. -/
theorem C1_execute_match_deltas {oppIsBid : Bool} {bk : OrderBook α}
    {o best : Order α}
    (hwf : SideWF oppIsBid (bk.oppBook oppIsBid))
    (hbest : ((bk.oppBook oppIsBid).get_best_order oppIsBid).2 = some best) :
    ((bk.setOpp oppIsBid ((bk.oppBook oppIsBid).get_best_order oppIsBid).1).execute_match
        o best oppIsBid).2.1.quantity =
      o.quantity - min o.quantity best.quantity ∧
    ((bk.setOpp oppIsBid ((bk.oppBook oppIsBid).get_best_order oppIsBid).1).execute_match
        o best oppIsBid).2.2.quantity =
      best.quantity - min o.quantity best.quantity ∧
    mtotal (((bk.setOpp oppIsBid ((bk.oppBook oppIsBid).get_best_order oppIsBid).1).execute_match
        o best oppIsBid).1.oppBook oppIsBid).price_to_list_map =
      mtotal (bk.oppBook oppIsBid).price_to_list_map -
        min o.quantity best.quantity := by
  obtain ⟨k, dll, hk0, hl0, hhd0⟩ := get_best_order_some hbest
  have hfst := get_best_order_fst oppIsBid (bk.oppBook oppIsBid)
  have hwf1 : SideWF oppIsBid
      ((bk.setOpp oppIsBid ((bk.oppBook oppIsBid).get_best_order oppIsBid).1).oppBook
        oppIsBid) := by
    rw [oppBook_setOpp_same, hfst]
    exact SideWF_cleanup hwf
  have hk1 : heapMin ((bk.setOpp oppIsBid
      ((bk.oppBook oppIsBid).get_best_order oppIsBid).1).oppBook oppIsBid).price_heap =
      some k := by
    rw [oppBook_setOpp_same, hfst]
    exact hk0
  have hl1 : mlook ((bk.setOpp oppIsBid
      ((bk.oppBook oppIsBid).get_best_order oppIsBid).1).oppBook
        oppIsBid).price_to_list_map (real_price oppIsBid k) = some dll := by
    rw [oppBook_setOpp_same, hfst]
    exact hl0
  obtain ⟨_, _, e3, e4, e5, _, _⟩ := execute_match_spec (o := o) hwf1 hk1 hl1 hhd0
  refine ⟨?_, ?_, ?_⟩
  · rw [e3]
  · rw [e4]
  · rw [e5, oppBook_setOpp_same, hfst, PriceLevelOrdersBase.delete_best_cancelled_orders,
      cleanupFuel_total]

/-- Witness for the amended C1 on the concrete one-ask book and the
incoming bid for 25: the ask empties, the incoming drops to 15, the
opposite total drops from 10 to 0. -/
theorem C1_execute_match_deltas_witness :
    ((c1Book.setOpp false ((c1Book.oppBook false).get_best_order false).1).execute_match
        c1Incoming sampleAsk false).2.1.quantity =
      c1Incoming.quantity - min c1Incoming.quantity sampleAsk.quantity :=
  (C1_execute_match_deltas (by decide) (by decide)).1

/-- Full characterisation of `get_best_order`: cleanup first, then
the head of the best-priced level, none exactly on an empty side. -/
theorem best_order_spec_aux (isBid : Bool) (b : PriceLevelOrdersBase α)
    (hwf : SideWF isBid b) :
    (b.get_best_order isBid).1 = b.delete_best_cancelled_orders isBid ∧
    (∀ best, (b.get_best_order isBid).2 = some best →
      ∃ p dll, specBestPrice isBid b = some p ∧
        mlook b.price_to_list_map p = some dll ∧ dll.orders.head? = some best) ∧
    ((b.get_best_order isBid).2 = none ↔ b.price_to_list_map = []) := by
  obtain ⟨hinv, hne, hpr, hli, hlk, hqk, hcov⟩ := hwf
  have hm := @cleanupFuel_maps α _ isBid b hinv hne b.price_heap.length
  have hmapsL : (b.delete_best_cancelled_orders isBid).price_to_list_map =
      b.price_to_list_map := by
    rw [PriceLevelOrdersBase.delete_best_cancelled_orders]; exact hm.2
  have hcov2 : HeapCover isBid (b.delete_best_cancelled_orders isBid) := by
    rw [PriceLevelOrdersBase.delete_best_cancelled_orders]
    exact cleanupFuel_cover hinv hne hcov
  refine ⟨get_best_order_fst isBid b, ?_, ?_, ?_⟩
  · intro best hbest
    obtain ⟨k, dll, hk, hl, hhd⟩ := get_best_order_some hbest
    rw [hmapsL] at hl
    refine ⟨real_price isBid k, dll, ?_, hl, hhd⟩
    have hkin : real_price isBid k ∈ mkeys b.price_to_list_map :=
      List.mem_map.2 ⟨_, mlook_mem hl, rfl⟩
    have hub : ∀ p ∈ mkeys b.price_to_list_map, k ≤ heap_key isBid p := by
      intro p hp
      obtain ⟨pl, hpl, hpe⟩ := List.mem_map.1 hp
      have hkey : heap_key isBid pl.1 ∈
          (b.delete_best_cancelled_orders isBid).price_heap :=
        hcov2 pl (by rw [hmapsL]; exact hpl)
      subst hpe
      exact heapMin_le hk _ hkey
    cases isBid with
    | false =>
      show heapMin (mkeys b.price_to_list_map) = some (real_price false k)
      exact heapMin_eq_of hkin (fun p hp => hub p hp)
    | true =>
      show listMax (mkeys b.price_to_list_map) = some (real_price true k)
      refine listMax_eq_of hkin (fun p hp => ?_)
      have h1 : k ≤ -p := hub p hp
      exact le_neg.mp h1
  · intro hnone
    have htop := get_best_order_none_top hnone
    rw [heapMin_eq_none_iff] at htop
    rw [List.eq_nil_iff_forall_not_mem]
    intro pl hpl
    have hkey := hcov2 pl (by rw [hmapsL]; exact hpl)
    rw [htop] at hkey
    simp at hkey
  · intro hnil
    rw [get_best_order_snd]
    cases htop : heapMin (b.delete_best_cancelled_orders isBid).price_heap with
    | none => rfl
    | some k =>
      have htop2 : heapMin (cleanupFuel isBid b.price_heap.length b).price_heap =
          some k := by
        rw [← PriceLevelOrdersBase.delete_best_cancelled_orders]; exact htop
      obtain ⟨dll, hl, _⟩ := cleanupFuel_top_valid (le_refl b.price_heap.length) htop2
      rw [hm.2, hnil] at hl
      simp [mlook] at hl

/-- C3: `get_best_order` first runs the lazy cleanup (its returned
state is exactly `delete_best_cancelled_orders`), then returns the
head order of the level at the maximum (bid) / minimum (ask) price
bound in the side's level map, and returns none exactly when the side
holds no resting orders (empty level map). -/
theorem C3_get_best_order_spec (isBid : Bool) (b : PriceLevelOrdersBase α)
    (hwf : SideWF isBid b) :
    (b.get_best_order isBid).1 = b.delete_best_cancelled_orders isBid ∧
    (∀ best, (b.get_best_order isBid).2 = some best →
      ∃ p dll, specBestPrice isBid b = some p ∧
        mlook b.price_to_list_map p = some dll ∧ dll.orders.head? = some best) ∧
    ((b.get_best_order isBid).2 = none ↔ b.price_to_list_map = []) :=
  best_order_spec_aux isBid b hwf

/-- Witness for C3 on the concrete sample book: the bid side has a
resting order, so the query does not return none. -/
theorem C3_get_best_order_spec_witness :
    (sampleBook.bid_orders.get_best_order true).2 = none ↔
      sampleBook.bid_orders.price_to_list_map = [] :=
  (C3_get_best_order_spec true sampleBook.bid_orders (by decide)).2.2

theorem OrderBook.get_best_bid_price_snd (bk : OrderBook α) :
    (bk.get_best_bid_price).2 =
      (bk.bid_orders.get_best_order true).2.bind Order.price := by
  rw [OrderBook.get_best_bid_price, OrderBook.get_best_bid_order]

theorem OrderBook.get_best_ask_price_snd (bk : OrderBook α) :
    (bk.get_best_ask_price).2 =
      (bk.ask_orders.get_best_order false).2.bind Order.price := by
  rw [OrderBook.get_best_ask_price, OrderBook.get_best_ask_order]

theorem head?_mem_list {β : Type} {l : List β} {a : β} (h : l.head? = some a) :
    a ∈ l := by
  cases l with
  | nil => exact Option.noConfusion h
  | cons x t =>
    cases h
    exact List.mem_cons_self _ _

/-- The price a best-order query reports: none exactly on an empty
side, and otherwise the best bound price. -/
theorem best_price_bind_spec {isBid : Bool} {b : PriceLevelOrdersBase α}
    (hwf : SideWF isBid b) :
    ((b.get_best_order isBid).2.bind Order.price = none ↔
      b.price_to_list_map = []) ∧
    (∀ p, (b.get_best_order isBid).2.bind Order.price = some p →
      specBestPrice isBid b = some p) := by
  obtain ⟨-, hsome, hnone⟩ := best_order_spec_aux isBid b hwf
  have hpr := hwf.2.2.1
  constructor
  · constructor
    · intro h
      cases hr : (b.get_best_order isBid).2 with
      | none => exact hnone.1 hr
      | some best =>
        obtain ⟨p, dll, hsp, hl, hhd⟩ := hsome best hr
        have hmem : best ∈ dll.orders := head?_mem_list hhd
        have hp : best.price = some p := hpr _ (mlook_mem hl) best hmem
        rw [hr] at h
        simp only [Option.some_bind] at h
        rw [hp] at h
        exact Option.noConfusion h
    · intro h
      rw [hnone.2 h]
      rfl
  · intro p hp
    cases hr : (b.get_best_order isBid).2 with
    | none =>
      rw [hr] at hp
      exact Option.noConfusion hp
    | some best =>
      rw [hr] at hp
      simp only [Option.some_bind] at hp
      obtain ⟨q, dll, hsp, hl, hhd⟩ := hsome best hr
      have hmem : best ∈ dll.orders := head?_mem_list hhd
      have hbp : best.price = some q := hpr _ (mlook_mem hl) best hmem
      rw [hbp] at hp
      cases hp
      exact hsp

/-- C8 amended: the package engine's price queries return none exactly
when the queried side holds no resting orders, and otherwise return
the best resting price (maximum bid / minimum ask); the legacy root
engine instead returns the sentinel 0 on an empty side (see the
counterexample). -/
theorem C8_best_price_spec (bk : OrderBook α)
    (hb : SideWF true bk.bid_orders) (ha : SideWF false bk.ask_orders) :
    ((bk.get_best_bid_price).2 = none ↔ bk.bid_orders.price_to_list_map = []) ∧
    (∀ p, (bk.get_best_bid_price).2 = some p →
      specBestPrice true bk.bid_orders = some p) ∧
    ((bk.get_best_ask_price).2 = none ↔ bk.ask_orders.price_to_list_map = []) ∧
    (∀ p, (bk.get_best_ask_price).2 = some p →
      specBestPrice false bk.ask_orders = some p) := by
  have h1 := best_price_bind_spec hb
  have h2 := best_price_bind_spec ha
  rw [OrderBook.get_best_bid_price_snd, OrderBook.get_best_ask_price_snd]
  exact ⟨h1.1, h1.2, h2.1, h2.2⟩

/-- Witness for the amended C8 on the concrete sample book. -/
theorem C8_best_price_spec_witness :
    ((sampleBook.get_best_bid_price).2 = none ↔
      sampleBook.bid_orders.price_to_list_map = []) :=
  (C8_best_price_spec sampleBook (by decide) (by decide)).1

theorem OrderBook.get_best_bid_order_fst (bk : OrderBook α) :
    (bk.get_best_bid_order).1 =
      { bk with bid_orders := (bk.bid_orders.get_best_order true).1 } := by
  rw [OrderBook.get_best_bid_order]

theorem OrderBook.get_best_ask_order_fst (bk : OrderBook α) :
    (bk.get_best_ask_order).1 =
      { bk with ask_orders := (bk.ask_orders.get_best_order false).1 } := by
  rw [OrderBook.get_best_ask_order]

theorem OrderBook.get_best_bid_order_snd (bk : OrderBook α) :
    (bk.get_best_bid_order).2 = (bk.bid_orders.get_best_order true).2 := by
  rw [OrderBook.get_best_bid_order]

theorem OrderBook.get_best_ask_order_snd (bk : OrderBook α) :
    (bk.get_best_ask_order).2 = (bk.ask_orders.get_best_order false).2 := by
  rw [OrderBook.get_best_ask_order]

/-- Re-querying right after a best-order query returns the same
result: the lazy cleanup the first call performed is idempotent. -/
theorem get_best_order_purity_side (isBid : Bool) (b : PriceLevelOrdersBase α) :
    ((b.get_best_order isBid).1.get_best_order isBid).2 =
      (b.get_best_order isBid).2 := by
  rw [get_best_order_fst, get_best_order_snd, get_best_order_snd,
    delete_best_cancelled_orders_idem]

/-- Under the side invariants the cleanup touches neither map, so the
quantity query is unaffected by a preceding best-order query. -/
theorem cleanup_qty_query_eq {isBid : Bool} {b : PriceLevelOrdersBase α}
    (hinv : SideInvMaps b) (hne : LevelsNonempty b) (p : α) :
    (b.get_best_order isBid).1.get_quantity_for_price p =
      b.get_quantity_for_price p := by
  rw [get_best_order_fst, PriceLevelOrdersBase.delete_best_cancelled_orders,
    PriceLevelOrdersBase.get_quantity_for_price,
    PriceLevelOrdersBase.get_quantity_for_price,
    (cleanupFuel_maps hinv hne _).1]

/-- C9: the best-order queries mutate only via the lazy cleanup and
change no observable result: after `get_best_bid_order` (resp.
`get_best_ask_order`), every subsequent query — both best-order
queries, both best-price queries, and `get_quantity_for_price` at
every price on either side — returns exactly what it would have
returned on the original book, and in particular calling the same
query twice in a row returns the same order. -/
theorem C9_get_best_order_purity (bk : OrderBook α)
    (hb : SideWF true bk.bid_orders) (ha : SideWF false bk.ask_orders) :
    (((bk.get_best_bid_order).1.get_best_bid_order).2 = (bk.get_best_bid_order).2 ∧
     ((bk.get_best_bid_order).1.get_best_ask_order).2 = (bk.get_best_ask_order).2 ∧
     ((bk.get_best_bid_order).1.get_best_bid_price).2 = (bk.get_best_bid_price).2 ∧
     ((bk.get_best_bid_order).1.get_best_ask_price).2 = (bk.get_best_ask_price).2 ∧
     ∀ p e, (bk.get_best_bid_order).1.get_quantity_for_price p e =
       bk.get_quantity_for_price p e) ∧
    (((bk.get_best_ask_order).1.get_best_bid_order).2 = (bk.get_best_bid_order).2 ∧
     ((bk.get_best_ask_order).1.get_best_ask_order).2 = (bk.get_best_ask_order).2 ∧
     ((bk.get_best_ask_order).1.get_best_bid_price).2 = (bk.get_best_bid_price).2 ∧
     ((bk.get_best_ask_order).1.get_best_ask_price).2 = (bk.get_best_ask_price).2 ∧
     ∀ p e, (bk.get_best_ask_order).1.get_quantity_for_price p e =
       bk.get_quantity_for_price p e) := by
  obtain ⟨hbinv, hbne, -, -, -, -, -⟩ := hb
  obtain ⟨hainv, hane, -, -, -, -, -⟩ := ha
  refine ⟨⟨?_, ?_, ?_, ?_, ?_⟩, ⟨?_, ?_, ?_, ?_, ?_⟩⟩
  · rw [OrderBook.get_best_bid_order_fst, OrderBook.get_best_bid_order_snd,
      OrderBook.get_best_bid_order_snd]
    exact get_best_order_purity_side true bk.bid_orders
  · rw [OrderBook.get_best_bid_order_fst, OrderBook.get_best_ask_order_snd,
      OrderBook.get_best_ask_order_snd]
  · rw [OrderBook.get_best_bid_order_fst, OrderBook.get_best_bid_price_snd,
      OrderBook.get_best_bid_price_snd]
    rw [show ({ bk with
        bid_orders := (bk.bid_orders.get_best_order true).1 } : OrderBook α).bid_orders =
      (bk.bid_orders.get_best_order true).1 from rfl]
    rw [get_best_order_purity_side]
  · rw [OrderBook.get_best_bid_order_fst, OrderBook.get_best_ask_price_snd,
      OrderBook.get_best_ask_price_snd]
  · intro p e
    cases e with
    | BID =>
      show (bk.get_best_bid_order).1.bid_orders.get_quantity_for_price p =
        bk.bid_orders.get_quantity_for_price p
      rw [OrderBook.get_best_bid_order_fst]
      exact cleanup_qty_query_eq hbinv hbne p
    | ASK =>
      show (bk.get_best_bid_order).1.ask_orders.get_quantity_for_price p =
        bk.ask_orders.get_quantity_for_price p
      rw [OrderBook.get_best_bid_order_fst]
  · rw [OrderBook.get_best_ask_order_fst, OrderBook.get_best_bid_order_snd,
      OrderBook.get_best_bid_order_snd]
  · rw [OrderBook.get_best_ask_order_fst, OrderBook.get_best_ask_order_snd,
      OrderBook.get_best_ask_order_snd]
    exact get_best_order_purity_side false bk.ask_orders
  · rw [OrderBook.get_best_ask_order_fst, OrderBook.get_best_bid_price_snd,
      OrderBook.get_best_bid_price_snd]
  · rw [OrderBook.get_best_ask_order_fst, OrderBook.get_best_ask_price_snd,
      OrderBook.get_best_ask_price_snd]
    rw [show ({ bk with
        ask_orders := (bk.ask_orders.get_best_order false).1 } : OrderBook α).ask_orders =
      (bk.ask_orders.get_best_order false).1 from rfl]
    rw [get_best_order_purity_side]
  · intro p e
    cases e with
    | BID =>
      show (bk.get_best_ask_order).1.bid_orders.get_quantity_for_price p =
        bk.bid_orders.get_quantity_for_price p
      rw [OrderBook.get_best_ask_order_fst]
    | ASK =>
      show (bk.get_best_ask_order).1.ask_orders.get_quantity_for_price p =
        bk.ask_orders.get_quantity_for_price p
      rw [OrderBook.get_best_ask_order_fst]
      exact cleanup_qty_query_eq hainv hane p

/-- Witness for C9 on the concrete sample book. -/
theorem C9_get_best_order_purity_witness :
    ((sampleBook.get_best_bid_order).1.get_best_bid_order).2 =
      (sampleBook.get_best_bid_order).2 :=
  (C9_get_best_order_purity sampleBook (by decide) (by decide)).1.1

/-! ### `place_order` restated through named components, for case proofs -/

/-- The cleanup pass `place_order` opens with (lines 75-76). -/
def OrderBook.cleanBoth (bk : OrderBook α) : OrderBook α :=
  { bk with
    bid_orders := bk.bid_orders.delete_best_cancelled_orders true
    ask_orders := bk.ask_orders.delete_best_cancelled_orders false }

/-- The crossing predicate `place_order` picks for a LIMIT order
(lines 78-88). -/
def sidePred (e : BidAskEnum) : α → α → Bool :=
  if e = BidAskEnum.BID then fun order_price book_price => book_price ≤ order_price
  else fun order_price book_price => order_price ≤ book_price

/-- The matching loop with the fuel `place_order` grants it. -/
def limitMatch (oppIsBid : Bool) (pred : α → α → Bool) (bk : OrderBook α) (o : Order α) :
    OrderBook α × Order α :=
  OrderBook.match_limit_order oppIsBid pred ((bk.oppBook oppIsBid).countOrders + 2) bk o

/-- The enqueue-residual tail of `place_order` (lines 92-94). -/
def placeRest (oppIsBid : Bool) (r : OrderBook α × Order α) : OrderBook α × Order α :=
  ({ r.1.setOpp (!oppIsBid) ((r.1.oppBook (!oppIsBid)).add (!oppIsBid) r.2) with
     id_to_order_map := mset (r.1.setOpp (!oppIsBid)
       ((r.1.oppBook (!oppIsBid)).add (!oppIsBid) r.2)).id_to_order_map
         r.2.order_id r.2 }, r.2)

theorem place_order_limit_eq_bid {bk : OrderBook α} {o : Order α}
    (hty : o.order_type_enum = OrderTypeEnum.LIMIT)
    (hside : o.bid_ask_enum = BidAskEnum.BID) :
    bk.place_order o =
      if 0 < (limitMatch false (sidePred BidAskEnum.BID) bk.cleanBoth o).2.quantity then
        placeRest false (limitMatch false (sidePred BidAskEnum.BID) bk.cleanBoth o)
      else limitMatch false (sidePred BidAskEnum.BID) bk.cleanBoth o := by
  rw [OrderBook.place_order, hty, hside]
  rfl

theorem place_order_limit_eq_ask {bk : OrderBook α} {o : Order α}
    (hty : o.order_type_enum = OrderTypeEnum.LIMIT)
    (hside : o.bid_ask_enum = BidAskEnum.ASK) :
    bk.place_order o =
      if 0 < (limitMatch true (sidePred BidAskEnum.ASK) bk.cleanBoth o).2.quantity then
        placeRest true (limitMatch true (sidePred BidAskEnum.ASK) bk.cleanBoth o)
      else limitMatch true (sidePred BidAskEnum.ASK) bk.cleanBoth o := by
  rw [OrderBook.place_order, hty, hside]
  rfl

theorem mkeys_mset_self_mem {κ β : Type} [DecidableEq κ] (m : List (κ × β)) (k : κ)
    (v : β) : k ∈ mkeys (mset m k v) := by
  by_contra hno
  have hnone := (mlook_none_iff (mset m k v) k).2 hno
  rw [mlook_mset_self] at hnone
  exact Option.noConfusion hnone

/-- C4: after `place_order(o)` with a well-formed book and a fresh
order id, `o` is resting (present in the id index and in its home
side's price level) exactly when it is a LIMIT order with positive
residual quantity after matching.  A MARKET order never rests on
either side or in the id index, and its residual unmatched quantity
remains observable in the returned order, which keeps `o`'s id: the
returned quantity equals `o.quantity` minus exactly the quantity the
sweep removed from the opposite side, and it is positive exactly when
the sweep removed less than `o.quantity`. -/
theorem C4_place_order_resting (bk : OrderBook α) (o : Order α)
    (hb : SideWF true bk.bid_orders) (ha : SideWF false bk.ask_orders)
    (hfI : o.order_id ∉ mkeys bk.id_to_order_map)
    (hfB : o.order_id ∉ sideIds bk.bid_orders)
    (hfA : o.order_id ∉ sideIds bk.ask_orders)
    (hpr : o.order_type_enum = OrderTypeEnum.LIMIT → ∃ p, o.price = some p) :
    ((o.order_id ∈ mkeys (bk.place_order o).1.id_to_order_map ∧
      o.order_id ∈ sideIds ((bk.place_order o).1.sideOf o.bid_ask_enum)) ↔
      o.order_type_enum = OrderTypeEnum.LIMIT ∧ 0 < (bk.place_order o).2.quantity) ∧
    (o.order_type_enum = OrderTypeEnum.MARKET →
      o.order_id ∉ mkeys (bk.place_order o).1.id_to_order_map ∧
      o.order_id ∉ sideIds (bk.place_order o).1.bid_orders ∧
      o.order_id ∉ sideIds (bk.place_order o).1.ask_orders ∧
      (bk.place_order o).2.order_id = o.order_id ∧
      (o.bid_ask_enum = BidAskEnum.BID →
        (bk.place_order o).2.quantity =
          o.quantity - (mtotal bk.ask_orders.price_to_list_map -
            mtotal (bk.place_order o).1.ask_orders.price_to_list_map) ∧
        (0 < (bk.place_order o).2.quantity ↔
          mtotal bk.ask_orders.price_to_list_map -
            mtotal (bk.place_order o).1.ask_orders.price_to_list_map < o.quantity)) ∧
      (o.bid_ask_enum = BidAskEnum.ASK →
        (bk.place_order o).2.quantity =
          o.quantity - (mtotal bk.bid_orders.price_to_list_map -
            mtotal (bk.place_order o).1.bid_orders.price_to_list_map) ∧
        (0 < (bk.place_order o).2.quantity ↔
          mtotal bk.bid_orders.price_to_list_map -
            mtotal (bk.place_order o).1.bid_orders.price_to_list_map < o.quantity))) := by
  have hwfBc : SideWF true bk.cleanBoth.bid_orders := SideWF_cleanup hb
  have hwfAc : SideWF false bk.cleanBoth.ask_orders := SideWF_cleanup ha
  have hfBc : o.order_id ∉ sideIds bk.cleanBoth.bid_orders := by
    show o.order_id ∉ sideIds (bk.bid_orders.delete_best_cancelled_orders true)
    rw [delete_best_sideIds hb.1 hb.2.1]
    exact hfB
  have hfAc : o.order_id ∉ sideIds bk.cleanBoth.ask_orders := by
    show o.order_id ∉ sideIds (bk.ask_orders.delete_best_cancelled_orders false)
    rw [delete_best_sideIds ha.1 ha.2.1]
    exact hfA
  cases hty : o.order_type_enum with
  | LIMIT =>
    cases hside : o.bid_ask_enum with
    | BID =>
      rw [place_order_limit_eq_bid hty hside]
      obtain ⟨-, h2, h3, -, h5, h6, -, -⟩ :=
        match_limit_spec false (sidePred BidAskEnum.BID)
          ((bk.cleanBoth.oppBook false).countOrders + 2) bk.cleanBoth o hwfAc
      set L := limitMatch false (sidePred BidAskEnum.BID) bk.cleanBoth o with hL
      have h2' : L.1.oppBook true = bk.cleanBoth.bid_orders := h2
      have h3' : ∀ i ∈ mkeys L.1.id_to_order_map, i ∈ mkeys bk.id_to_order_map := h3
      have h5' : L.2.order_id = o.order_id := h5
      have h6' : L.2.price = o.price := h6
      refine ⟨?_, fun hm => OrderTypeEnum.noConfusion hm⟩
      by_cases hq : 0 < L.2.quantity
      · rw [if_pos hq]
        obtain ⟨p, hp⟩ := hpr hty
        have hwfHome : SideWF true (L.1.oppBook true) := by rw [h2']; exact hwfBc
        have hpL : L.2.price = some p := by rw [h6', hp]
        have hidH : L.2.order_id ∉ sideIds (L.1.oppBook true) := by
          rw [h5', h2']
          exact hfBc
        obtain ⟨-, -, -, dll2, hdl, hoin⟩ := add_WF hwfHome hpL hidH
        have hmem2 : o.order_id ∈ sideIds ((L.1.oppBook true).add true L.2) := by
          rw [mem_sideIds]
          exact ⟨(L.2.priceQ, dll2), mlook_mem hdl, L.2, hoin, h5'⟩
        have hmem1 : o.order_id ∈ mkeys (placeRest false L).1.id_to_order_map := by
          rw [← h5']
          exact mkeys_mset_self_mem _ _ _
        exact iff_of_true ⟨hmem1, hmem2⟩ ⟨rfl, hq⟩
      · rw [if_neg hq]
        exact iff_of_false (fun h => hfI (h3' _ h.1)) (fun h => hq h.2)
    | ASK =>
      rw [place_order_limit_eq_ask hty hside]
      obtain ⟨-, h2, h3, -, h5, h6, -, -⟩ :=
        match_limit_spec true (sidePred BidAskEnum.ASK)
          ((bk.cleanBoth.oppBook true).countOrders + 2) bk.cleanBoth o hwfBc
      set L := limitMatch true (sidePred BidAskEnum.ASK) bk.cleanBoth o with hL
      have h2' : L.1.oppBook false = bk.cleanBoth.ask_orders := h2
      have h3' : ∀ i ∈ mkeys L.1.id_to_order_map, i ∈ mkeys bk.id_to_order_map := h3
      have h5' : L.2.order_id = o.order_id := h5
      have h6' : L.2.price = o.price := h6
      refine ⟨?_, fun hm => OrderTypeEnum.noConfusion hm⟩
      by_cases hq : 0 < L.2.quantity
      · rw [if_pos hq]
        obtain ⟨p, hp⟩ := hpr hty
        have hwfHome : SideWF false (L.1.oppBook false) := by rw [h2']; exact hwfAc
        have hpL : L.2.price = some p := by rw [h6', hp]
        have hidH : L.2.order_id ∉ sideIds (L.1.oppBook false) := by
          rw [h5', h2']
          exact hfAc
        obtain ⟨-, -, -, dll2, hdl, hoin⟩ := add_WF hwfHome hpL hidH
        have hmem2 : o.order_id ∈ sideIds ((L.1.oppBook false).add false L.2) := by
          rw [mem_sideIds]
          exact ⟨(L.2.priceQ, dll2), mlook_mem hdl, L.2, hoin, h5'⟩
        have hmem1 : o.order_id ∈ mkeys (placeRest true L).1.id_to_order_map := by
          rw [← h5']
          exact mkeys_mset_self_mem _ _ _
        exact iff_of_true ⟨hmem1, hmem2⟩ ⟨rfl, hq⟩
      · rw [if_neg hq]
        exact iff_of_false (fun h => hfI (h3' _ h.1)) (fun h => hq h.2)
  | MARKET =>
    cases hside : o.bid_ask_enum with
    | BID =>
      rw [place_order_market_bid hty hside]
      obtain ⟨-, h2, h3, h4, h5, -, -, -⟩ :=
        match_market_spec false ((bk.cleanBoth.oppBook false).countOrders + 2)
          bk.cleanBoth o hwfAc
      set M := OrderBook.match_market_order false
        ((bk.cleanBoth.oppBook false).countOrders + 2) bk.cleanBoth o with hM
      have h2' : M.1.oppBook true = bk.cleanBoth.bid_orders := h2
      have hc1 : o.order_id ∉ mkeys M.1.id_to_order_map := fun h => hfI (h3 _ h)
      have hc2 : o.order_id ∉ sideIds M.1.bid_orders := by
        show o.order_id ∉ sideIds (M.1.oppBook true)
        rw [h2']
        exact hfBc
      have hc3 : o.order_id ∉ sideIds M.1.ask_orders := fun h => hfAc (h4 _ h)
      have hc4 : M.2.order_id = o.order_id := h5
      have htotA : mtotal (M.1.oppBook false).price_to_list_map + o.quantity =
          mtotal (bk.cleanBoth.oppBook false).price_to_list_map + M.2.quantity :=
        match_market_total false ((bk.cleanBoth.oppBook false).countOrders + 2)
          bk.cleanBoth o hwfAc
      have hclean : mtotal (bk.cleanBoth.oppBook false).price_to_list_map =
          mtotal bk.ask_orders.price_to_list_map := by
        show mtotal
          (bk.ask_orders.delete_best_cancelled_orders false).price_to_list_map =
          mtotal bk.ask_orders.price_to_list_map
        exact delete_best_total _ _
      rw [hclean] at htotA
      have hres : M.2.quantity = o.quantity -
          (mtotal bk.ask_orders.price_to_list_map -
            mtotal M.1.ask_orders.price_to_list_map) := by
        have ha2 : mtotal bk.ask_orders.price_to_list_map + M.2.quantity =
            mtotal M.1.ask_orders.price_to_list_map + o.quantity := htotA.symm
        have ha3 : M.2.quantity =
            mtotal M.1.ask_orders.price_to_list_map + o.quantity -
              mtotal bk.ask_orders.price_to_list_map := by
          rw [← ha2]
          abel
        rw [ha3]
        abel
      have hpos : 0 < M.2.quantity ↔
          mtotal bk.ask_orders.price_to_list_map -
            mtotal M.1.ask_orders.price_to_list_map < o.quantity := by
        rw [hres]
        exact sub_pos
      exact ⟨iff_of_false (fun h => hc1 h.1)
          (fun h => OrderTypeEnum.noConfusion h.1),
        fun _ => ⟨hc1, hc2, hc3, hc4, fun _ => ⟨hres, hpos⟩,
          fun h => BidAskEnum.noConfusion h⟩⟩
    | ASK =>
      rw [place_order_market_ask hty hside]
      obtain ⟨-, h2, h3, h4, h5, -, -, -⟩ :=
        match_market_spec true ((bk.cleanBoth.oppBook true).countOrders + 2)
          bk.cleanBoth o hwfBc
      set M := OrderBook.match_market_order true
        ((bk.cleanBoth.oppBook true).countOrders + 2) bk.cleanBoth o with hM
      have h2' : M.1.oppBook false = bk.cleanBoth.ask_orders := h2
      have hc1 : o.order_id ∉ mkeys M.1.id_to_order_map := fun h => hfI (h3 _ h)
      have hc2 : o.order_id ∉ sideIds M.1.bid_orders := fun h => hfBc (h4 _ h)
      have hc3 : o.order_id ∉ sideIds M.1.ask_orders := by
        show o.order_id ∉ sideIds (M.1.oppBook false)
        rw [h2']
        exact hfAc
      have hc4 : M.2.order_id = o.order_id := h5
      have htotA : mtotal (M.1.oppBook true).price_to_list_map + o.quantity =
          mtotal (bk.cleanBoth.oppBook true).price_to_list_map + M.2.quantity :=
        match_market_total true ((bk.cleanBoth.oppBook true).countOrders + 2)
          bk.cleanBoth o hwfBc
      have hclean : mtotal (bk.cleanBoth.oppBook true).price_to_list_map =
          mtotal bk.bid_orders.price_to_list_map := by
        show mtotal
          (bk.bid_orders.delete_best_cancelled_orders true).price_to_list_map =
          mtotal bk.bid_orders.price_to_list_map
        exact delete_best_total _ _
      rw [hclean] at htotA
      have hres : M.2.quantity = o.quantity -
          (mtotal bk.bid_orders.price_to_list_map -
            mtotal M.1.bid_orders.price_to_list_map) := by
        have ha2 : mtotal bk.bid_orders.price_to_list_map + M.2.quantity =
            mtotal M.1.bid_orders.price_to_list_map + o.quantity := htotA.symm
        have ha3 : M.2.quantity =
            mtotal M.1.bid_orders.price_to_list_map + o.quantity -
              mtotal bk.bid_orders.price_to_list_map := by
          rw [← ha2]
          abel
        rw [ha3]
        abel
      have hpos : 0 < M.2.quantity ↔
          mtotal bk.bid_orders.price_to_list_map -
            mtotal M.1.bid_orders.price_to_list_map < o.quantity := by
        rw [hres]
        exact sub_pos
      exact ⟨iff_of_false (fun h => hc1 h.1)
          (fun h => OrderTypeEnum.noConfusion h.1),
        fun _ => ⟨hc1, hc2, hc3, hc4, fun h => BidAskEnum.noConfusion h,
          fun _ => ⟨hres, hpos⟩⟩⟩
  | TRIGGER =>
    rw [place_order_trigger hty]
    exact ⟨iff_of_false (fun h => hfI h.1)
        (fun h => OrderTypeEnum.noConfusion h.1),
      fun hm => OrderTypeEnum.noConfusion hm⟩

/-- A fresh non-crossing LIMIT bid used by the C4 witness. -/
def c4Order : Order Int :=
  ⟨5, 0, OrderTypeEnum.LIMIT, BidAskEnum.BID, some 50, 7, "client"⟩

/-- A market bid for 25 used by the C4 witness: it sweeps the sample
book's lone ask of 10 and leaves a residual of 15. -/
def c4Market : Order Int :=
  ⟨6, 0, OrderTypeEnum.MARKET, BidAskEnum.BID, none, 25, "client"⟩

/-- Witness for C4: placing the fresh bid on the sample book rests it,
and the market bid's returned quantity is its residual (25 minus the
10 the sweep removed from the ask side). -/
theorem C4_place_order_resting_witness :
    ((c4Order.order_id ∈ mkeys (sampleBook.place_order c4Order).1.id_to_order_map ∧
      c4Order.order_id ∈
        sideIds ((sampleBook.place_order c4Order).1.sideOf c4Order.bid_ask_enum)) ↔
      c4Order.order_type_enum = OrderTypeEnum.LIMIT ∧
        0 < (sampleBook.place_order c4Order).2.quantity) ∧
    (sampleBook.place_order c4Market).2.quantity =
      c4Market.quantity - (mtotal sampleBook.ask_orders.price_to_list_map -
        mtotal (sampleBook.place_order c4Market).1.ask_orders.price_to_list_map) :=
  ⟨(C4_place_order_resting sampleBook c4Order (by decide) (by decide) (by decide)
      (by decide) (by decide) (fun _ => ⟨50, rfl⟩)).1,
   (((C4_place_order_resting sampleBook c4Market (by decide) (by decide) (by decide)
      (by decide) (by decide) (fun h => absurd h (by decide))).2
        (by decide)).2.2.2.2.1 rfl).1⟩

/-- `place_order` keeps both side books well-formed. -/
theorem place_order_SideWF (bk : OrderBook α) (o : Order α)
    (hb : SideWF true bk.bid_orders) (ha : SideWF false bk.ask_orders)
    (hfB : o.order_id ∉ sideIds bk.bid_orders)
    (hfA : o.order_id ∉ sideIds bk.ask_orders)
    (hpr : o.order_type_enum = OrderTypeEnum.LIMIT → ∃ p, o.price = some p) :
    SideWF true (bk.place_order o).1.bid_orders ∧
    SideWF false (bk.place_order o).1.ask_orders := by
  have hwfBc : SideWF true bk.cleanBoth.bid_orders := SideWF_cleanup hb
  have hwfAc : SideWF false bk.cleanBoth.ask_orders := SideWF_cleanup ha
  have hfBc : o.order_id ∉ sideIds bk.cleanBoth.bid_orders := by
    show o.order_id ∉ sideIds (bk.bid_orders.delete_best_cancelled_orders true)
    rw [delete_best_sideIds hb.1 hb.2.1]
    exact hfB
  have hfAc : o.order_id ∉ sideIds bk.cleanBoth.ask_orders := by
    show o.order_id ∉ sideIds (bk.ask_orders.delete_best_cancelled_orders false)
    rw [delete_best_sideIds ha.1 ha.2.1]
    exact hfA
  cases hty : o.order_type_enum with
  | LIMIT =>
    cases hside : o.bid_ask_enum with
    | BID =>
      rw [place_order_limit_eq_bid hty hside]
      obtain ⟨h1, h2, -, -, h5, h6, -, -⟩ :=
        match_limit_spec false (sidePred BidAskEnum.BID)
          ((bk.cleanBoth.oppBook false).countOrders + 2) bk.cleanBoth o hwfAc
      set L := limitMatch false (sidePred BidAskEnum.BID) bk.cleanBoth o with hL
      have h1' : SideWF false L.1.ask_orders := h1
      have h2' : L.1.bid_orders = bk.cleanBoth.bid_orders := h2
      by_cases hq : 0 < L.2.quantity
      · rw [if_pos hq]
        obtain ⟨p, hp⟩ := hpr hty
        have hwfHome : SideWF true (L.1.oppBook true) := by
          show SideWF true L.1.bid_orders
          rw [h2']
          exact hwfBc
        have hpL : L.2.price = some p := by
          rw [show L.2.price = o.price from h6, hp]
        have hidH : L.2.order_id ∉ sideIds (L.1.oppBook true) := by
          show L.2.order_id ∉ sideIds L.1.bid_orders
          rw [show L.2.order_id = o.order_id from h5, h2']
          exact hfBc
        exact ⟨(add_WF hwfHome hpL hidH).1, h1'⟩
      · rw [if_neg hq]
        refine ⟨?_, h1'⟩
        rw [show L.1.bid_orders = bk.cleanBoth.bid_orders from h2']
        exact hwfBc
    | ASK =>
      rw [place_order_limit_eq_ask hty hside]
      obtain ⟨h1, h2, -, -, h5, h6, -, -⟩ :=
        match_limit_spec true (sidePred BidAskEnum.ASK)
          ((bk.cleanBoth.oppBook true).countOrders + 2) bk.cleanBoth o hwfBc
      set L := limitMatch true (sidePred BidAskEnum.ASK) bk.cleanBoth o with hL
      have h1' : SideWF true L.1.bid_orders := h1
      have h2' : L.1.ask_orders = bk.cleanBoth.ask_orders := h2
      by_cases hq : 0 < L.2.quantity
      · rw [if_pos hq]
        obtain ⟨p, hp⟩ := hpr hty
        have hwfHome : SideWF false (L.1.oppBook false) := by
          show SideWF false L.1.ask_orders
          rw [h2']
          exact hwfAc
        have hpL : L.2.price = some p := by
          rw [show L.2.price = o.price from h6, hp]
        have hidH : L.2.order_id ∉ sideIds (L.1.oppBook false) := by
          show L.2.order_id ∉ sideIds L.1.ask_orders
          rw [show L.2.order_id = o.order_id from h5, h2']
          exact hfAc
        exact ⟨h1', (add_WF hwfHome hpL hidH).1⟩
      · rw [if_neg hq]
        refine ⟨h1', ?_⟩
        rw [show L.1.ask_orders = bk.cleanBoth.ask_orders from h2']
        exact hwfAc
  | MARKET =>
    cases hside : o.bid_ask_enum with
    | BID =>
      rw [place_order_market_bid hty hside]
      obtain ⟨h1, h2, -, -, -, -, -, -⟩ :=
        match_market_spec false ((bk.cleanBoth.oppBook false).countOrders + 2)
          bk.cleanBoth o hwfAc
      set M := OrderBook.match_market_order false
        ((bk.cleanBoth.oppBook false).countOrders + 2) bk.cleanBoth o with hM
      have h1' : SideWF false M.1.ask_orders := h1
      have h2' : M.1.bid_orders = bk.cleanBoth.bid_orders := h2
      constructor
      · show SideWF true M.1.bid_orders
        rw [h2']
        exact hwfBc
      · exact h1'
    | ASK =>
      rw [place_order_market_ask hty hside]
      obtain ⟨h1, h2, -, -, -, -, -, -⟩ :=
        match_market_spec true ((bk.cleanBoth.oppBook true).countOrders + 2)
          bk.cleanBoth o hwfBc
      set M := OrderBook.match_market_order true
        ((bk.cleanBoth.oppBook true).countOrders + 2) bk.cleanBoth o with hM
      have h1' : SideWF true M.1.bid_orders := h1
      have h2' : M.1.ask_orders = bk.cleanBoth.ask_orders := h2
      constructor
      · exact h1'
      · show SideWF false M.1.ask_orders
        rw [h2']
        exact hwfAc
  | TRIGGER =>
    rw [place_order_trigger hty]
    exact ⟨hwfBc, hwfAc⟩

/-- `cancel_order` keeps both side books well-formed. -/
theorem cancel_SideWF (bk : OrderBook α) (oid : Int) (hwf : bk.WF) :
    SideWF true (bk.cancel_order oid).bid_orders ∧
    SideWF false (bk.cancel_order oid).ask_orders := by
  obtain ⟨hwfB, hwfA, halign, hidk, hallid⟩ := hwf
  cases hco : mlook bk.id_to_order_map oid with
  | none =>
    rw [cancel_order_absent hco]
    exact ⟨hwfB, hwfA⟩
  | some co =>
    obtain ⟨hcoid, hcolvl⟩ := halign (oid, co) (mlook_mem hco)
    cases hl : mlook (bk.sideOf co.bid_ask_enum).price_to_list_map co.priceQ with
    | none =>
      exfalso
      rw [hl] at hcolvl
      simp [DoublyLinkedList.empty] at hcolvl
    | some dll =>
      rw [hl] at hcolvl
      simp only [Option.getD_some] at hcolvl
      cases hside : co.bid_ask_enum with
      | BID =>
        rw [hside] at hl
        have hfound := delete_order_found hwfB
          (by rw [show bk.sideOf BidAskEnum.BID = bk.bid_orders from rfl] at hl; exact hl)
          hcolvl
        rw [cancel_order_found_bid hco hside]
        exact ⟨hfound.1, hwfA⟩
      | ASK =>
        rw [hside] at hl
        have hfound := delete_order_found hwfA
          (by rw [show bk.sideOf BidAskEnum.ASK = bk.ask_orders from rfl] at hl; exact hl)
          hcolvl
        rw [cancel_order_found_ask hco hside]
        exact ⟨hwfB, hfound.1⟩

/-- C6: invariant I2 — every price bound in a side's maps aggregates
to the sum of its FIFO's quantities (`SideInvMaps`) — holds on both
sides after each public operation: `place_order`, `cancel_order`, and
the mutating best-order queries. -/
theorem C6_sum_invariant (bk : OrderBook α) (o : Order α) (oid : Int)
    (hwf : bk.WF)
    (hfB : o.order_id ∉ sideIds bk.bid_orders)
    (hfA : o.order_id ∉ sideIds bk.ask_orders)
    (hpr : o.order_type_enum = OrderTypeEnum.LIMIT → ∃ p, o.price = some p) :
    (SideInvMaps (bk.place_order o).1.bid_orders ∧
     SideInvMaps (bk.place_order o).1.ask_orders) ∧
    (SideInvMaps (bk.cancel_order oid).bid_orders ∧
     SideInvMaps (bk.cancel_order oid).ask_orders) ∧
    (SideInvMaps (bk.get_best_bid_order).1.bid_orders ∧
     SideInvMaps (bk.get_best_bid_order).1.ask_orders) ∧
    (SideInvMaps (bk.get_best_ask_order).1.bid_orders ∧
     SideInvMaps (bk.get_best_ask_order).1.ask_orders) := by
  have hplace := place_order_SideWF bk o hwf.1 hwf.2.1 hfB hfA hpr
  have hcancel := cancel_SideWF bk oid hwf
  have hq1 : SideWF true (bk.get_best_bid_order).1.bid_orders := by
    rw [OrderBook.get_best_bid_order_fst]
    show SideWF true (bk.bid_orders.get_best_order true).1
    rw [get_best_order_fst]
    exact SideWF_cleanup hwf.1
  have hq2 : SideWF false (bk.get_best_bid_order).1.ask_orders := by
    rw [OrderBook.get_best_bid_order_fst]
    exact hwf.2.1
  have hq3 : SideWF true (bk.get_best_ask_order).1.bid_orders := by
    rw [OrderBook.get_best_ask_order_fst]
    exact hwf.1
  have hq4 : SideWF false (bk.get_best_ask_order).1.ask_orders := by
    rw [OrderBook.get_best_ask_order_fst]
    show SideWF false (bk.ask_orders.get_best_order false).1
    rw [get_best_order_fst]
    exact SideWF_cleanup hwf.2.1
  exact ⟨⟨hplace.1.1, hplace.2.1⟩, ⟨hcancel.1.1, hcancel.2.1⟩,
    ⟨hq1.1, hq2.1⟩, ⟨hq3.1, hq4.1⟩⟩

/-- Witness for C6 on the sample book and the fresh bid. -/
theorem C6_sum_invariant_witness :
    SideInvMaps (sampleBook.place_order c4Order).1.bid_orders ∧
    SideInvMaps (sampleBook.cancel_order 1).bid_orders :=
  ⟨(C6_sum_invariant sampleBook c4Order 1 (by decide) (by decide) (by decide)
      (fun _ => ⟨50, rfl⟩)).1.1,
   (C6_sum_invariant sampleBook c4Order 1 (by decide) (by decide) (by decide)
      (fun _ => ⟨50, rfl⟩)).2.1.1⟩

/-- C7 amended: on a well-formed book whose lazy heaps are already
clean, placing a fresh non-crossing LIMIT order and cancelling it
restores the book exactly — id index, both sides' maps, and the whole
opposite side — except that when the placement opened a new price
level, the home side's heap retains that level's (now stale) key.
The original claim's "up to id-index key churn" is refuted by the
counterexample: the id index is restored exactly, and it is the home
heap that can differ. -/
theorem C7_place_cancel_roundtrip (bk : OrderBook α) (o : Order α) (p : α)
    (hwf : bk.WF)
    (hclB : bk.bid_orders.delete_best_cancelled_orders true = bk.bid_orders)
    (hclA : bk.ask_orders.delete_best_cancelled_orders false = bk.ask_orders)
    (hty : o.order_type_enum = OrderTypeEnum.LIMIT)
    (hq : 0 < o.quantity)
    (hp : o.price = some p)
    (hfI : o.order_id ∉ mkeys bk.id_to_order_map)
    (hfB : o.order_id ∉ sideIds bk.bid_orders)
    (hfA : o.order_id ∉ sideIds bk.ask_orders)
    (hncB : o.bid_ask_enum = BidAskEnum.BID → ∀ best,
      (bk.ask_orders.get_best_order false).2 = some best → ¬ best.priceQ ≤ o.priceQ)
    (hncA : o.bid_ask_enum = BidAskEnum.ASK → ∀ best,
      (bk.bid_orders.get_best_order true).2 = some best → ¬ o.priceQ ≤ best.priceQ) :
    (bk.place_order o).1.cancel_order o.order_id = bk ∨
    (o.bid_ask_enum = BidAskEnum.BID ∧
      (bk.place_order o).1.cancel_order o.order_id =
        { bk with bid_orders := { bk.bid_orders with
            price_heap := heapPush bk.bid_orders.price_heap (heap_key true o.priceQ) } }) ∨
    (o.bid_ask_enum = BidAskEnum.ASK ∧
      (bk.place_order o).1.cancel_order o.order_id =
        { bk with ask_orders := { bk.ask_orders with
            price_heap := heapPush bk.ask_orders.price_heap
              (heap_key false o.priceQ) } }) := by
  obtain ⟨hwfB, hwfA, halign, hidk, hallid⟩ := hwf
  have hcb : bk.cleanBoth = bk := by
    rw [OrderBook.cleanBoth, hclB, hclA]
  have hfI' : mlook bk.id_to_order_map o.order_id = none := (mlook_none_iff _ _).2 hfI
  cases hside : o.bid_ask_enum with
  | BID =>
    have hloop : limitMatch false (sidePred BidAskEnum.BID) bk o = (bk, o) := by
      show OrderBook.match_limit_order false (sidePred BidAskEnum.BID)
        ((bk.oppBook false).countOrders + 1 + 1) bk o = (bk, o)
      rcases hga : (bk.oppBook false).get_best_order false with ⟨opp1, bestOpt⟩
      have hopp1 : opp1 = bk.ask_orders := by
        have h := get_best_order_fst false (bk.oppBook false)
        rw [hga] at h
        exact h.trans hclA
      cases bestOpt with
      | none =>
        have h : OrderBook.match_limit_order false (sidePred BidAskEnum.BID)
            ((bk.oppBook false).countOrders + 1 + 1) bk o =
              (bk.setOpp false opp1, o) := match_limit_none _ hq hga
        rw [h, hopp1]
        rfl
      | some best =>
        have hsnd : ((bk.oppBook false).get_best_order false).2 = some best := by
          rw [hga]
        have hnc := hncB hside best hsnd
        have hpred : sidePred BidAskEnum.BID o.priceQ best.priceQ = false := by
          rw [sidePred, if_pos rfl]
          exact decide_eq_false hnc
        have h : OrderBook.match_limit_order false (sidePred BidAskEnum.BID)
            ((bk.oppBook false).countOrders + 1 + 1) bk o =
              (bk.setOpp false opp1, o) := match_limit_nopred _ hq hga hpred
        rw [h, hopp1]
        rfl
    have hplace : bk.place_order o = placeRest false (bk, o) := by
      rw [place_order_limit_eq_bid hty hside, hcb, hloop,
        if_pos (show (0 : α) < ((bk, o) : OrderBook α × Order α).2.quantity from hq)]
    have hlook1 : mlook (placeRest false (bk, o)).1.id_to_order_map o.order_id =
        some o := mlook_mset_self _ _ _
    have hcan := cancel_order_found_bid hlook1 hside
    rw [hplace, hcan]
    cases hl : mlook bk.bid_orders.price_to_list_map o.priceQ with
    | some dll =>
      left
      have hrt := (@add_delete_roundtrip α _ true bk.bid_orders o p hwfB.1 hwfB.2.1 hp hfB).1 dll hl
      show (⟨mdel (mset bk.id_to_order_map o.order_id o) o.order_id,
        (bk.bid_orders.add true o).delete_order o, bk.ask_orders⟩ : OrderBook α) = bk
      rw [hrt, mdel_mset, mdel_absent hfI']
    | none =>
      right
      left
      refine ⟨rfl, ?_⟩
      have hrt := (@add_delete_roundtrip α _ true bk.bid_orders o p hwfB.1 hwfB.2.1 hp hfB).2 hl
      show (⟨mdel (mset bk.id_to_order_map o.order_id o) o.order_id,
        (bk.bid_orders.add true o).delete_order o, bk.ask_orders⟩ : OrderBook α) =
        { bk with bid_orders := { bk.bid_orders with
            price_heap := heapPush bk.bid_orders.price_heap (heap_key true o.priceQ) } }
      rw [hrt, mdel_mset, mdel_absent hfI']
  | ASK =>
    have hloop : limitMatch true (sidePred BidAskEnum.ASK) bk o = (bk, o) := by
      show OrderBook.match_limit_order true (sidePred BidAskEnum.ASK)
        ((bk.oppBook true).countOrders + 1 + 1) bk o = (bk, o)
      rcases hga : (bk.oppBook true).get_best_order true with ⟨opp1, bestOpt⟩
      have hopp1 : opp1 = bk.bid_orders := by
        have h := get_best_order_fst true (bk.oppBook true)
        rw [hga] at h
        exact h.trans hclB
      cases bestOpt with
      | none =>
        have h : OrderBook.match_limit_order true (sidePred BidAskEnum.ASK)
            ((bk.oppBook true).countOrders + 1 + 1) bk o =
              (bk.setOpp true opp1, o) := match_limit_none _ hq hga
        rw [h, hopp1]
        rfl
      | some best =>
        have hsnd : ((bk.oppBook true).get_best_order true).2 = some best := by
          rw [hga]
        have hnc := hncA hside best hsnd
        have hpred : sidePred BidAskEnum.ASK o.priceQ best.priceQ = false := by
          rw [sidePred, if_neg (by intro hx; exact BidAskEnum.noConfusion hx)]
          exact decide_eq_false hnc
        have h : OrderBook.match_limit_order true (sidePred BidAskEnum.ASK)
            ((bk.oppBook true).countOrders + 1 + 1) bk o =
              (bk.setOpp true opp1, o) := match_limit_nopred _ hq hga hpred
        rw [h, hopp1]
        rfl
    have hplace : bk.place_order o = placeRest true (bk, o) := by
      rw [place_order_limit_eq_ask hty hside, hcb, hloop,
        if_pos (show (0 : α) < ((bk, o) : OrderBook α × Order α).2.quantity from hq)]
    have hlook1 : mlook (placeRest true (bk, o)).1.id_to_order_map o.order_id =
        some o := mlook_mset_self _ _ _
    have hcan := cancel_order_found_ask hlook1 hside
    rw [hplace, hcan]
    cases hl : mlook bk.ask_orders.price_to_list_map o.priceQ with
    | some dll =>
      left
      have hrt := (@add_delete_roundtrip α _ false bk.ask_orders o p hwfA.1 hwfA.2.1 hp hfA).1 dll hl
      show (⟨mdel (mset bk.id_to_order_map o.order_id o) o.order_id,
        bk.bid_orders, (bk.ask_orders.add false o).delete_order o⟩ : OrderBook α) = bk
      rw [hrt, mdel_mset, mdel_absent hfI']
    | none =>
      right
      right
      refine ⟨rfl, ?_⟩
      have hrt := (@add_delete_roundtrip α _ false bk.ask_orders o p hwfA.1 hwfA.2.1 hp hfA).2 hl
      show (⟨mdel (mset bk.id_to_order_map o.order_id o) o.order_id,
        bk.bid_orders, (bk.ask_orders.add false o).delete_order o⟩ : OrderBook α) =
        { bk with ask_orders := { bk.ask_orders with
            price_heap := heapPush bk.ask_orders.price_heap (heap_key false o.priceQ) } }
      rw [hrt, mdel_mset, mdel_absent hfI']

/-- Witness for the amended C7: placing the fresh non-crossing bid at
the new level 50 on the sample book and cancelling it restores
everything except (at most) a stale bid-heap key. -/
theorem C7_place_cancel_roundtrip_witness :
    (sampleBook.place_order c4Order).1.cancel_order c4Order.order_id = sampleBook ∨
    (c4Order.bid_ask_enum = BidAskEnum.BID ∧
      (sampleBook.place_order c4Order).1.cancel_order c4Order.order_id =
        { sampleBook with bid_orders := { sampleBook.bid_orders with
            price_heap := heapPush sampleBook.bid_orders.price_heap
              (heap_key true c4Order.priceQ) } }) ∨
    (c4Order.bid_ask_enum = BidAskEnum.ASK ∧
      (sampleBook.place_order c4Order).1.cancel_order c4Order.order_id =
        { sampleBook with ask_orders := { sampleBook.ask_orders with
            price_heap := heapPush sampleBook.ask_orders.price_heap
              (heap_key false c4Order.priceQ) } }) :=
  C7_place_cancel_roundtrip sampleBook c4Order 50 (by decide) (by decide) (by decide)
    (by decide) (by decide) (by decide) (by decide) (by decide) (by decide)
    (by
      intro _ best hbest
      have h1 : (some sampleAsk : Option (Order Int)) = some best := by
        rw [← hbest]
        decide
      cases h1
      decide)
    (fun hA => absurd hA (by decide))
